import Mathlib

/-!
Verification development for the whatwg-url repository (src/whatwg_url/parser.py).
The Python source is embedded shallowly: strings of code points become List Char,
optional values become Option, the parser object becomes an explicit Machine record,
and the two internal exceptions (_UrlParserReturn and UrlParserError) become
constructors of a step-result type.  External collaborators of the source
(the ipaddress module, the idna module and text codecs) are modelled with
doc comments saying so; every other definition is a direct translation of the
source file.
-/

namespace WhatwgUrl

/-- Shorthand turning a string literal into the list of its code points. -/
def str (s : String) : List Char := s.data

/-- ASCII_ALPHA from the source (string.ascii_letters). -/
def asciiAlpha (c : Char) : Bool := decide (('a' ≤ c ∧ c ≤ 'z') ∨ ('A' ≤ c ∧ c ≤ 'Z'))

/-- ASCII_DIGITS from the source (string.digits). -/
def asciiDigit (c : Char) : Bool := decide ('0' ≤ c ∧ c ≤ '9')

/-- ASCII_ALPHANUMERIC from the source. -/
def asciiAlphanumeric (c : Char) : Bool := asciiAlpha c || asciiDigit c

/-- Hexadecimal digit test used by the percent decoder and TWO_ASCII_HEX. -/
def asciiHexDigit (c : Char) : Bool :=
  asciiDigit c || decide (('a' ≤ c ∧ c ≤ 'f') ∨ ('A' ≤ c ∧ c ≤ 'F'))

/-- SCHEME_CHARS from the source: alphanumeric plus "+-.". -/
def schemeChar (c : Char) : Bool :=
  asciiAlphanumeric c || decide (c = '+' ∨ c = '-' ∨ c = '.')

/-- Python str.lower restricted to the ASCII letters that reach it in the source. -/
def toLowerAscii (c : Char) : Char :=
  if 'A' ≤ c ∧ c ≤ 'Z' then Char.ofNat (c.toNat + 32) else c

/-- The NONCHARACTERS set of the source, written arithmetically: U+FDD0..U+FDEF and
the two final code points of every plane up to U+10FFFF. -/
def isNoncharacter (n : Nat) : Bool :=
  decide ((0xfdd0 ≤ n ∧ n ≤ 0xfdef) ∨
    ((n % 0x10000 = 0xfffe ∨ n % 0x10000 = 0xffff) ∧ n ≤ 0x10ffff))

/-- URL_CODEPOINTS base set from the source. -/
def urlCodepointAscii (c : Char) : Bool :=
  asciiAlphanumeric c ||
    decide (c = '!' ∨ c = '$' ∨ c = '&' ∨ c = Char.ofNat 39 ∨ c = '(' ∨ c = ')' ∨
      c = '*' ∨ c = '+' ∨ c = ',' ∨ c = '-' ∨ c = '.' ∨ c = '/' ∨ c = ':' ∨
      c = ';' ∨ c = '=' ∨ c = '?' ∨ c = '@' ∨ c = '_' ∨ c = '~')

/-- _is_url_codepoint from the source. -/
def isUrlCodepoint (c : Char) : Bool :=
  urlCodepointAscii c ||
    (let n := c.toNat
     decide (0xa0 ≤ n ∧ n ≤ 0x10fffd ∧ ¬(0xd800 ≤ n ∧ n ≤ 0xdfff) ∧
       ¬(0xfdd0 ≤ n ∧ n ≤ 0xfdef)) && !isNoncharacter n)

/-- _is_c0_control_or_space from the source. -/
def isC0ControlOrSpace (c : Char) : Bool := decide (c = ' ' ∨ c.toNat ≤ 0x1f)

/-- Tab, line feed or carriage return: the code points removed by the driver. -/
def isTabOrNewline (c : Char) : Bool := decide (c = '\t' ∨ c = '\n' ∨ c = '\r')

/-- C0_PERCENT_ENCODE from the source: chr(0) .. chr(0x1f). -/
def inC0Set (c : Char) : Bool := decide (c.toNat < 0x20)

/-- FRAGMENT_PERCENT_ENCODE from the source. -/
def inFragmentSet (c : Char) : Bool :=
  inC0Set c || decide (c = ' ' ∨ c = Char.ofNat 34 ∨ c = '<' ∨ c = '>' ∨ c = Char.ofNat 96)

/-- PATH_PERCENT_ENCODE from the source. -/
def inPathSet (c : Char) : Bool :=
  inFragmentSet c || decide (c = '#' ∨ c = '?' ∨ c = Char.ofNat 123 ∨ c = Char.ofNat 125)

/-- USERINFO_PERCENT_ENCODE from the source. -/
def inUserinfoSet (c : Char) : Bool :=
  inPathSet c || decide (c = '/' ∨ c = ':' ∨ c = ';' ∨ c = '=' ∨ c = '@' ∨
    c = '[' ∨ c = Char.ofNat 92 ∨ c = ']' ∨ c = '^' ∨ c = '|')

/-- FORBIDDEN_HOST_CODE_POINTS exactly as listed in the source.  Note that the
source list ends with "]" and does not contain the vertical bar. -/
def forbiddenHostCodePoints : List Char :=
  ['\x00', '\t', '\n', '\r', ' ', '#', '%', '/', ':', '?', '@', '[', Char.ofNat 92, ']']

/-- SINGLE_DOT_PATH_SEGMENTS from the source. -/
def singleDotSegments : List (List Char) := [str ".", str "%2e", str "%2E"]

/-- DOUBLE_DOT_PATH_SEGMENTS from the source. -/
def doubleDotSegments : List (List Char) :=
  [str "..", str ".%2e", str ".%2E", str "%2e.", str "%2e%2e", str "%2e%2E",
   str "%2E.", str "%2E%2e", str "%2E%2E"]

/-- The WINDOWS_DRIVE_LETTER regular expression of the source,
"^[a-zA-Z][:|][/\\?#]?", used via search and match: since the third character
class is optional, the test only requires an ASCII letter followed by a colon
or vertical bar. -/
def windowsDriveLetter (s : List Char) : Bool :=
  match s with
  | a :: b :: _ => asciiAlpha a && decide (b = ':' ∨ b = '|')
  | _ => false

/-- The NORMALIZED_WINDOWS_DRIVE_LETTER regular expression "^[a-zA-Z][:]$" used
via match.  The dollar anchor of the re module also matches just before a
final newline, which the second case mirrors. -/
def normalizedWindowsDrive (s : List Char) : Bool :=
  match s with
  | [a, b] => asciiAlpha a && decide (b = ':')
  | [a, b, nl] => asciiAlpha a && decide (b = ':' ∧ nl = '\n')
  | _ => false

/-- TWO_ASCII_HEX searched against a remaining string: two leading hex digits. -/
def twoAsciiHex (s : List Char) : Bool :=
  match s with
  | a :: b :: _ => asciiHexDigit a && asciiHexDigit b
  | _ => false

/-- List concatenation of the images of f, used for joins in the source. -/
def catMap (f : α → List β) : List α → List β
  | [] => []
  | a :: l => f a ++ catMap f l

/-- Bool test that a list starts with a given pattern (str.startswith). -/
def leadsWith : List Char → List Char → Bool
  | [], _ => true
  | _ :: _, [] => false
  | p :: ps, x :: xs => decide (p = x) && leadsWith ps xs

/-- Bool test that a list ends with a given pattern (str.endswith). -/
def trailsWith (p s : List Char) : Bool := leadsWith p.reverse s.reverse

/-- leadsWith over byte lists (bytes.startswith). -/
def leadsWithN : List Nat → List Nat → Bool
  | [], _ => true
  | _ :: _, [] => false
  | p :: ps, x :: xs => decide (p = x) && leadsWithN ps xs

/-- trailsWith over byte lists (bytes.endswith). -/
def trailsWithN (p s : List Nat) : Bool := leadsWithN p.reverse s.reverse

/-- The names of SPECIAL_SCHEMES from the source. -/
def specialSchemeNames : List (List Char) :=
  [str "ftp", str "gopher", str "http", str "https", str "ws", str "wss", str "file"]

/-- SPECIAL_SCHEMES.get(scheme, None): the default-port table, where file maps
to None and a scheme that is absent or not special also yields None. -/
def defaultPortPy (scheme : Option (List Char)) : Option Nat :=
  match scheme with
  | none => none
  | some s =>
    if s = str "ftp" then some 21
    else if s = str "gopher" then some 70
    else if s = str "http" then some 80
    else if s = str "https" then some 443
    else if s = str "ws" then some 80
    else if s = str "wss" then some 443
    else none

/-- scheme in SPECIAL_SCHEMES, where a None scheme is not a member. -/
def isSpecialO (scheme : Option (List Char)) : Bool :=
  match scheme with
  | none => false
  | some s => s ∈ specialSchemeNames

/-- UTF-8 encoding of one code point, byte values as Nat. -/
def utf8Bytes (c : Char) : List Nat :=
  let n := c.toNat
  if n < 0x80 then [n]
  else if n < 0x800 then
    [0xc0 + n / 64, 0x80 + n % 64]
  else if n < 0x10000 then
    [0xe0 + n / 4096, 0x80 + (n / 64) % 64, 0x80 + n % 64]
  else
    [0xf0 + n / 262144, 0x80 + (n / 4096) % 64, 0x80 + (n / 64) % 64, 0x80 + n % 64]

/-- Uppercase hexadecimal digit of a value below 16. -/
def hexDigitUpper (n : Nat) : Char :=
  if n < 10 then Char.ofNat (48 + n) else Char.ofNat (55 + n)

/-- One byte rendered as a percent triple with uppercase hex (f-string %{x:02X}). -/
def percentByte (b : Nat) : List Char := ['%', hexDigitUpper (b / 16), hexDigitUpper (b % 16)]

/-- percent_encode from the source: encode when the code point is in the set or
above 0x7e, otherwise pass it through. -/
def percentEncodeChar (inSet : Char → Bool) (c : Char) : List Char :=
  if inSet c || decide (c.toNat > 0x7e) then catMap percentByte (utf8Bytes c) else [c]

/-- Value of an ASCII hex digit. -/
def hexVal (b : Nat) : Nat :=
  if b ≤ 0x39 then b - 0x30 else if b ≤ 0x46 then b - 0x37 else b - 0x57

/-- is_hex from percent_decode in the source, over byte values. -/
def isHexByte (b : Nat) : Bool :=
  decide ((0x30 ≤ b ∧ b ≤ 0x39) ∨ (0x41 ≤ b ∧ b ≤ 0x46) ∨ (0x61 ≤ b ∧ b ≤ 0x66))

/-- percent_decode from the source, over byte lists: a byte other than 0x25
passes through; a percent byte followed by two hex bytes decodes them and
skips both; a percent byte without two following hex bytes passes through. -/
def percentDecode : List Nat → List Nat
  | [] => []
  | b :: h1 :: h2 :: rest2 =>
    if b ≠ 0x25 then b :: percentDecode (h1 :: h2 :: rest2)
    else if isHexByte h1 && isHexByte h2 then
      (hexVal h1 * 16 + hexVal h2) :: percentDecode rest2
    else b :: percentDecode (h1 :: h2 :: rest2)
  | b :: rest => b :: percentDecode rest

/-- str.encode("utf-8") over a list of code points. -/
def utf8Encode (s : List Char) : List Nat := catMap utf8Bytes s

/-- Continuation-byte test for the strict UTF-8 decoder. -/
def utf8Cont (b : Nat) : Bool := decide (0x80 ≤ b ∧ b ≤ 0xbf)

/-- One multi-byte UTF-8 sequence step for the strict decoder: given a lead
byte at or above 0x80 and the remaining bytes, the decoded code point and the
bytes after the sequence, or none when the sequence is ill-formed. -/
def utf8Step (b : Nat) (rest : List Nat) : Option (Nat × List Nat) :=
  if 0xc2 ≤ b ∧ b ≤ 0xdf then
    match rest with
    | c1 :: rest1 =>
      if utf8Cont c1 then some ((b - 0xc0) * 64 + (c1 - 0x80), rest1) else none
    | _ => none
  else if 0xe0 ≤ b ∧ b ≤ 0xef then
    match rest with
    | c1 :: c2 :: rest2 =>
      let lo1 := if b = 0xe0 then 0xa0 else 0x80
      let hi1 := if b = 0xed then 0x9f else 0xbf
      if decide (lo1 ≤ c1 ∧ c1 ≤ hi1) && utf8Cont c2 then
        some ((b - 0xe0) * 4096 + (c1 - 0x80) * 64 + (c2 - 0x80), rest2)
      else none
    | _ => none
  else if 0xf0 ≤ b ∧ b ≤ 0xf4 then
    match rest with
    | c1 :: c2 :: c3 :: rest3 =>
      let lo1 := if b = 0xf0 then 0x90 else 0x80
      let hi1 := if b = 0xf4 then 0x8f else 0xbf
      if decide (lo1 ≤ c1 ∧ c1 ≤ hi1) && utf8Cont c2 && utf8Cont c3 then
        some ((b - 0xf0) * 262144 + (c1 - 0x80) * 4096 + (c2 - 0x80) * 64 + (c3 - 0x80), rest3)
      else none
    | _ => none
  else none

/-- The decoding loop, driven by the length of the byte string: every step
consumes at least one byte, so the length is always enough fuel and the
zero-fuel arm is unreachable from decodeUtf8. -/
def decodeUtf8Go : Nat → List Nat → Option (List Char)
  | _, [] => some []
  | 0, _ :: _ => none
  | fuel + 1, b :: rest =>
    if b < 0x80 then (decodeUtf8Go fuel rest).map (fun l => Char.ofNat b :: l)
    else
      match utf8Step b rest with
      | some (n, rest2) => (decodeUtf8Go fuel rest2).map (fun l => Char.ofNat n :: l)
      | none => none

/-- bytes.decode("utf-8") with strict errors: returns none exactly when the
byte sequence is not well-formed UTF-8 (the source lets the resulting
UnicodeDecodeError escape). -/
def decodeUtf8 (bs : List Nat) : Option (List Char) := decodeUtf8Go bs.length bs

/-- int(s) for a string of ASCII digits. -/
def digitsToNat (s : List Char) : Nat :=
  s.foldl (fun a c => a * 10 + (c.toNat - 48)) 0

/-- Split a code point list at every separator satisfying p (re.split). -/
def splitBy (p : Char → Bool) : List Char → List (List Char)
  | [] => [[]]
  | c :: rest =>
    let r := splitBy p rest
    if p c then [] :: r
    else
      match r with
      | h :: t => (c :: h) :: t
      | [] => [[c]]

/-- The URL record of the source (class Url), with absent fields as none. -/
structure Url where
  scheme : Option (List Char) := none
  hostname : Option (List Char) := none
  port : Option Nat := none
  username : Option (List Char) := none
  password : Option (List Char) := none
  query : Option (List Char) := none
  fragment : Option (List Char) := none
  path : List (List Char) := []
  cannotBeBaseUrl : Bool := false
deriving DecidableEq, Repr

/-- Python truthiness of an optional string: None and the empty string are falsy. -/
def optTruthy : Option (List Char) → Bool
  | none => false
  | some s => !s.isEmpty

/-- includes_credentials from the source. -/
def Url.includesCredentials (u : Url) : Bool :=
  optTruthy u.username || optTruthy u.password

/-- Decimal rendering of a Nat, as in the f-strings of the source. -/
def natDecimal (n : Nat) : List Char := Nat.toDigits 10 n

/-- The path property join "".join(["/" + x for x in path]) for the list form. -/
def pathJoin (p : List (List Char)) : List Char := catMap (fun x => '/' :: x) p

/-- The f-string rendering of an optional scheme: Python formats None as "None". -/
def schemeText : Option (List Char) → List Char
  | some s => s
  | none => str "None"

/-- The href property of the source Url class.  For a cannot-be-base URL the
source indexes path[0]; parsed cannot-be-base URLs always carry exactly one
segment, modelled here with headD. -/
def Url.href (u : Url) : List Char :=
  let out := schemeText u.scheme ++ [':']
  let out :=
    match u.hostname with
    | some host =>
      let out := out ++ str "//"
      let out :=
        if u.includesCredentials then
          out ++ (if optTruthy u.username then u.username.getD [] else [])
              ++ (if optTruthy u.password then ':' :: u.password.getD [] else [])
              ++ ['@']
        else out
      let out := out ++ host
      match u.port with
      | some p => out ++ ':' :: natDecimal p
      | none => out
    | none => out
  let out := if u.hostname = none ∧ u.scheme = some (str "file") then out ++ str "//" else out
  let out := out ++ (if u.cannotBeBaseUrl then u.path.headD [] else pathJoin u.path)
  let out := match u.query with | some q => out ++ '?' :: q | none => out
  match u.fragment with | some f => out ++ '#' :: f | none => out

/-! ### Host parsing -/

/-- Result of parse_host: success, UrlParserError, or an escaping Python
exception (UnicodeDecodeError and UnicodeError are not caught by the source). -/
inductive HostRes where
  | ok (h : List Char)
  | perr
  | crash
deriving DecidableEq, Repr

/-- Modelled from the spec (external collaborator ipaddress.IPv4Address): the
constructor accepts exactly four dot-separated decimal octets, each a
non-empty all-digit string of at most three digits without a leading zero and
with value at most 255; anything else raises AddressValueError. -/
def ipv4Octet (s : List Char) : Option Nat :=
  if s.isEmpty || decide (s.length > 3) || !s.all asciiDigit then none
  else if decide (s.length > 1) && decide (s.headD '0' = '0') then none
  else
    let v := digitsToNat s
    if v ≤ 255 then some v else none

/-- Modelled from the spec (external collaborator ipaddress.IPv4Address),
see ipv4Octet. -/
def pyIPv4 (host : List Char) : Option (Nat × Nat × Nat × Nat) :=
  match splitBy (fun c => decide (c = '.')) host with
  | [a, b, c, d] =>
    match ipv4Octet a, ipv4Octet b, ipv4Octet c, ipv4Octet d with
    | some va, some vb, some vc, some vd => some (va, vb, vc, vd)
    | _, _, _, _ => none
  | _ => none

/-- str(IPv4Address(...)): canonical dotted quad. -/
def ipv4String (q : Nat × Nat × Nat × Nat) : List Char :=
  natDecimal q.1 ++ '.' :: natDecimal q.2.1 ++ '.' :: natDecimal q.2.2.1 ++
    '.' :: natDecimal q.2.2.2

/-- Lowercase hexadecimal rendering without leading zeros, for IPv6 groups. -/
def hexGroupString (n : Nat) : List Char :=
  (Nat.toDigits 16 n).map toLowerAscii

/-- Hex group of one to four digits to its value. -/
def ipv6Group (s : List Char) : Option Nat :=
  if decide (1 ≤ s.length ∧ s.length ≤ 4) && s.all asciiHexDigit then
    some (s.foldl (fun a c => a * 16 + hexVal c.toNat) 0)
  else none

/-- Index of the longest run (of length at least two) of zeros, with its length;
leftmost run wins ties, mirroring the canonical compression of ipaddress. -/
def bestZeroRun (pieces : List Nat) : Nat × Nat :=
  let runs := (List.range pieces.length).map (fun i =>
    let len := ((pieces.drop i).takeWhile (fun x => decide (x = 0))).length
    (i, len))
  runs.foldl (fun best r => if r.2 > best.2 then r else best) (0, 0)

/-- Canonical textual form of eight 16-bit pieces, compressing the longest run
of at least two zero groups. -/
def ipv6Canonical (pieces : List Nat) : List Char :=
  let (i, len) := bestZeroRun pieces
  if len ≥ 2 then
    let before := (pieces.take i).map hexGroupString
    let after := (pieces.drop (i + 1 + (len - 1))).map hexGroupString
    (catMap (fun g => g ++ [':']) before) ++ ':' ::
      (if after.isEmpty then [] else (List.intercalate [':'] after))
  else List.intercalate [':'] (pieces.map hexGroupString)

/-- Modelled from the spec (external collaborator ipaddress.IPv6Address):
colon-separated 16-bit hexadecimal groups with at most one double-colon
elision, yielding eight pieces.  Embedded IPv4 tails and zone identifiers are
modelled as failures; no claim exercises an IPv6 host. -/
def pyIPv6 (s : List Char) : Option (List Nat) :=
  let parts := splitBy (fun c => decide (c = ':')) s
  let emptyCount := (parts.filter (fun p => p.isEmpty)).length
  if emptyCount = 0 then
    if parts.length = 8 then parts.mapM ipv6Group else none
  else
    -- locate a single "::": model by splitting the raw text on the first "::"
    let n := s.length
    let idx := (List.range n).find? (fun i => leadsWith (str "::") (s.drop i))
    match idx with
    | none => none
    | some i =>
      let left := s.take i
      let right := s.drop (i + 2)
      if ((List.range right.length).find? (fun j => leadsWith (str "::") (right.drop j))).isSome
      then none
      else
        let lparts := if left.isEmpty then [] else splitBy (fun c => decide (c = ':')) left
        let rparts := if right.isEmpty then [] else splitBy (fun c => decide (c = ':')) right
        match lparts.mapM ipv6Group, rparts.mapM ipv6Group with
        | some lv, some rv =>
          if lv.length + rv.length ≤ 7 then
            some (lv ++ List.replicate (8 - lv.length - rv.length) 0 ++ rv)
          else none
        | _, _ => none

/-- Result of domain_to_ascii: success, idna.IDNAError (caught by parse_host),
or UnicodeError from encodings.idna.ToASCII (which escapes the handler). -/
inductive IdnaRes where
  | ok (s : List Char)
  | idnaErr
  | ucrash
deriving DecidableEq, Repr

/-- Modelled from the spec (external collaborator idna.uts46_remap with
std3_rules and transitional disabled): on ASCII input UTS#46 maps uppercase
letters to lowercase and leaves every other ASCII code point unchanged;
non-ASCII input, whose mapping table is not reproduced here, is modelled as
an IDNA error.  No claim exercises a non-ASCII domain. -/
def uts46Remap (s : List Char) : Option (List Char) :=
  if s.all (fun c => decide (c.toNat < 0x80)) then some (s.map toLowerAscii) else none

/-- IDNA_DOTS_REGEX separators from the source. -/
def isIdnaDot (c : Char) : Bool :=
  decide (c = '.' ∨ c = Char.ofNat 0x3002 ∨ c = Char.ofNat 0xff0e ∨ c = Char.ofNat 0xff61)

/-- Modelled from the spec (external collaborator encodings.idna.ToASCII): an
all-ASCII label is returned unchanged when its length is strictly between 0
and 64, and otherwise raises UnicodeError; the Punycode path for non-ASCII
labels is not reached because uts46Remap is modelled for ASCII only. -/
def toAsciiLabel (label : List Char) : Option (List Char) :=
  if 0 < label.length ∧ label.length < 64 then some label else none

/-- domain_to_ascii from the source with strict=False: remap, split on the
IDNA dots, drop one trailing empty label, convert each label, rejoin. -/
def domainToAscii (domain : List Char) : IdnaRes :=
  match uts46Remap domain with
  | none => .idnaErr
  | some remapped =>
    let labels := splitBy isIdnaDot remapped
    if labels = [] ∨ labels = [[]] then .idnaErr
    else
      let trailingDot := decide (labels.getLast? = some [])
      let labels := if trailingDot then labels.dropLast else labels
      match labels.mapM toAsciiLabel with
      | none => .ucrash
      | some asciiLabels =>
        .ok (List.intercalate ['.'] asciiLabels ++ (if trailingDot then ['.'] else []))

/-- parse_host from the source.  The validation_error writes of its failure
branches are dropped because the ensuing UrlParserError aborts the parse. -/
def parseHost (host : List Char) (isNotSpecial : Bool) : HostRes :=
  if leadsWith (str "[") host then
    if !trailsWith (str "]") host then .perr
    else
      match pyIPv6 ((host.drop 1).dropLast) with
      | some pieces => .ok ('[' :: ipv6Canonical pieces ++ [']'])
      | none => .perr
  else if isNotSpecial then
    if host.any (fun c => decide (c ≠ '%') && decide (c ∈ forbiddenHostCodePoints)) then .perr
    else .ok (catMap (percentEncodeChar inC0Set) host)
  else
    match decodeUtf8 (percentDecode (utf8Encode host)) with
    | none => .crash
    | some domain =>
      match domainToAscii domain with
      | .idnaErr => .perr
      | .ucrash => .crash
      | .ok ascii0 =>
        let asciiDomain := ascii0.map toLowerAscii
        if asciiDomain.any (fun c => decide (c ∈ forbiddenHostCodePoints)) then .perr
        else
          match pyIPv4 host with
          | some q => .ok (ipv4String q)
          | none => .ok asciiDomain

/-! ### The state machine -/

/-- The ParserState enumeration of the source. -/
inductive ParserState where
  | SCHEME_START | SCHEME | NO_SCHEME | SPECIAL_RELATIVE_OR_AUTHORITY
  | PATH_OR_AUTHORITY | RELATIVE | RELATIVE_SLASH | SPECIAL_AUTHORITY_SLASHES
  | SPECIAL_AUTHORITY_IGNORE_SLASHES | AUTHORITY | HOST | HOSTNAME | PORT
  | FILE | FILE_SLASH | FILE_HOST | PATH_START | PATH | CANNOT_BE_BASE_URL
  | QUERY | FRAGMENT
deriving DecidableEq, Repr

/-- The IntEnum value of each parser state in the source. -/
def ParserState.val : ParserState → Nat
  | .SCHEME_START => 1 | .SCHEME => 2 | .NO_SCHEME => 3
  | .SPECIAL_RELATIVE_OR_AUTHORITY => 4 | .PATH_OR_AUTHORITY => 5
  | .RELATIVE => 6 | .RELATIVE_SLASH => 7 | .SPECIAL_AUTHORITY_SLASHES => 8
  | .SPECIAL_AUTHORITY_IGNORE_SLASHES => 9 | .AUTHORITY => 10 | .HOST => 11
  | .HOSTNAME => 12 | .PORT => 13 | .FILE => 14 | .FILE_SLASH => 15
  | .FILE_HOST => 16 | .PATH_START => 17 | .PATH => 18
  | .CANNOT_BE_BASE_URL => 19 | .QUERY => 20 | .FRAGMENT => 21

/-- The mutable state of a UrlParser object together with its constructor
arguments.  The pointer is an integer because handlers decrement it, set it
to -1, and rewind it by the buffer length plus one. -/
structure Machine where
  url : Url := {}
  base : Option Url := none
  encoding : List Char := str "utf-8"
  stateOverride : Option ParserState := none
  validationError : Bool := false
  state : ParserState := .SCHEME_START
  pointer : Int := 0
  buffer : List Char := []
  atFlag : Bool := false
  squareBraceFlag : Bool := false
  passwordTokenSeenFlag : Bool := false
deriving Repr

/-- Outcome of one handler invocation: fall through (the driver advances the
pointer), the _UrlParserReturn exception (finish with the current URL), the
UrlParserError exception, or an escaping Python exception such as TypeError
or UnicodeDecodeError. -/
inductive StepResult where
  | next (m : Machine)
  | ret (m : Machine)
  | err
  | crash

/-- self.validation_error = True. -/
def setVE (m : Machine) : Machine := { m with validationError := true }

/-- A conditional self.validation_error = True: the flag is raised exactly
when h holds and every other field is untouched. -/
def flagIf (m : Machine) (h : Prop) [Decidable h] : Machine :=
  { m with validationError := if h then true else m.validationError }

/-- Membership of an optional current code point in AUTHORITY_DELIMITERS or
PATH_DELIMITERS (both are the set containing "", "/", "?", "#"); the EOF
sentinel, modelled as none, is a member. -/
def isDelim (c : Option Char) : Bool :=
  decide (c = none ∨ c = some '/' ∨ c = some '?' ∨ c = some '#')

/-- Lift a code point test to the optional current code point; the EOF
sentinel (the empty Python string) fails every such membership test. -/
def opt1 (p : Char → Bool) : Option Char → Bool
  | some c => p c
  | none => false

/-- The code points of the optional current code point, for c + remaining. -/
def optToList : Option Char → List Char
  | some c => [c]
  | none => []

/-- The test base is not None and base.scheme == scheme of _on_scheme. -/
def baseSchemeIs (base : Option Url) (sch : Option (List Char)) : Bool :=
  match base with
  | some b => decide (b.scheme = sch)
  | none => false

/-- _on_scheme_start. -/
def onSchemeStart (m : Machine) (c : Option Char) (_ : List Char) : StepResult :=
  if opt1 asciiAlpha c then
    .next { m with buffer := m.buffer ++ [toLowerAscii ((c.getD ' '))], state := .SCHEME }
  else if m.stateOverride = none then
    .next { m with state := .NO_SCHEME, pointer := m.pointer - 1 }
  else .err

/-- The dispatch at the end of the colon branch of _on_scheme, run on the
machine whose url already carries the committed scheme and whose buffer has
been cleared (no state override), covering the file, special-relative,
special, path-or-authority and cannot-be-base cases. -/
def schemeDispatch (m1 : Machine) (rem : List Char) : StepResult :=
  if m1.url.scheme = some (str "file") then
    .next { flagIf m1 (leadsWith (str "//") rem = false) with state := .FILE }
  else if isSpecialO m1.url.scheme ∧ baseSchemeIs m1.base m1.url.scheme then
    .next { m1 with state := .SPECIAL_RELATIVE_OR_AUTHORITY }
  else if isSpecialO m1.url.scheme then
    .next { m1 with state := .SPECIAL_AUTHORITY_SLASHES }
  else if leadsWith (str "/") rem then
    .next { m1 with state := .PATH_OR_AUTHORITY, pointer := m1.pointer + 1 }
  else
    .next { m1 with url := { m1.url with cannotBeBaseUrl := true, path := m1.url.path ++ [[]] }, state := .CANNOT_BE_BASE_URL }

/-- _on_scheme.  The first condition under a state override is a Python
chained comparison, buffer in SPECIAL_SCHEMES != scheme in SPECIAL_SCHEMES,
which evaluates as (buffer in SPECIAL_SCHEMES) and (SPECIAL_SCHEMES != scheme)
and (scheme in SPECIAL_SCHEMES); the middle comparison of a dict with an
optional string is always true. -/
def onScheme (m : Machine) (c : Option Char) (rem : List Char) : StepResult :=
  if opt1 schemeChar c then
    .next { m with buffer := m.buffer ++ [toLowerAscii (c.getD ' ')] }
  else if c = some ':' then
    if m.stateOverride ≠ none ∧ (m.buffer ∈ specialSchemeNames) ∧ isSpecialO m.url.scheme then
      .ret m
    else if m.stateOverride ≠ none ∧
        (m.url.includesCredentials ∨ m.url.port ≠ none) ∧ m.buffer = str "file" then
      .ret m
    else if m.stateOverride ≠ none ∧ m.url.scheme = some (str "file") ∧
        (m.url.hostname = none ∨ m.url.hostname = some []) then
      .ret m
    else
      let url1 : Url := { m.url with scheme := some m.buffer }
      if m.stateOverride ≠ none then
        let url2 : Url :=
          if isSpecialO url1.scheme ∧ defaultPortPy url1.scheme = url1.port then
            { url1 with port := none }
          else url1
        .ret { m with url := url2 }
      else
        schemeDispatch { m with url := url1, buffer := [] } rem
  else if m.stateOverride = none then
    .next { m with buffer := [], state := .NO_SCHEME, pointer := -1 }
  else .err

/-- _on_no_scheme. -/
def onNoScheme (m : Machine) (c : Option Char) (_ : List Char) : StepResult :=
  match m.base with
  | none => .err
  | some b =>
    if b.cannotBeBaseUrl ∧ c ≠ some '#' then .err
    else if b.cannotBeBaseUrl ∧ c = some '#' then
      .next { m with url := { m.url with scheme := b.scheme, path := b.path, query := b.query, fragment := some [], cannotBeBaseUrl := true }, state := .FRAGMENT }
    else if b.scheme ≠ some (str "file") then
      .next { m with state := .RELATIVE, pointer := m.pointer - 1 }
    else
      .next { m with state := .FILE, pointer := m.pointer - 1 }

/-- _on_special_relative_or_authority. -/
def onSpecialRelativeOrAuthority (m : Machine) (c : Option Char) (rem : List Char) :
    StepResult :=
  if c = some '/' ∧ leadsWith (str "/") rem then
    .next { m with state := .SPECIAL_AUTHORITY_IGNORE_SLASHES, pointer := m.pointer + 1 }
  else
    .next { setVE m with state := .RELATIVE, pointer := m.pointer - 1 }

/-- _on_path_or_authority. -/
def onPathOrAuthority (m : Machine) (c : Option Char) (_ : List Char) : StepResult :=
  if c = some '/' then .next { m with state := .AUTHORITY }
  else .next { m with state := .PATH, pointer := m.pointer - 1 }

/-- _on_relative.  The source reads self.base unconditionally, so a missing
base is the AttributeError crash. -/
def onRelative (m : Machine) (c : Option Char) (_ : List Char) : StepResult :=
  match m.base with
  | none => .crash
  | some b =>
    let url0 : Url := { m.url with scheme := b.scheme }
    match c with
    | none =>
      .next { m with url := { url0 with username := b.username, password := b.password, hostname := b.hostname, port := b.port, path := b.path, query := b.query } }
    | some ch =>
      if ch = '/' then .next { m with url := url0, state := .RELATIVE_SLASH }
      else if ch = '?' then
        .next { m with url := { url0 with username := b.username, password := b.password, hostname := b.hostname, port := b.port, path := b.path, query := some [] }, state := .QUERY }
      else if ch = '#' then
        .next { m with url := { url0 with username := b.username, password := b.password, hostname := b.hostname, port := b.port, path := b.path, query := b.query, fragment := some [] }, state := .FRAGMENT }
      else if isSpecialO url0.scheme ∧ ch = Char.ofNat 92 then
        .next { setVE { m with url := url0 } with state := .RELATIVE_SLASH }
      else
        .next { m with url := { url0 with username := b.username, password := b.password, hostname := b.hostname, port := b.port, path := b.path.dropLast }, state := .PATH, pointer := m.pointer - 1 }

/-- _on_relative_slash. -/
def onRelativeSlash (m : Machine) (c : Option Char) (_ : List Char) : StepResult :=
  if isSpecialO m.url.scheme ∧ (c = some '/' ∨ c = some (Char.ofNat 92)) then
    .next { flagIf m (c = some (Char.ofNat 92)) with state := .SPECIAL_AUTHORITY_IGNORE_SLASHES }
  else if c = some '/' then
    .next { m with state := .AUTHORITY }
  else
    match m.base with
    | none => .crash
    | some b =>
      .next { m with url := { m.url with username := b.username, password := b.password, hostname := b.hostname, port := b.port }, pointer := m.pointer - 1, state := .PATH }

/-- _on_special_authority_slashes. -/
def onSpecialAuthoritySlashes (m : Machine) (c : Option Char) (rem : List Char) :
    StepResult :=
  if c = some '/' ∧ leadsWith (str "/") rem then
    .next { m with state := .SPECIAL_AUTHORITY_IGNORE_SLASHES, pointer := m.pointer + 1 }
  else
    .next { setVE m with state := .SPECIAL_AUTHORITY_IGNORE_SLASHES, pointer := m.pointer - 1 }

/-- _on_special_authority_ignore_slashes. -/
def onSpecialAuthorityIgnoreSlashes (m : Machine) (c : Option Char) (_ : List Char) :
    StepResult :=
  if c ≠ some '/' ∧ c ≠ some (Char.ofNat 92) then
    .next { m with state := .AUTHORITY, pointer := m.pointer - 1 }
  else
    .next (setVE m)

/-- The for-loop of _on_authority distributing the buffer into username and
password around the first colon, percent-encoding with the userinfo set. -/
def processUserinfo : List Char → Bool → Option (List Char) → Option (List Char) →
    Bool × Option (List Char) × Option (List Char)
  | [], pts, un, pw => (pts, un, pw)
  | ch :: rest, pts, un, pw =>
    if !pts ∧ ch = ':' then processUserinfo rest true un pw
    else if pts then
      processUserinfo rest pts un (some (pw.getD [] ++ percentEncodeChar inUserinfoSet ch))
    else
      processUserinfo rest pts (some (un.getD [] ++ percentEncodeChar inUserinfoSet ch)) pw

/-- _on_authority. -/
def onAuthority (m : Machine) (c : Option Char) (_ : List Char) : StepResult :=
  if c = some '@' then
    let buf := if m.atFlag then str "%40" ++ m.buffer else m.buffer
    let r := processUserinfo buf m.passwordTokenSeenFlag m.url.username m.url.password
    .next { setVE m with atFlag := true, passwordTokenSeenFlag := r.1, url := { m.url with username := r.2.1, password := r.2.2 }, buffer := [] }
  else if isDelim c ∨ (isSpecialO m.url.scheme ∧ c = some (Char.ofNat 92)) then
    if m.atFlag ∧ m.buffer = [] then .err
    else
      .next { m with pointer := m.pointer - ((m.buffer.length : Int) + 1), buffer := [], state := .HOST }
  else
    .next { m with buffer := m.buffer ++ [c.getD ' '] }

/-- _on_host_or_hostname, shared by the HOST and HOSTNAME states. -/
def onHostOrHostname (m : Machine) (c : Option Char) (_ : List Char) : StepResult :=
  if m.stateOverride ≠ none ∧ m.url.scheme = some (str "file") then
    .next { m with pointer := m.pointer - 1, state := .FILE_HOST }
  else if c = some ':' ∧ m.squareBraceFlag = false then
    if m.buffer = [] then .err
    else
      match parseHost m.buffer (!isSpecialO m.url.scheme) with
      | .perr => .err
      | .crash => .crash
      | .ok h =>
        let m1 : Machine := { m with url := { m.url with hostname := some h }, buffer := [], state := .PORT }
        if m.stateOverride = some .HOSTNAME then .ret m1 else .next m1
  else if isDelim c ∨ (c = some (Char.ofNat 92) ∧ isSpecialO m.url.scheme) then
    let m0 : Machine := { m with pointer := m.pointer - 1 }
    if isSpecialO m.url.scheme ∧ m.buffer = [] then .err
    else if m.stateOverride ≠ none ∧ m.buffer = [] ∧
        (m.url.includesCredentials ∨ m.url.port ≠ none) then
      .ret (setVE m0)
    else
      match parseHost m.buffer (!isSpecialO m.url.scheme) with
      | .perr => .err
      | .crash => .crash
      | .ok h =>
        let m1 : Machine := { m0 with url := { m.url with hostname := some h }, buffer := [], state := .PATH_START }
        if m.stateOverride ≠ none then .ret m1 else .next m1
  else
    let m1 : Machine :=
      if c = some '[' then { m with squareBraceFlag := true }
      else if c = some ']' then { m with squareBraceFlag := false }
      else m
    .next { m1 with buffer := m1.buffer ++ [c.getD ' '] }

/-- _on_port. -/
def onPort (m : Machine) (c : Option Char) (_ : List Char) : StepResult :=
  if opt1 asciiDigit c then
    .next { m with buffer := m.buffer ++ [c.getD ' '] }
  else if isDelim c ∨ (c = some (Char.ofNat 92) ∧ isSpecialO m.url.scheme) ∨
      m.stateOverride ≠ none then
    if m.buffer ≠ [] then
      let port := digitsToNat m.buffer
      if port > 2 ^ 16 - 1 then .err
      else
        let url1 : Url := { m.url with port := if defaultPortPy m.url.scheme = some port then none else some port }
        if m.stateOverride ≠ none then .ret { m with url := url1, buffer := [] }
        else
          .next { m with url := url1, buffer := [], state := .PATH_START, pointer := m.pointer - 1 }
    else if m.stateOverride ≠ none then .ret m
    else .next { m with state := .PATH_START, pointer := m.pointer - 1 }
  else .err

/-- shorten_url_path. -/
def shortenUrlPath (u : Url) : Url :=
  if u.path.length = 0 then u
  else if u.scheme = some (str "file") ∧ u.path.length = 1 ∧
      normalizedWindowsDrive (u.path.headD []) then u
  else { u with path := u.path.dropLast }

/-- _on_file.  The source compares the single current code point with the
two-character string "//", a comparison that can never be true, so only the
backslash test of that condition remains. -/
def onFile (m : Machine) (c : Option Char) (rem : List Char) : StepResult :=
  let url0 : Url := { m.url with scheme := some (str "file") }
  if c = some (Char.ofNat 92) then
    .next { setVE { m with url := url0 } with state := .FILE_SLASH }
  else
    match m.base with
    | some b =>
      if b.scheme = some (str "file") then
        match c with
        | none =>
          .next { m with url := { url0 with hostname := b.hostname, path := b.path, query := b.query } }
        | some ch =>
          if ch = '?' then
            .next { m with url := { url0 with hostname := b.hostname, path := b.path, query := some [] }, state := .QUERY }
          else if ch = '#' then
            .next { m with url := { url0 with hostname := b.hostname, path := b.path, query := b.query, fragment := some [] }, state := .FRAGMENT }
          else if windowsDriveLetter (ch :: rem) then
            .next (setVE { m with url := url0 })
          else
            .next { m with url := shortenUrlPath { url0 with hostname := b.hostname, path := b.path } }
      else .next { m with url := url0, state := .PATH, pointer := m.pointer - 1 }
    | none => .next { m with url := url0, state := .PATH, pointer := m.pointer - 1 }

/-- _on_file_slash. -/
def onFileSlash (m : Machine) (c : Option Char) (rem : List Char) : StepResult :=
  if c = some '/' ∨ c = some (Char.ofNat 92) then
    .next { flagIf m (c = some (Char.ofNat 92)) with state := .FILE_HOST }
  else
    let m1 : Machine :=
      match m.base with
      | some b =>
        if b.scheme = some (str "file") ∧ windowsDriveLetter (optToList c ++ rem) then
          if b.path.length > 0 ∧ normalizedWindowsDrive (b.path.headD []) then
            { m with url := { m.url with path := m.url.path ++ [b.path.headD []] } }
          else
            { m with url := { m.url with hostname := b.hostname } }
        else m
      | none => m
    .next { m1 with state := .PATH, pointer := m.pointer - 1 }

/-- _on_file_host. -/
def onFileHost (m : Machine) (c : Option Char) (_ : List Char) : StepResult :=
  if isDelim c then
    let m0 : Machine := { m with pointer := m.pointer - 1 }
    if m.stateOverride ≠ none ∧ windowsDriveLetter m.buffer then
      .next { setVE m0 with state := .PATH }
    else if m.buffer = [] then
      let m1 : Machine := { m0 with url := { m.url with hostname := some [] } }
      if m.stateOverride ≠ none then .ret m1
      else .next { m1 with state := .PATH_START }
    else
      match parseHost m.buffer (!isSpecialO m.url.scheme) with
      | .perr => .err
      | .crash => .crash
      | .ok h =>
        let host := if h = str "localhost" then ([] : List Char) else h
        let m1 : Machine := { m0 with url := { m.url with hostname := some host } }
        if m.stateOverride ≠ none then .ret m1
        else .next { m1 with buffer := [], state := .PATH_START }
  else
    .next { m with buffer := m.buffer ++ [c.getD ' '] }

/-- _on_path_start. -/
def onPathStart (m : Machine) (c : Option Char) (_ : List Char) : StepResult :=
  if isSpecialO m.url.scheme then
    let m1 := flagIf m (c = some (Char.ofNat 92))
    .next { m1 with state := .PATH, pointer := if c ≠ some '/' ∧ c ≠ some (Char.ofNat 92) then m.pointer - 1 else m.pointer }
  else if m.stateOverride = none ∧ c = some '?' then
    .next { m with url := { m.url with query := some [] }, state := .QUERY }
  else if m.stateOverride = none ∧ c = some '#' then
    .next { m with url := { m.url with fragment := some [] }, state := .FRAGMENT }
  else if c ≠ none then
    .next { m with state := .PATH, pointer := if c ≠ some '/' then m.pointer - 1 else m.pointer }
  else .next m

/-- The while-loop at the end of _on_path removing leading empty segments
while more than one segment remains; the Bool records whether the loop ran
(each removal is a validation error). -/
def dropLeadingEmpty : List (List Char) → List (List Char) × Bool
  | [] :: b :: t =>
    ((dropLeadingEmpty (b :: t)).1, true)
  | p => (p, false)

/-- The drive-letter rewrite buffer[0] + ":" + buffer[2:] of _on_path. -/
def driveNormalize : List Char → List Char
  | a :: _ :: rest => a :: ':' :: rest
  | s => s

/-- The host-clearing sub-step of the drive-letter case of _on_path. -/
def pathDriveClearHost (m1 : Machine) : Machine :=
  if m1.url.hostname ≠ some [] ∧ m1.url.hostname ≠ none then
    setVE { m1 with url := { m1.url with hostname := some [] } }
  else m1

/-- The segment-commit phase of _on_path at a terminator: double-dot and
single-dot handling, the file drive-letter rewrite, the plain append, and
the buffer clear.  The backslash condition is recomputed from the machine
and the current code point. -/
def pathCommitSegment (m1 : Machine) (c : Option Char) : Machine :=
  let cond := c = some (Char.ofNat 92) ∧ isSpecialO m1.url.scheme
  let m2 : Machine :=
    if m1.buffer ∈ doubleDotSegments then
      let u := shortenUrlPath m1.url
      let u := if ¬(c = some '/' ∨ cond) then { u with path := u.path ++ [[]] } else u
      { m1 with url := u }
    else if m1.buffer ∈ singleDotSegments then
      if ¬(c = some '/' ∨ cond) then
        { m1 with url := { m1.url with path := m1.url.path ++ [[]] } }
      else m1
    else
      if m1.url.scheme = some (str "file") ∧ m1.url.path = [] ∧
          windowsDriveLetter m1.buffer then
        let m1a := pathDriveClearHost m1
        { m1a with url := { m1a.url with path := m1a.url.path ++ [driveNormalize m1.buffer] } }
      else
        { m1 with url := { m1.url with path := m1.url.path ++ [m1.buffer] } }
  { m2 with buffer := [] }

/-- The file-scheme cleanup of _on_path removing leading empty segments at a
path delimiter. -/
def pathFileCleanup (m3 : Machine) (c : Option Char) : Machine :=
  if m3.url.scheme = some (str "file") ∧ isDelim c then
    let r := dropLeadingEmpty m3.url.path
    { m3 with url := { m3.url with path := r.1 }, validationError := m3.validationError || r.2 }
  else m3

/-- The whole terminator branch of _on_path, after the backslash validation
error has been applied to the machine. -/
def pathTerminator (m1 : Machine) (c : Option Char) : StepResult :=
  let m4 := pathFileCleanup (pathCommitSegment m1 c) c
  if c = some '?' then
    .next { m4 with url := { m4.url with query := some [] }, state := .QUERY }
  else if c = some '#' then
    .next { m4 with url := { m4.url with fragment := some [] }, state := .FRAGMENT }
  else .next m4

/-- _on_path. -/
def onPath (m : Machine) (c : Option Char) (rem : List Char) : StepResult :=
  let cond := c = some (Char.ofNat 92) ∧ isSpecialO m.url.scheme
  if c = none ∨ c = some '/' ∨ cond ∨
      (m.stateOverride = none ∧ (c = some '?' ∨ c = some '#')) then
    pathTerminator (flagIf m cond) c
  else
    match c with
    | some ch =>
      let m1 := flagIf m (ch ≠ '%' ∧ !isUrlCodepoint ch)
      let m2 := flagIf m1 (ch = '%' ∧ !twoAsciiHex rem)
      .next { m2 with buffer := m2.buffer ++ percentEncodeChar inPathSet ch }
    | none => .next m  -- unreachable: the terminator branch above covers EOF

/-- _on_cannot_be_base_url. -/
def onCannotBeBaseUrl (m : Machine) (c : Option Char) (rem : List Char) : StepResult :=
  if c = some '?' then
    .next { m with url := { m.url with query := some [] }, state := .QUERY }
  else if c = some '#' then
    .next { m with url := { m.url with fragment := some [] }, state := .FRAGMENT }
  else
    match c with
    | none => .next m
    | some ch =>
      let m1 := flagIf m (ch ≠ '%' ∧ !isUrlCodepoint ch)
      let m2 := flagIf m1 (ch = '%' ∧ !twoAsciiHex rem)
      match m2.url.path with
      | p0 :: rest =>
        .next { m2 with url := { m2.url with path := (p0 ++ percentEncodeChar inC0Set ch) :: rest } }
      | [] => .crash  -- the source indexes path[0]

/-- Modelled from the spec (external collaborator str.encode): text codecs
other than UTF-8 are external; the claims exercise only the UTF-8 default,
and the query state resets the encoding to UTF-8 for ws, wss and non-special
schemes, so every byte sequence produced here is the UTF-8 encoding. -/
def encodeWithCodec (_ : List Char) (c : Char) : List Nat := utf8Bytes c

/-- The per-byte percent-encoding loop of _on_query. -/
def queryEncodeBytes (isSpecial : Bool) (bytes : List Nat) : List Char :=
  catMap (fun byte =>
    if byte < 0x21 ∨ byte > 0x7e ∨ byte = 0x22 ∨ byte = 0x23 ∨ byte = 0x3c ∨
        byte = 0x3e ∨ (isSpecial ∧ byte = 0x27) then
      percentByte byte
    else [Char.ofNat byte]) bytes

/-- The encoding reset at the top of _on_query. -/
def queryEncodingReset (m : Machine) : Machine :=
  if m.encoding ≠ str "utf-8" ∧
      (m.url.scheme = some (str "ws") ∨ m.url.scheme = some (str "wss") ∨
       ¬isSpecialO m.url.scheme) then
    { m with encoding := str "utf-8" }
  else m

/-- The text appended to the query for the bytes of one code point: either
the b"&#...;" re-escape of the source or the per-byte encoding loop. -/
def queryAppendText (isSp : Bool) (q : List Char) (bytes : List Nat) : List Char :=
  if leadsWithN [0x26, 0x23] bytes ∧ trailsWithN [0x3b] bytes then
    q ++ str "%26%23" ++ ((bytes.drop 2).dropLast).map Char.ofNat ++ str "%3B"
  else q ++ queryEncodeBytes isSp bytes

/-- _on_query.  Appending to an absent query is the TypeError crash of the
source (None + str). -/
def onQuery (m0 : Machine) (c : Option Char) (rem : List Char) : StepResult :=
  let m := queryEncodingReset m0
  if m.stateOverride = none ∧ c = some '#' then
    .next { m with url := { m.url with fragment := some [] }, state := .FRAGMENT }
  else
    match c with
    | none => .next m
    | some ch =>
      let m1 := flagIf m (ch ≠ '%' ∧ !isUrlCodepoint ch)
      let m2 := flagIf m1 (ch = '%' ∧ !twoAsciiHex rem)
      let bytes := encodeWithCodec m2.encoding ch
      match m2.url.query with
      | none => .crash
      | some q =>
        .next { m2 with url := { m2.url with
          query := some (queryAppendText (isSpecialO m2.url.scheme) q bytes) } }

/-- _on_fragment.  The url-code-point test of the source is not negated (see
claim C5); a NUL code point only sets the validation flag and is dropped. -/
def onFragment (m : Machine) (c : Option Char) (rem : List Char) : StepResult :=
  match c with
  | none => .next m
  | some ch =>
    if ch = '\x00' then .next (setVE m)
    else
      let m1 := flagIf m (ch ≠ '%' ∧ isUrlCodepoint ch)
      let m2 := flagIf m1 (ch = '%' ∧ !twoAsciiHex rem)
      match m2.url.fragment with
      | none => .crash
      | some f =>
        .next { m2 with url := { m2.url with fragment := some (f ++ percentEncodeChar inFragmentSet ch) } }

/-- The handler table of the source. -/
def handle (m : Machine) (c : Option Char) (rem : List Char) : StepResult :=
  match m.state with
  | .SCHEME_START => onSchemeStart m c rem
  | .SCHEME => onScheme m c rem
  | .NO_SCHEME => onNoScheme m c rem
  | .SPECIAL_RELATIVE_OR_AUTHORITY => onSpecialRelativeOrAuthority m c rem
  | .PATH_OR_AUTHORITY => onPathOrAuthority m c rem
  | .RELATIVE => onRelative m c rem
  | .RELATIVE_SLASH => onRelativeSlash m c rem
  | .SPECIAL_AUTHORITY_SLASHES => onSpecialAuthoritySlashes m c rem
  | .SPECIAL_AUTHORITY_IGNORE_SLASHES => onSpecialAuthorityIgnoreSlashes m c rem
  | .AUTHORITY => onAuthority m c rem
  | .HOST => onHostOrHostname m c rem
  | .HOSTNAME => onHostOrHostname m c rem
  | .PORT => onPort m c rem
  | .FILE => onFile m c rem
  | .FILE_SLASH => onFileSlash m c rem
  | .FILE_HOST => onFileHost m c rem
  | .PATH_START => onPathStart m c rem
  | .PATH => onPath m c rem
  | .CANNOT_BE_BASE_URL => onCannotBeBaseUrl m c rem
  | .QUERY => onQuery m c rem
  | .FRAGMENT => onFragment m c rem

/-! ### The driver -/

/-- Outcome of a whole parse: the returned URL with the validation flag, the
UrlParserError, an escaping Python exception, or exhausted fuel (shown never
to happen for the fuel chosen by parseWith). -/
inductive Outcome where
  | ok (u : Url) (validationError : Bool)
  | parserError
  | crash
  | fuelOut
deriving DecidableEq, Repr

/-- data[p] with the negative-index wrap of Python; an out-of-range index is
an IndexError.  The driver only reads nonnegative in-range indices. -/
def pyIndex (data : List Char) (i : Int) : Option Char :=
  if 0 ≤ i then data.get? i.toNat
  else if 0 ≤ (data.length : Int) + i then data.get? ((data.length : Int) + i).toNat
  else none

/-- data[i:] with the clamping of Python slices. -/
def pySliceFrom (data : List Char) (i : Int) : List Char :=
  if 0 ≤ i then data.drop i.toNat else data.drop ((data.length : Int) + i).toNat

/-- The parse loop of the source.  One recursive step is one handler
invocation: a character step when the pointer is inside the input, an EOF
step (empty code point and empty remaining) when the pointer equals the
length, and termination once the pointer has passed the EOF sentinel.  This
matches the nested while-loops of the source on every machine the driver can
reach, because the outer loop of the source is never re-entered with the
pointer equal to a positive length. -/
def runLoop : Nat → List Char → Machine → Outcome
  | 0, _, _ => .fuelOut
  | fuel + 1, data, m =>
    let e : Int := (data.length : Int)
    if m.pointer = e then
      match handle m none [] with
      | .next m1 => runLoop fuel data { m1 with pointer := m1.pointer + 1 }
      | .ret m1 => .ok m1.url m1.validationError
      | .err => .parserError
      | .crash => .crash
    else if m.pointer < e then
      match pyIndex data m.pointer with
      | none => .crash
      | some ch =>
        match handle m (some ch) (pySliceFrom data (m.pointer + 1)) with
        | .next m1 => runLoop fuel data { m1 with pointer := m1.pointer + 1 }
        | .ret m1 => .ok m1.url m1.validationError
        | .err => .parserError
        | .crash => .crash
    else .ok m.url m.validationError

/-- The leading-trim loop of parse: drop code points satisfying
is_c0_control_or_space from the front, flagging a validation error when at
least one is removed. -/
def trimLeadingFlag (s : List Char) : List Char × Bool :=
  (s.dropWhile isC0ControlOrSpace,
   match s with
   | [] => false
   | c :: _ => isC0ControlOrSpace c)

/-- The trailing-trim loop of parse, expressed through the leading trim of
the reversed input. -/
def trimTrailingFlag (s : List Char) : List Char × Bool :=
  let r := trimLeadingFlag s.reverse
  (r.1.reverse, r.2)

/-- The tab-and-newline removal of parse (str.replace for each of the three). -/
def removeTabsNewlines (s : List Char) : List Char :=
  s.filter (fun c => !isTabOrNewline c)

/-- Fuel sufficient for any parse of an input of length n (see the
termination theorem for claim C10). -/
def fuelBound (n : Nat) : Nat := 21 * (n + 4) + 1

/-- UrlParser(url, base, encoding).parse(data, encoding, state_override):
reset, choose the initial state, preprocess the input (trim, strip tabs and
newlines, flag validation errors), then drive the state machine. -/
def parseWith (url0 : Url) (base : Option Url) (encoding : Option (List Char))
    (stateOverride : Option ParserState) (data : List Char) : Outcome :=
  let p1 := trimLeadingFlag data
  let p2 := trimTrailingFlag p1.1
  let d := removeTabsNewlines p2.1
  let f3 := decide (d.length < p2.1.length)
  runLoop (fuelBound d.length) d
    { url := url0, base := base, encoding := encoding.getD (str "utf-8"), stateOverride := stateOverride, validationError := p1.2 || p2.2 || f3, state := stateOverride.getD .SCHEME_START, pointer := 0, buffer := [], atFlag := false, squareBraceFlag := false, passwordTokenSeenFlag := false }

/-- A fresh parse: a new Url record, no state override, default encoding. -/
def parseUrl (data : List Char) (base : Option Url) : Outcome :=
  parseWith {} base none none data

/-! ### Claim C1: round-trip of serialization -/

/-- C1 (code_bug evidence): parsing "foo:/.//a" succeeds and yields a URL with
an absent host and the path segments ["", "a"]; its serialization is
"foo://a", but parsing that serialization yields a URL with host "a" and an
empty path, which differs field by field from the original.  The claim that
parse(serialize(u)) = u for every parse-producible u therefore fails on the
code: the serializer of the source emits the same text for an absent host
followed by an empty first path segment as for a present host. -/
theorem c1_roundtrip_fails_on_foo_slash_dot :
    parseUrl (str "foo:/.//a") none =
      .ok { scheme := some (str "foo"), path := [[], str "a"] } false ∧
    Url.href { scheme := some (str "foo"), path := [[], str "a"] } = str "foo://a" ∧
    parseUrl (str "foo://a") none =
      .ok { scheme := some (str "foo"), hostname := some (str "a") } false ∧
    ({ scheme := some (str "foo"), path := [[], str "a"] } : Url) ≠
      { scheme := some (str "foo"), hostname := some (str "a") } := by
  refine ⟨by decide, by decide, by decide, by decide⟩

/-! ### Claim C2: the file drive-letter scenario -/

/-- C2 (code_bug evidence): on "file:///C|/WINDOWS/" the code leaves the host
absent (not the empty string), keeps the first path segment as "C|" without
rewriting the vertical bar to a colon, and serializes back to
"file:///C|/WINDOWS/" rather than "file:///C:/WINDOWS/".  The cause is the
FILE-state comparison of the single current code point with the two-character
string "//", which can never be true, so a single "/" falls to the path
state instead of the file-slash handling. -/
theorem c2_file_drive_letter_divergence :
    parseUrl (str "file:///C|/WINDOWS/") none =
      .ok { scheme := some (str "file"), hostname := none,
            path := [str "C|", str "WINDOWS", []] } true ∧
    Url.href { scheme := some (str "file"), hostname := none,
               path := [str "C|", str "WINDOWS", []] } = str "file:///C|/WINDOWS/" ∧
    str "file:///C|/WINDOWS/" ≠ str "file:///C:/WINDOWS/" := by
  refine ⟨by decide, by decide, by decide⟩

/-! ### Claim C3: the forbidden host code point set -/

/-- C3 counterexample: the claim says every host containing a vertical bar
fails host parsing, but the FORBIDDEN_HOST_CODE_POINTS list of the source
stops at "]" and omits "|", so both the opaque and the domain host parser
accept "a|b" unchanged. -/
theorem c3_counterexample_pipe_host_accepted :
    parseHost (str "a|b") true = .ok (str "a|b") ∧
    parseHost (str "a|b") false = .ok (str "a|b") := by
  refine ⟨by decide, by decide⟩

/-- C3 amended: the forbidden host code point set of the code is
NUL, TAB, LF, CR, SPACE, #, %, /, :, ?, @, [, backslash, ] — without the
vertical bar.  Opaque host parsing fails for every host (not introducing an
IPv6 literal) that contains one of those code points other than %, while a
host containing only a vertical bar violation is accepted unchanged. -/
theorem c3_forbidden_host_set_without_pipe :
    (∀ h : List Char, leadsWith (str "[") h = false →
      (∃ c ∈ h, c ≠ '%' ∧ c ∈ forbiddenHostCodePoints) →
      parseHost h true = .perr) ∧
    parseHost (str "a|b") true = .ok (str "a|b") := by
  constructor
  · intro h hlead hex
    obtain ⟨ch, hmem, hne, hin⟩ := hex
    have hany : h.any (fun c => decide (c ≠ '%') && decide (c ∈ forbiddenHostCodePoints)) = true :=
      List.any_eq_true.mpr ⟨ch, hmem, by simp [hne, hin]⟩
    unfold parseHost
    simp only [hlead, hany, Bool.false_eq_true, if_false, if_true, Bool.true_eq_false,
      reduceIte]
  · decide

/-- Witness for the amended C3 theorem at the concrete opaque host "a:b". -/
theorem c3_forbidden_host_set_without_pipe_witness :
    parseHost (str "a:b") true = .perr :=
  c3_forbidden_host_set_without_pipe.1 (str "a:b") (by decide)
    ⟨':', by decide, by decide, by decide⟩

/-! ### Claim C4: IPv4 recognition in the host parser -/

/-- C4 counterexample: the claim says "0x7f.1" is combined into the 32-bit
value of 127.0.0.1, but the source delegates IPv4 detection to
ipaddress.IPv4Address, which rejects hexadecimal and short forms, so the
host parser returns the ASCII domain "0x7f.1" instead. -/
theorem c4_counterexample_hex_ipv4_not_recognized :
    parseHost (str "0x7f.1") false = .ok (str "0x7f.1") ∧
    str "0x7f.1" ≠ str "127.0.0.1" := by
  refine ⟨by decide, by decide⟩

/-! ### Claim C4: universal lemmas -/

/-- Char order transported to code point values. -/
theorem char_le_toNat {a b : Char} (h : a ≤ b) : a.toNat ≤ b.toNat := by
  rw [Char.le_def] at h
  exact h

/-- Chars with equal code points are equal. -/
theorem char_eq_of_toNat {a b : Char} (h : a.toNat = b.toNat) : a = b := by
  rw [← Char.ofNat_toNat a, ← Char.ofNat_toNat b, h]

/-- The octet wording of the amended claim: a non-empty all-digit string
without a leading zero whose value is at most 255. -/
def dottedQuadOctet (s : List Char) : Bool :=
  decide (s ≠ []) && s.all asciiDigit &&
    (decide (s.length = 1) || decide (s.headD '0' ≠ '0')) && decide (digitsToNat s ≤ 255)

/-- The host class of the amended claim: four dot-separated decimal octets. -/
def strictDottedQuad (host : List Char) : Bool :=
  match splitBy (fun c => decide (c = '.')) host with
  | [a, b, c, d] => dottedQuadOctet a && dottedQuadOctet b && dottedQuadOctet c && dottedQuadOctet d
  | _ => false

/-- ASCII letters, digits and the hyphen: the label alphabet of the hosts the
amended claim sends down the domain path. -/
def domainChar (c : Char) : Bool := asciiAlphanumeric c || decide (c = '-')

/-- domainChar or the full stop. -/
def dotOrDomainChar (c : Char) : Bool := domainChar c || decide (c = '.')

/-- Labels acceptable to the modelled IDNA pipeline: every dot-separated label
nonempty and shorter than 64 code points, except for at most one trailing
empty label (a trailing dot). -/
def hostLabelsOkB (host : List Char) : Bool :=
  let ls := splitBy (fun c => decide (c = '.')) host
  let ls2 := if ls.getLast? = some ([] : List Char) then ls.dropLast else ls
  decide (ls2 ≠ []) && ls2.all (fun l => decide (0 < l.length) && decide (l.length < 64))

/-- The digit fold grows at least geometrically in the remaining length. -/
theorem foldl_digits_lower (s : List Char) :
    ∀ a : Nat, a * 10 ^ s.length ≤ s.foldl (fun a c => a * 10 + (c.toNat - 48)) a := by
  induction s with
  | nil => intro a; simp
  | cons c t ih =>
    intro a
    have h1 := ih (a * 10 + (c.toNat - 48))
    have h2 : a * 10 ^ (c :: t).length = (a * 10) * 10 ^ t.length := by
      simp [List.length_cons, Nat.pow_succ]
      ring
    rw [h2]
    calc (a * 10) * 10 ^ t.length
        ≤ (a * 10 + (c.toNat - 48)) * 10 ^ t.length := by
          exact Nat.mul_le_mul_right _ (Nat.le_add_right _ _)
      _ ≤ _ := h1

/-- A digit string with a nonzero leading digit is at least 10^(length-1). -/
theorem digitsToNat_head_lower (d : Char) (t : List Char)
    (hd : asciiDigit d = true) (h1 : d ≠ '0') :
    10 ^ t.length ≤ digitsToNat (d :: t) := by
  simp only [asciiDigit, decide_eq_true_eq] at hd
  have h48 : 48 ≤ d.toNat := char_le_toNat hd.1
  have hne : d.toNat ≠ 48 := fun hq => h1 (char_eq_of_toNat hq)
  have h49 : 49 ≤ d.toNat := by omega
  have hfold := foldl_digits_lower t (d.toNat - 48)
  have : 1 * 10 ^ t.length ≤ (d.toNat - 48) * 10 ^ t.length :=
    Nat.mul_le_mul_right _ (by omega)
  unfold digitsToNat
  simp only [List.foldl_cons]
  calc 10 ^ t.length = 1 * 10 ^ t.length := (Nat.one_mul _).symm
    _ ≤ (d.toNat - 48) * 10 ^ t.length := this
    _ ≤ _ := by simpa using hfold

/-- The modelled IPv4Address octet accepts exactly the octets of the amended
claim wording. -/
theorem ipv4Octet_isSome_iff (s : List Char) :
    (ipv4Octet s).isSome = true ↔ dottedQuadOctet s = true := by
  unfold ipv4Octet dottedQuadOctet
  constructor
  · intro h
    split at h
    · simp at h
    · split at h
      · simp at h
      · rename_i hc1 hc2
        dsimp only at h
        split at h
        · rename_i hle
          simp only [Bool.not_eq_true, Bool.or_eq_false_iff] at hc1
          obtain ⟨⟨hemp, hlen⟩, hdig⟩ := hc1
          simp only [Bool.not_eq_false'] at hdig
          simp only [Bool.not_eq_true, Bool.and_eq_false_iff] at hc2
          simp only [Bool.and_eq_true, Bool.or_eq_true, decide_eq_true_eq]
          refine ⟨⟨⟨?_, hdig⟩, ?_⟩, hle⟩
          · intro hq
            subst hq
            simp at hemp
          · rcases hc2 with hh | hh
            · left
              have hh2 : ¬(s.length > 1) := by simpa using hh
              have hne2 : s ≠ [] := by intro hq; subst hq; simp at hemp
              have hp := List.length_pos.mpr hne2
              omega
            · right
              simpa using hh
        · simp at h
  · intro h
    simp only [Bool.and_eq_true, Bool.or_eq_true, decide_eq_true_eq] at h
    obtain ⟨⟨⟨hne, hdig⟩, hhead⟩, hval⟩ := h
    rcases s with _ | ⟨d, t⟩
    · exact absurd rfl hne
    have hdigm := hdig
    rw [List.all_eq_true] at hdigm
    have hd0 : asciiDigit d = true := hdigm d (List.mem_cons_self d t)
    have hlen3 : (d :: t).length ≤ 3 := by
      by_contra hgt
      have hdne : d ≠ '0' := by
        rcases hhead with hh | hh
        · exfalso
          simp only [List.length_cons] at hh hgt
          omega
        · simpa using hh
      have hlow := digitsToNat_head_lower d t hd0 hdne
      have hpow : 1000 ≤ 10 ^ t.length := by
        calc (1000 : Nat) = 10 ^ 3 := by norm_num
          _ ≤ 10 ^ t.length := by
            refine Nat.pow_le_pow_right (by omega) ?_
            simp only [List.length_cons] at hgt
            omega
      have hbig : 1000 ≤ digitsToNat (d :: t) := le_trans hpow hlow
      omega
    simp only [List.length_cons] at hlen3
    rw [show ((d :: t).isEmpty || decide ((d :: t).length > 3) || !(d :: t).all asciiDigit) = false from by
      simp [hdig]
      omega]
    rw [show (decide ((d :: t).length > 1) && decide ((d :: t).headD '0' = '0')) = false from by
      rcases hhead with hh | hh
      · simp [hh]
      · simp only [List.headD_cons] at hh
        simp [hh]]
    simp only [Bool.false_eq_true, if_false]
    try dsimp only
    rw [if_pos hval]
    rfl

/-- The modelled IPv4Address accepts exactly the strict dotted quads of the
amended claim. -/
theorem pyIPv4_isSome_iff (host : List Char) :
    (∃ q, pyIPv4 host = some q) ↔ strictDottedQuad host = true := by
  rw [← Option.isSome_iff_exists]
  unfold pyIPv4 strictDottedQuad
  rcases hsp : splitBy (fun c => decide (c = '.')) host with _ | ⟨a, _ | ⟨b, _ | ⟨c, _ | ⟨d, _ | ⟨e, t⟩⟩⟩⟩⟩
  · simp
  · simp
  · simp
  · simp
  · dsimp only
    simp only [Bool.and_eq_true]
    rw [← ipv4Octet_isSome_iff a, ← ipv4Octet_isSome_iff b, ← ipv4Octet_isSome_iff c,
      ← ipv4Octet_isSome_iff d]
    cases ipv4Octet a <;> cases ipv4Octet b <;> cases ipv4Octet c <;> cases ipv4Octet d <;> simp
  · simp

/-- Char.ofNat below the surrogate range recovers its code point. -/
theorem toNat_ofNat_valid (n : Nat) (h : n < 0xd800) : (Char.ofNat n).toNat = n := by
  rw [Char.ofNat, dif_pos (Or.inl h : Nat.isValidChar n)]
  rfl

/-- Code point ranges of dotOrDomainChar. -/
theorem dotOrDomainChar_ranges (c : Char) (h : dotOrDomainChar c = true) :
    (48 ≤ c.toNat ∧ c.toNat ≤ 57) ∨ (65 ≤ c.toNat ∧ c.toNat ≤ 90) ∨
    (97 ≤ c.toNat ∧ c.toNat ≤ 122) ∨ c.toNat = 45 ∨ c.toNat = 46 := by
  simp only [dotOrDomainChar, domainChar, asciiAlphanumeric, asciiAlpha, asciiDigit,
    Bool.or_eq_true, decide_eq_true_eq] at h
  rcases h with ((hab | hd) | hdash) | hdot
  · rcases hab with ⟨h1, h2⟩ | ⟨h1, h2⟩
    · exact Or.inr (Or.inr (Or.inl ⟨char_le_toNat h1, char_le_toNat h2⟩))
    · exact Or.inr (Or.inl ⟨char_le_toNat h1, char_le_toNat h2⟩)
  · exact Or.inl ⟨char_le_toNat hd.1, char_le_toNat hd.2⟩
  · subst hdash
    exact Or.inr (Or.inr (Or.inr (Or.inl rfl)))
  · subst hdot
    exact Or.inr (Or.inr (Or.inr (Or.inr rfl)))

/-- Char order from code point order. -/
theorem char_le_of_toNat {a b : Char} (h : a.toNat ≤ b.toNat) : a ≤ b := by
  rw [Char.le_def]
  exact h

/-- toLowerAscii either fixes the char or shifts an uppercase letter by 32. -/
theorem toLowerAscii_cases (c : Char) :
    toLowerAscii c = c ∨
    ((65 ≤ c.toNat ∧ c.toNat ≤ 90) ∧ (toLowerAscii c).toNat = c.toNat + 32) := by
  unfold toLowerAscii
  split
  · rename_i hu
    right
    have h65 : 65 ≤ c.toNat := char_le_toNat hu.1
    have h90 : c.toNat ≤ 90 := char_le_toNat hu.2
    exact ⟨⟨h65, h90⟩, toNat_ofNat_valid _ (by omega)⟩
  · left
    rfl

/-- toLowerAscii fixes every char that is not an uppercase letter. -/
theorem toLowerAscii_fix (c : Char) (h : ¬(65 ≤ c.toNat ∧ c.toNat ≤ 90)) :
    toLowerAscii c = c := by
  rcases toLowerAscii_cases c with hc | ⟨hr, _⟩
  · exact hc
  · exact absurd hr h

/-- toLowerAscii maps a dot exactly to a dot. -/
theorem toLowerAscii_dot (c : Char) : (toLowerAscii c = '.') = (c = '.') := by
  rcases toLowerAscii_cases c with hc | ⟨hr, hs⟩
  · rw [hc]
  · apply propext
    constructor
    · intro hq
      have h2 := congrArg Char.toNat hq
      rw [hs] at h2
      have h46 : ('.' : Char).toNat = 46 := rfl
      omega
    · intro hq
      subst hq
      exact absurd hr (by decide)

/-- toLowerAscii is idempotent. -/
theorem toLowerAscii_idem (c : Char) : toLowerAscii (toLowerAscii c) = toLowerAscii c := by
  rcases toLowerAscii_cases c with hc | ⟨hr, hs⟩
  · rw [hc, hc]
  · refine toLowerAscii_fix _ ?_
    rw [hs]
    omega

/-- toLowerAscii keeps dotOrDomainChar. -/
theorem toLowerAscii_dotOrDomain (c : Char) (h : dotOrDomainChar c = true) :
    dotOrDomainChar (toLowerAscii c) = true := by
  rcases toLowerAscii_cases c with hc | ⟨hr, hs⟩
  · rw [hc]
    exact h
  · have h97 : 97 ≤ (toLowerAscii c).toNat := by rw [hs]; omega
    have h122 : (toLowerAscii c).toNat ≤ 122 := by rw [hs]; omega
    simp only [dotOrDomainChar, domainChar, asciiAlphanumeric, asciiAlpha, asciiDigit,
      Bool.or_eq_true, decide_eq_true_eq]
    exact Or.inl (Or.inl (Or.inl (Or.inl ⟨char_le_of_toNat h97, char_le_of_toNat h122⟩)))

/-- toLowerAscii keeps code points below 128. -/
theorem toLowerAscii_ascii (c : Char) (h : c.toNat < 0x80) :
    (toLowerAscii c).toNat < 0x80 := by
  rcases toLowerAscii_cases c with hc | ⟨hr, hs⟩
  · rw [hc]
    exact h
  · rw [hs]
    omega

/-- splitBy never returns the empty list of labels. -/
theorem splitBy_ne_nil (p : Char → Bool) (s : List Char) : splitBy p s ≠ [] := by
  induction s with
  | nil => simp [splitBy]
  | cons c t ih =>
    unfold splitBy
    split
    · simp
    · rcases hsb : splitBy p t with _ | ⟨h, t2⟩
      · simp
      · simp

/-- splitBy only depends on the values of the predicate on the list. -/
theorem splitBy_congr (p q : Char → Bool) (s : List Char)
    (h : ∀ c ∈ s, p c = q c) : splitBy p s = splitBy q s := by
  induction s with
  | nil => rfl
  | cons c t ih =>
    unfold splitBy
    rw [h c (List.mem_cons_self c t), ih (fun x hx => h x (List.mem_cons_of_mem c hx))]

/-- splitBy on dots commutes with ASCII lowercasing. -/
theorem splitBy_map_toLower (s : List Char) :
    splitBy (fun c => decide (c = '.')) (s.map toLowerAscii) =
      (splitBy (fun c => decide (c = '.')) s).map (List.map toLowerAscii) := by
  induction s with
  | nil => rfl
  | cons c t ih =>
    simp only [List.map_cons]
    unfold splitBy
    rw [ih]
    have hwit : (decide (toLowerAscii c = '.')) = (decide (c = '.')) := by
      simp only [toLowerAscii_dot]
    rw [hwit]
    split
    · simp
    · rcases hsb : splitBy (fun c => decide (c = '.')) t with _ | ⟨h, t2⟩
      · exact absurd hsb (splitBy_ne_nil _ t)
      · simp

/-- Every code point of the input is a separator or sits in one of the labels. -/
theorem splitBy_mem (p : Char → Bool) (s : List Char) (c : Char) (hc : c ∈ s) :
    p c = true ∨ ∃ l ∈ splitBy p s, c ∈ l := by
  induction s with
  | nil => simp at hc
  | cons d t ih =>
    unfold splitBy
    rcases List.mem_cons.mp hc with rfl | hmem
    · by_cases hp : p c = true
      · exact Or.inl hp
      · right
        rw [if_neg (by simpa using hp)]
        rcases hsb : splitBy p t with _ | ⟨h, t2⟩
        · exact absurd hsb (splitBy_ne_nil _ t)
        · exact ⟨c :: h, List.mem_cons_self _ _, List.mem_cons_self _ _⟩
    · rcases ih hmem with hp | ⟨l, hl, hcl⟩
      · exact Or.inl hp
      · right
        split
        · exact ⟨l, List.mem_cons_of_mem _ hl, hcl⟩
        · rcases hsb : splitBy p t with _ | ⟨h, t2⟩
          · exact absurd hsb (splitBy_ne_nil _ t)
          · rw [hsb] at hl
            rcases List.mem_cons.mp hl with rfl | hl2
            · exact ⟨d :: l, List.mem_cons_self _ _, List.mem_cons_of_mem _ hcl⟩
            · exact ⟨l, List.mem_cons_of_mem _ hl2, hcl⟩

/-- intercalate over a cons with a nonempty tail. -/
theorem intercalate_cons₂ (sep x : List Char) (ys : List (List Char)) (h : ys ≠ []) :
    List.intercalate sep (x :: ys) = x ++ sep ++ List.intercalate sep ys := by
  rcases ys with _ | ⟨y, zs⟩
  · exact absurd rfl h
  · simp [List.intercalate, List.intersperse]

/-- Splitting on dots and rejoining with dots is the identity. -/
theorem intercalate_splitBy (s : List Char) :
    List.intercalate ['.'] (splitBy (fun c => decide (c = '.')) s) = s := by
  induction s with
  | nil => rfl
  | cons c t ih =>
    unfold splitBy
    split
    · rename_i hdot
      simp only [decide_eq_true_eq] at hdot
      subst hdot
      rw [intercalate_cons₂ _ _ _ (splitBy_ne_nil _ t)]
      simp [ih]
    · rename_i hdot
      rcases hsb : splitBy (fun c => decide (c = '.')) t with _ | ⟨h, t2⟩
      · exact absurd hsb (splitBy_ne_nil _ t)
      · rw [hsb] at ih
        rcases t2 with _ | ⟨u, t3⟩
        · simpa [List.intercalate] using ih
        · rw [intercalate_cons₂ _ _ _ (by simp)] at ih
          rw [intercalate_cons₂ _ _ _ (by simp)]
          simpa using ih

/-- Appending one empty label appends one separator dot. -/
theorem intercalate_append_nil (M : List (List Char)) (h : M ≠ []) :
    List.intercalate ['.'] (M ++ [[]]) = List.intercalate ['.'] M ++ ['.'] := by
  induction M with
  | nil => exact absurd rfl h
  | cons x ys ih =>
    rcases ys with _ | ⟨y, zs⟩
    · simp [List.intercalate, List.intersperse]
    · rw [List.cons_append, intercalate_cons₂ _ _ _ (by simp),
        intercalate_cons₂ _ _ _ (by simp), ih (by simp)]
      simp

/-- toAsciiLabel is the identity on labels of the accepted shape. -/
theorem mapM_toAsciiLabel (ls : List (List Char))
    (h : ∀ l ∈ ls, 0 < l.length ∧ l.length < 64) : ls.mapM toAsciiLabel = some ls := by
  induction ls with
  | nil => rfl
  | cons a t ih =>
    rw [List.mapM_cons, ih (fun l hl => h l (List.mem_cons_of_mem a hl))]
    have ha := h a (List.mem_cons_self a t)
    simp [toAsciiLabel, ha]

/-- percent_decode is the identity on byte strings without a percent byte. -/
theorem percentDecode_no25 (bs : List Nat) (h : ∀ b ∈ bs, b ≠ 0x25) :
    percentDecode bs = bs := by
  induction bs using percentDecode.induct with
  | case1 => rfl
  | case2 b h1 h2 rest2 hb ih =>
    rw [percentDecode, if_pos hb, ih (fun x hx => h x (List.mem_cons_of_mem b hx))]
  | case3 b h1 h2 rest2 hb hhex ih =>
    exact absurd (h b (List.mem_cons_self b _)) (by simpa using hb)
  | case4 b h1 h2 rest2 hb hhex ih =>
    exact absurd (h b (List.mem_cons_self b _)) (by simpa using hb)
  | case5 b rest h5 ih =>
    rw [percentDecode]
    · rw [ih (fun x hx => h x (List.mem_cons_of_mem b hx))]
    · exact h5

/-- UTF-8 encoding of an ASCII string is one byte per code point. -/
theorem utf8Encode_ascii (s : List Char) (h : ∀ c ∈ s, c.toNat < 0x80) :
    utf8Encode s = s.map Char.toNat := by
  induction s with
  | nil => rfl
  | cons c t ih =>
    unfold utf8Encode at ih ⊢
    simp only [catMap, List.map_cons]
    rw [ih (fun x hx => h x (List.mem_cons_of_mem c hx))]
    unfold utf8Bytes
    rw [if_pos (h c (List.mem_cons_self c t))]
    rfl

/-- The decoding loop on ASCII bytes recovers the code points whenever the
fuel covers the length. -/
theorem decodeUtf8Go_ascii : ∀ (fuel : Nat) (bs : List Nat), (∀ b ∈ bs, b < 0x80) →
    bs.length ≤ fuel → decodeUtf8Go fuel bs = some (bs.map Char.ofNat) := by
  intro fuel
  induction fuel with
  | zero =>
    intro bs h hl
    cases bs with
    | nil => rfl
    | cons b t => simp at hl
  | succ fuel ih =>
    intro bs h hl
    cases bs with
    | nil => rfl
    | cons b t =>
      rw [decodeUtf8Go, if_pos (h b (List.mem_cons_self b t))]
      rw [ih t (fun x hx => h x (List.mem_cons_of_mem b hx)) (by simp at hl; omega)]
      rfl

/-- Strict UTF-8 decoding of ASCII bytes recovers the code points. -/
theorem decodeUtf8_ascii (bs : List Nat) (h : ∀ b ∈ bs, b < 0x80) :
    decodeUtf8 bs = some (bs.map Char.ofNat) :=
  decodeUtf8Go_ascii bs.length bs h (le_refl _)

/-- The byte path of parse_host is the identity on dotOrDomainChar strings. -/
theorem decode_roundtrip (host : List Char) (hall : ∀ c ∈ host, dotOrDomainChar c = true) :
    decodeUtf8 (percentDecode (utf8Encode host)) = some host := by
  have hascii : ∀ c ∈ host, c.toNat < 0x80 := by
    intro c hc
    rcases dotOrDomainChar_ranges c (hall c hc) with h | h | h | h | h <;> omega
  rw [utf8Encode_ascii host hascii]
  rw [percentDecode_no25]
  · rw [decodeUtf8_ascii]
    · rw [List.map_map]
      congr 1
      have : ∀ c ∈ host, (Char.ofNat ∘ Char.toNat) c = id c := by
        intro c hc
        simp [Char.ofNat_toNat]
      rw [List.map_congr_left this, List.map_id]
    · intro b hb
      rcases List.mem_map.mp hb with ⟨c, hc, rfl⟩
      exact hascii c hc
  · intro b hb
    rcases List.mem_map.mp hb with ⟨c, hc, rfl⟩
    rcases dotOrDomainChar_ranges c (hall c hc) with h | h | h | h | h <;> omega

/-- No dotOrDomainChar is a forbidden host code point. -/
theorem dotOrDomain_not_forbidden (c : Char) (h : dotOrDomainChar c = true) :
    c ∉ forbiddenHostCodePoints := by
  intro hmem
  have hr := dotOrDomainChar_ranges c h
  simp only [forbiddenHostCodePoints, List.mem_cons, List.not_mem_nil, or_false] at hmem
  rcases hmem with rfl | rfl | rfl | rfl | rfl | rfl | rfl | rfl | rfl | rfl | rfl | rfl | rfl | rfl <;>
    revert hr <;> decide

/-- A dotOrDomainChar string never opens an IPv6 bracket. -/
theorem not_leadsWith_bracket (host : List Char) (hall : ∀ c ∈ host, dotOrDomainChar c = true) :
    leadsWith (str "[") host = false := by
  rcases host with _ | ⟨c, t⟩
  · rfl
  · have hr := dotOrDomainChar_ranges c (hall c (List.mem_cons_self c t))
    have hne : ('[' : Char) ≠ c := by
      intro hq
      rw [← hq] at hr
      revert hr
      decide
    simp [leadsWith, str, hne]

/-- On ASCII input the IDNA dots are exactly the full stop. -/
theorem isIdnaDot_ascii (c : Char) (h : c.toNat < 0x80) :
    isIdnaDot c = decide (c = '.') := by
  unfold isIdnaDot
  rw [decide_eq_decide]
  constructor
  · rintro (hq | hq | hq | hq)
    · exact hq
    · subst hq
      exact absurd h (by decide)
    · subst hq
      exact absurd h (by decide)
    · subst hq
      exact absurd h (by decide)
  · exact fun hq => Or.inl hq

/-- The modelled IDNA pipeline lowercases and otherwise returns a
dotOrDomainChar host unchanged. -/
theorem domainToAscii_plain (host : List Char)
    (hall : ∀ c ∈ host, dotOrDomainChar c = true)
    (hlb : hostLabelsOkB host = true) :
    domainToAscii host = .ok (host.map toLowerAscii) := by
  have hascii : ∀ c ∈ host, c.toNat < 0x80 := by
    intro c hc
    rcases dotOrDomainChar_ranges c (hall c hc) with h | h | h | h | h <;> omega
  have hremap : uts46Remap host = some (host.map toLowerAscii) := by
    unfold uts46Remap
    rw [if_pos]
    rw [List.all_eq_true]
    intro c hc
    simpa using hascii c hc
  have hsplit : splitBy isIdnaDot (host.map toLowerAscii) =
      (splitBy (fun c => decide (c = '.')) host).map (List.map toLowerAscii) := by
    rw [splitBy_congr isIdnaDot (fun c => decide (c = '.')) _ ?_, splitBy_map_toLower]
    intro c hc
    rcases List.mem_map.mp hc with ⟨d, hd, rfl⟩
    exact isIdnaDot_ascii _ (toLowerAscii_ascii d (hascii d hd))
  have hrt : List.intercalate ['.']
      ((splitBy (fun c => decide (c = '.')) host).map (List.map toLowerAscii)) =
      host.map toLowerAscii := by
    rw [← splitBy_map_toLower host]
    exact intercalate_splitBy (host.map toLowerAscii)
  unfold hostLabelsOkB at hlb
  simp only [Bool.and_eq_true, decide_eq_true_eq, List.all_eq_true] at hlb
  obtain ⟨hne2, hlen2⟩ := hlb
  have hlens : ∀ l ∈ (if (splitBy (fun c => decide (c = '.')) host).getLast? = some ([] : List Char)
        then (splitBy (fun c => decide (c = '.')) host).dropLast
        else splitBy (fun c => decide (c = '.')) host),
      0 < l.length ∧ l.length < 64 := by
    intro l hl
    have h2 := hlen2 l hl
    simp only [Bool.and_eq_true, decide_eq_true_eq] at h2
    exact h2
  clear hlen2
  unfold domainToAscii
  rw [hremap]
  dsimp only
  rw [hsplit]
  set L := splitBy (fun c => decide (c = '.')) host with hL
  clear_value L
  have hLne : L ≠ [] := hL ▸ splitBy_ne_nil _ host
  rw [if_neg]
  · by_cases hT : L.getLast? = some ([] : List Char)
    · have hTm : (L.map (List.map toLowerAscii)).getLast? = some ([] : List Char) := by
        rw [List.getLast?_map, hT]
        rfl
      have hTd : decide ((L.map (List.map toLowerAscii)).getLast? = some ([] : List Char)) = true :=
        decide_eq_true hTm
      rw [if_pos hTd]
      rw [if_pos hT] at hlens hne2
      have hdecomp : L.dropLast ++ [([] : List Char)] = L :=
        List.dropLast_append_getLast? [] hT
      have hmapdec : (L.map (List.map toLowerAscii)).dropLast =
          L.dropLast.map (List.map toLowerAscii) := by
        conv_lhs => rw [← hdecomp]
        rw [List.map_append]
        simp
      rw [hmapdec]
      rw [mapM_toAsciiLabel]
      · dsimp only
        rw [if_pos hTd]
        congr 1
        rw [← hrt]
        conv_rhs => rw [← hdecomp]
        rw [List.map_append]
        simp only [List.map_cons, List.map_nil]
        rw [intercalate_append_nil]
        intro hq
        rw [List.map_eq_nil_iff] at hq
        exact hne2 hq
      · intro l hl
        rcases List.mem_map.mp hl with ⟨y, hy, rfl⟩
        have h3 := hlens y hy
        simpa using h3
    · have hTm : ¬((L.map (List.map toLowerAscii)).getLast? = some ([] : List Char)) := by
        intro hq
        apply hT
        rw [List.getLast?_map] at hq
        rcases hgl : L.getLast? with _ | y
        · rw [hgl] at hq
          simp at hq
        · rw [hgl] at hq
          simp at hq
          rw [hq]
      have hTd : decide ((L.map (List.map toLowerAscii)).getLast? = some ([] : List Char)) = false :=
        decide_eq_false hTm
      have hTn : ¬(decide ((L.map (List.map toLowerAscii)).getLast? = some ([] : List Char)) = true) := by
        rw [hTd]
        simp
      rw [if_neg hTn]
      rw [if_neg hT] at hlens hne2
      rw [mapM_toAsciiLabel]
      · dsimp only
        rw [if_neg hTn, List.append_nil]
        exact congrArg IdnaRes.ok hrt
      · intro l hl
        rcases List.mem_map.mp hl with ⟨y, hy, rfl⟩
        have h3 := hlens y hy
        simpa using h3
  · rintro (hq | hq)
    · exact hLne (List.map_eq_nil_iff.mp hq)
    · rcases L with _ | ⟨y, t⟩
      · exact hLne rfl
      · simp only [List.map_cons] at hq
        injection hq with hq1 hq2
        have hy : y = [] := List.map_eq_nil_iff.mp hq1
        have ht : t = [] := List.map_eq_nil_iff.mp hq2
        subst hy
        subst ht
        simp at hne2

/-- On a dotOrDomainChar host with acceptable labels, parse_host reduces to
the final IPv4-or-lowercased-domain choice of its special branch. -/
theorem parseHost_plain (host : List Char)
    (hall : ∀ c ∈ host, dotOrDomainChar c = true)
    (hlb : hostLabelsOkB host = true) :
    parseHost host false =
      (match pyIPv4 host with
       | some q => .ok (ipv4String q)
       | none => .ok (host.map toLowerAscii)) := by
  unfold parseHost
  rw [not_leadsWith_bracket host hall]
  simp only [Bool.false_eq_true, if_false]
  rw [decode_roundtrip host hall]
  dsimp only
  rw [domainToAscii_plain host hall hlb]
  dsimp only
  have hdm : (host.map toLowerAscii).map toLowerAscii = host.map toLowerAscii := by
    rw [List.map_map]
    apply List.map_congr_left
    intro c hc
    exact toLowerAscii_idem c
  rw [hdm]
  have hforb : (host.map toLowerAscii).any
      (fun c => decide (c ∈ forbiddenHostCodePoints)) = false := by
    rw [List.any_eq_false]
    intro c hc
    rcases List.mem_map.mp hc with ⟨y, hy, rfl⟩
    simp only [decide_eq_true_eq]
    exact dotOrDomain_not_forbidden _ (toLowerAscii_dotOrDomain y (hall y hy))
  rw [hforb]
  simp only [Bool.false_eq_true, if_false]

/-- An accepted IPv4 octet is nonempty, short, and all digits. -/
theorem ipv4Octet_facts (s : List Char) (v : Nat) (h : ipv4Octet s = some v) :
    s ≠ [] ∧ s.length ≤ 3 ∧ s.all asciiDigit = true := by
  unfold ipv4Octet at h
  cases hc : (s.isEmpty || decide (s.length > 3) || !s.all asciiDigit) with
  | true =>
    rw [hc] at h
    simp at h
  | false =>
    simp only [Bool.or_eq_false_iff, Bool.not_eq_false, decide_eq_false_iff_not] at hc
    refine ⟨?_, by omega, by simpa using hc.2⟩
    intro hq
    rw [hq] at hc
    simp at hc

/-- An octet of the amended claim wording is nonempty, short, and all digits. -/
theorem dottedQuadOctet_facts (s : List Char) (h : dottedQuadOctet s = true) :
    s ≠ [] ∧ s.length ≤ 3 ∧ s.all asciiDigit = true := by
  have hs := (ipv4Octet_isSome_iff s).mpr h
  rw [Option.isSome_iff_exists] at hs
  obtain ⟨v, hv⟩ := hs
  exact ipv4Octet_facts s v hv

/-- A host accepted by the modelled IPv4Address is made of dots and digits
and has labels acceptable to the IDNA pipeline. -/
theorem pyIPv4_structure (host : List Char) (q : Nat × Nat × Nat × Nat)
    (h : pyIPv4 host = some q) :
    (∀ c ∈ host, dotOrDomainChar c = true) ∧ hostLabelsOkB host = true := by
  have hsdq : strictDottedQuad host = true := (pyIPv4_isSome_iff host).mp ⟨q, h⟩
  unfold strictDottedQuad at hsdq
  rcases hsp : splitBy (fun c => decide (c = '.')) host with _ | ⟨a, _ | ⟨b, _ | ⟨c, _ | ⟨d, _ | ⟨e, t⟩⟩⟩⟩⟩ <;> rw [hsp] at hsdq
  · simp at hsdq
  · simp at hsdq
  · simp at hsdq
  · simp at hsdq
  case cons.cons.cons.cons.cons => simp at hsdq
  case cons.cons.cons.cons.nil =>
    dsimp only at hsdq
    simp only [Bool.and_eq_true] at hsdq
    obtain ⟨⟨⟨hA, hB⟩, hC⟩, hD⟩ := hsdq
    have hfA := dottedQuadOctet_facts a hA
    have hfB := dottedQuadOctet_facts b hB
    have hfC := dottedQuadOctet_facts c hC
    have hfD := dottedQuadOctet_facts d hD
    have hlab : ∀ l ∈ [a, b, c, d], l ≠ [] ∧ l.length ≤ 3 ∧ l.all asciiDigit = true := by
      intro l hl
      simp only [List.mem_cons, List.not_mem_nil, or_false] at hl
      rcases hl with rfl | rfl | rfl | rfl
      · exact hfA
      · exact hfB
      · exact hfC
      · exact hfD
    constructor
    · intro ch hch
      rcases splitBy_mem (fun c0 => decide (c0 = '.')) host ch hch with hp | ⟨l, hlmem, hchl⟩
      · simp only [decide_eq_true_eq] at hp
        subst hp
        decide
      · rw [hsp] at hlmem
        have hdig := (hlab l hlmem).2.2
        rw [List.all_eq_true] at hdig
        have hd := hdig ch hchl
        simp [dotOrDomainChar, domainChar, asciiAlphanumeric, hd]
    · unfold hostLabelsOkB
      rw [hsp]
      dsimp only
      have hglast : [a, b, c, d].getLast? = some d := by simp
      have hcond : ¬([a, b, c, d].getLast? = some ([] : List Char)) := by
        rw [hglast]
        intro hq
        injection hq with hq2
        exact hfD.1 hq2
      rw [if_neg hcond]
      simp only [Bool.and_eq_true, List.all_eq_true]
      constructor
      · simp
      · intro l hl
        have hf := hlab l hl
        have hpos : 0 < l.length := List.length_pos.mpr hf.1
        have hlt : l.length < 64 := by omega
        simp [hpos, hlt]

/-- C4 amended: only a host already written as four dot-separated decimal
octets is recognized as an IPv4 address: the modelled IPv4Address accepts a
host exactly when it is a strict dotted quad; every accepted host is returned
in canonical dotted-quad form; and every other host made of dots, letters,
digits and hyphens with acceptable labels — which covers the hex-prefix,
short, and trailing-dot numeric forms — is returned as a lowercased ASCII
domain. -/
theorem c4_ipv4_strict_dotted_quad_only :
    (∀ host : List Char, (∃ q, pyIPv4 host = some q) ↔ strictDottedQuad host = true) ∧
    (∀ (host : List Char) (q : Nat × Nat × Nat × Nat), pyIPv4 host = some q →
      parseHost host false = .ok (ipv4String q)) ∧
    (∀ host : List Char, (∀ c ∈ host, dotOrDomainChar c = true) →
      hostLabelsOkB host = true → pyIPv4 host = none →
      parseHost host false = .ok (host.map toLowerAscii)) := by
  refine ⟨pyIPv4_isSome_iff, ?_, ?_⟩
  · intro host q h
    obtain ⟨hall, hlb⟩ := pyIPv4_structure host q h
    rw [parseHost_plain host hall hlb, h]
  · intro host hall hlb hnone
    rw [parseHost_plain host hall hlb, hnone]

/-- Witness for the amended C4 theorem: the strict dotted quad "127.0.0.1" is
canonicalized through the IPv4 branch, while the hex form "0x7f.1" and the
trailing-dot form "127.0.0.1." take the ASCII-domain branch. -/
theorem c4_ipv4_strict_dotted_quad_only_witness :
    parseHost (str "127.0.0.1") false = .ok (ipv4String (127, 0, 0, 1)) ∧
    parseHost (str "0x7f.1") false = .ok ((str "0x7f.1").map toLowerAscii) ∧
    parseHost (str "127.0.0.1.") false = .ok ((str "127.0.0.1.").map toLowerAscii) := by
  refine ⟨?_, ?_, ?_⟩
  · exact c4_ipv4_strict_dotted_quad_only.2.1 (str "127.0.0.1") (127, 0, 0, 1) (by decide)
  · exact c4_ipv4_strict_dotted_quad_only.2.2 (str "0x7f.1") (by decide) (by decide) (by decide)
  · exact c4_ipv4_strict_dotted_quad_only.2.2 (str "127.0.0.1.") (by decide) (by decide)
      (by decide)

/-! ### Claim C5: fragment-state validation and acceptance -/

/-- C5 (code_bug evidence): in the fragment state the source fires the
validation error on VALID url code points (the test is not negated), and a
NUL code point is dropped instead of being percent-encoded and appended.
Parsing "q:#a" sets the validation flag although "a" is a URL code point
(no other rule fires on this input), and parsing "q:#<NUL>a" produces the
fragment "a" instead of "%00a". -/
theorem c5_fragment_validation_divergence :
    parseUrl (str "q:#a") none =
      .ok { scheme := some (str "q"), path := [[]], cannotBeBaseUrl := true,
            fragment := some (str "a") } true ∧
    parseUrl (str "q:#\x00a") none =
      .ok { scheme := some (str "q"), path := [[]], cannotBeBaseUrl := true,
            fragment := some (str "a") } true := by
  refine ⟨by decide, by decide⟩

/-! ### Claim C6: query initialization on entry -/

/-- C6 (code_bug evidence): starting the machine in the query state through a
state override on a URL whose query is absent crashes on the first appended
code point — the source evaluates None + str — instead of initializing the
query to the empty string as the claim requires. -/
theorem c6_query_override_crashes :
    parseWith {} none none (some .QUERY) (str "a") = .crash := by decide

/-! ### Claim C8: drive-letter preservation under path shortening -/

/-- flagIf only touches the validation flag. -/
theorem flagIf_url (m : Machine) (h : Prop) [Decidable h] : (flagIf m h).url = m.url := rfl

/-- flagIf only touches the validation flag. -/
theorem flagIf_buffer (m : Machine) (h : Prop) [Decidable h] :
    (flagIf m h).buffer = m.buffer := rfl

/-- flagIf only touches the validation flag. -/
theorem flagIf_stateOverride (m : Machine) (h : Prop) [Decidable h] :
    (flagIf m h).stateOverride = m.stateOverride := rfl

/-- shorten_url_path only touches the path. -/
theorem shortenUrlPath_scheme (u : Url) : (shortenUrlPath u).scheme = u.scheme := by
  unfold shortenUrlPath; split <;> [rfl; skip]; split <;> rfl

/-- dropLeadingEmpty leaves a path whose first segment is non-empty alone. -/
theorem dropLeadingEmpty_ne_head (p : List Char) (t : List (List Char)) (hp : p ≠ []) :
    dropLeadingEmpty (p :: t) = (p :: t, false) := by
  rcases p with _ | ⟨a, q⟩
  · exact absurd rfl hp
  · rcases t with _ | ⟨b, t'⟩ <;> rfl

/-- shorten_url_path never removes a first segment that is a normalized
Windows drive letter of a file URL. -/
theorem shorten_keeps_drive (u : Url) (l : Char) (rest : List (List Char))
    (hl : asciiAlpha l = true) (hs : u.scheme = some (str "file"))
    (hp : u.path = [l, ':'] :: rest) :
    (shortenUrlPath u).path.head? = some [l, ':'] := by
  rcases rest with _ | ⟨r, rs⟩
  · simp [shortenUrlPath, hp, hs, normalizedWindowsDrive, hl]
  · simp [shortenUrlPath, hp, List.dropLast]

/-- C8: for a file-scheme URL whose first path segment is a normalized
Windows drive letter (an ASCII letter followed by a colon), the
path-shortening operation keeps that first segment, and the double-dot
handling of the path state (which applies the shortening followed by the
leading-empty-segment cleanup) also keeps it in the resulting machine. -/
theorem c8_drive_letter_preservation (m : Machine) (c : Option Char) (rem : List Char)
    (l : Char) (rest : List (List Char))
    (hl : asciiAlpha l = true)
    (hs : m.url.scheme = some (str "file"))
    (hp : m.url.path = [l, ':'] :: rest) :
    (shortenUrlPath m.url).path.head? = some [l, ':'] ∧
    (m.buffer ∈ doubleDotSegments → ∀ m', onPath m c rem = .next m' →
      m'.url.path.head? = some [l, ':']) := by
  have hshort := shorten_keeps_drive m.url l rest hl hs hp
  refine ⟨hshort, ?_⟩
  intro hbuf m' hstep
  obtain ⟨t, ht⟩ : ∃ t, (shortenUrlPath m.url).path = [l, ':'] :: t := by
    cases hpath : (shortenUrlPath m.url).path with
    | nil => rw [hpath] at hshort; simp at hshort
    | cons x xs =>
      rw [hpath] at hshort
      simp only [List.head?, Option.some_inj] at hshort
      exact ⟨xs, by rw [hshort]⟩
  simp only [onPath, pathTerminator, pathCommitSegment, pathFileCleanup, pathDriveClearHost,
    flagIf_url, flagIf_buffer, eq_true hbuf, if_true] at hstep
  split at hstep
  · -- terminator branch of the path state
    repeat' split at hstep
    all_goals
      injection hstep with h
      subst h
      simp [ht, hp, dropLeadingEmpty_ne_head, List.head?, flagIf_url]
  · -- non-terminator branch: the url is unchanged
    repeat' split at hstep
    all_goals
      injection hstep with h
      subst h
      simp [hp, List.head?, flagIf_url]

/-- Witness for C8 at a concrete machine: file scheme, path ["C:", "x"],
buffer "..", terminator EOF. -/
theorem c8_drive_letter_preservation_witness :
    (shortenUrlPath { scheme := some (str "file"), path := [str "C:", str "x"] }).path.head? =
      some (str "C:") :=
  (c8_drive_letter_preservation
    { url := { scheme := some (str "file"), path := [str "C:", str "x"] }, buffer := str ".." }
    none [] 'C' [str "x"] (by decide) (by decide) (by decide)).1

/-! ### Claim C9: whitespace resilience

No handler reads the validation flag, so raising it in the initial machine
only forces it in the final outcome; and the preprocessing of the driver
gives the same code point sequence for an input and for the same input with
extra tabs, line feeds or carriage returns inserted. -/

/-- Force the validation flag of a handler result. -/
def StepResult.withVE (b : Bool) : StepResult → StepResult
  | .next m => .next { m with validationError := m.validationError || b }
  | .ret m => .ret { m with validationError := m.validationError || b }
  | .err => .err
  | .crash => .crash

/-- Force the validation flag of a parse outcome. -/
def Outcome.withVE (b : Bool) : Outcome → Outcome
  | .ok u ve => .ok u (ve || b)
  | r => r

/-- The machine with its validation flag forced, used by the flag lemmas. -/
def forceVE (m : Machine) (b : Bool) : Machine :=
  { m with validationError := m.validationError || b }

theorem forceVE_url (m : Machine) (b : Bool) : (forceVE m b).url = m.url := rfl

theorem forceVE_base (m : Machine) (b : Bool) : (forceVE m b).base = m.base := rfl

theorem forceVE_encoding (m : Machine) (b : Bool) : (forceVE m b).encoding = m.encoding := rfl

theorem forceVE_stateOverride (m : Machine) (b : Bool) :
    (forceVE m b).stateOverride = m.stateOverride := rfl

theorem forceVE_state (m : Machine) (b : Bool) : (forceVE m b).state = m.state := rfl

theorem forceVE_pointer (m : Machine) (b : Bool) : (forceVE m b).pointer = m.pointer := rfl

theorem forceVE_buffer (m : Machine) (b : Bool) : (forceVE m b).buffer = m.buffer := rfl

theorem forceVE_atFlag (m : Machine) (b : Bool) : (forceVE m b).atFlag = m.atFlag := rfl

theorem forceVE_squareBraceFlag (m : Machine) (b : Bool) :
    (forceVE m b).squareBraceFlag = m.squareBraceFlag := rfl

theorem forceVE_passwordTokenSeenFlag (m : Machine) (b : Bool) :
    (forceVE m b).passwordTokenSeenFlag = m.passwordTokenSeenFlag := rfl

/-- Raising the flag conditionally commutes with forcing it. -/
theorem flagIf_forceVE (m : Machine) (b : Bool) (h : Prop) [Decidable h] :
    flagIf (forceVE m b) h = forceVE (flagIf m h) b := by
  unfold flagIf forceVE
  dsimp only
  split <;> rfl

theorem onSchemeStart_ve (m : Machine) (b : Bool) (c : Option Char) (rem : List Char) :
    onSchemeStart (forceVE m b) c rem = (onSchemeStart m c rem).withVE b := by
  unfold onSchemeStart forceVE
  dsimp only
  repeat' split
  all_goals rfl

set_option maxHeartbeats 1000000 in
theorem schemeDispatch_ve (m1 : Machine) (b : Bool) (rem : List Char) :
    schemeDispatch (forceVE m1 b) rem = (schemeDispatch m1 rem).withVE b := by
  unfold schemeDispatch forceVE flagIf
  dsimp only
  repeat' split
  all_goals rfl

set_option maxHeartbeats 1000000 in
theorem onScheme_ve (m : Machine) (b : Bool) (c : Option Char) (rem : List Char) :
    onScheme (forceVE m b) c rem = (onScheme m c rem).withVE b := by
  unfold onScheme forceVE
  dsimp only
  repeat' split
  all_goals first
    | rfl
    | exact schemeDispatch_ve
        { m with url := { m.url with scheme := some m.buffer }, buffer := [] } b rem

theorem onNoScheme_ve (m : Machine) (b : Bool) (c : Option Char) (rem : List Char) :
    onNoScheme (forceVE m b) c rem = (onNoScheme m c rem).withVE b := by
  unfold onNoScheme forceVE
  dsimp only
  repeat' split
  all_goals rfl

theorem onSpecialRelativeOrAuthority_ve (m : Machine) (b : Bool) (c : Option Char)
    (rem : List Char) :
    onSpecialRelativeOrAuthority (forceVE m b) c rem =
      (onSpecialRelativeOrAuthority m c rem).withVE b := by
  unfold onSpecialRelativeOrAuthority setVE forceVE
  dsimp only
  repeat' split
  all_goals rfl

theorem onPathOrAuthority_ve (m : Machine) (b : Bool) (c : Option Char) (rem : List Char) :
    onPathOrAuthority (forceVE m b) c rem = (onPathOrAuthority m c rem).withVE b := by
  unfold onPathOrAuthority forceVE
  dsimp only
  repeat' split
  all_goals rfl

theorem onRelative_ve (m : Machine) (b : Bool) (c : Option Char) (rem : List Char) :
    onRelative (forceVE m b) c rem = (onRelative m c rem).withVE b := by
  unfold onRelative setVE forceVE
  dsimp only
  repeat' split
  all_goals rfl

set_option maxHeartbeats 1000000 in
theorem onRelativeSlash_ve (m : Machine) (b : Bool) (c : Option Char) (rem : List Char) :
    onRelativeSlash (forceVE m b) c rem = (onRelativeSlash m c rem).withVE b := by
  unfold onRelativeSlash forceVE flagIf
  dsimp only
  repeat' split
  all_goals rfl

theorem onSpecialAuthoritySlashes_ve (m : Machine) (b : Bool) (c : Option Char)
    (rem : List Char) :
    onSpecialAuthoritySlashes (forceVE m b) c rem =
      (onSpecialAuthoritySlashes m c rem).withVE b := by
  unfold onSpecialAuthoritySlashes setVE forceVE
  dsimp only
  repeat' split
  all_goals rfl

theorem onSpecialAuthorityIgnoreSlashes_ve (m : Machine) (b : Bool) (c : Option Char)
    (rem : List Char) :
    onSpecialAuthorityIgnoreSlashes (forceVE m b) c rem =
      (onSpecialAuthorityIgnoreSlashes m c rem).withVE b := by
  unfold onSpecialAuthorityIgnoreSlashes setVE forceVE
  dsimp only
  repeat' split
  all_goals rfl

theorem onAuthority_ve (m : Machine) (b : Bool) (c : Option Char) (rem : List Char) :
    onAuthority (forceVE m b) c rem = (onAuthority m c rem).withVE b := by
  unfold onAuthority setVE forceVE
  dsimp only
  repeat' split
  all_goals rfl

set_option maxHeartbeats 1000000 in
theorem onHostOrHostname_ve (m : Machine) (b : Bool) (c : Option Char) (rem : List Char) :
    onHostOrHostname (forceVE m b) c rem = (onHostOrHostname m c rem).withVE b := by
  unfold onHostOrHostname setVE forceVE
  dsimp only
  repeat' split
  all_goals rfl

theorem onPort_ve (m : Machine) (b : Bool) (c : Option Char) (rem : List Char) :
    onPort (forceVE m b) c rem = (onPort m c rem).withVE b := by
  unfold onPort forceVE
  dsimp only
  repeat' split
  all_goals rfl

set_option maxHeartbeats 1000000 in
theorem onFile_ve (m : Machine) (b : Bool) (c : Option Char) (rem : List Char) :
    onFile (forceVE m b) c rem = (onFile m c rem).withVE b := by
  unfold onFile setVE forceVE
  dsimp only
  repeat' split
  all_goals rfl

set_option maxHeartbeats 1000000 in
theorem onFileSlash_ve (m : Machine) (b : Bool) (c : Option Char) (rem : List Char) :
    onFileSlash (forceVE m b) c rem = (onFileSlash m c rem).withVE b := by
  unfold onFileSlash forceVE flagIf
  dsimp only
  repeat' split
  all_goals rfl

theorem onFileHost_ve (m : Machine) (b : Bool) (c : Option Char) (rem : List Char) :
    onFileHost (forceVE m b) c rem = (onFileHost m c rem).withVE b := by
  unfold onFileHost setVE forceVE
  dsimp only
  repeat' split
  all_goals rfl

set_option maxHeartbeats 1000000 in
theorem onPathStart_ve (m : Machine) (b : Bool) (c : Option Char) (rem : List Char) :
    onPathStart (forceVE m b) c rem = (onPathStart m c rem).withVE b := by
  unfold onPathStart forceVE flagIf
  dsimp only
  repeat' split
  all_goals rfl

theorem pathDriveClearHost_ve (m1 : Machine) (b : Bool) :
    pathDriveClearHost (forceVE m1 b) = forceVE (pathDriveClearHost m1) b := by
  unfold pathDriveClearHost setVE forceVE
  dsimp only
  repeat' split
  all_goals rfl

set_option maxHeartbeats 1000000 in
theorem pathCommitSegment_ve (m1 : Machine) (b : Bool) (c : Option Char) :
    pathCommitSegment (forceVE m1 b) c = forceVE (pathCommitSegment m1 c) b := by
  unfold pathCommitSegment pathDriveClearHost setVE forceVE
  dsimp only
  repeat' split
  all_goals rfl

theorem pathFileCleanup_ve (m3 : Machine) (b : Bool) (c : Option Char) :
    pathFileCleanup (forceVE m3 b) c = forceVE (pathFileCleanup m3 c) b := by
  unfold pathFileCleanup forceVE
  dsimp only
  repeat' split
  all_goals first
    | rfl
    | simp [Machine.mk.injEq, Bool.or_assoc, Bool.or_comm, Bool.or_left_comm]

set_option maxHeartbeats 1000000 in
theorem pathTerminator_ve (m1 : Machine) (b : Bool) (c : Option Char) :
    pathTerminator (forceVE m1 b) c = (pathTerminator m1 c).withVE b := by
  unfold pathTerminator
  rw [pathCommitSegment_ve, pathFileCleanup_ve]
  dsimp only [forceVE]
  repeat' split
  all_goals rfl

set_option maxHeartbeats 1000000 in
theorem onPath_ve (m : Machine) (b : Bool) (c : Option Char) (rem : List Char) :
    onPath (forceVE m b) c rem = (onPath m c rem).withVE b := by
  unfold onPath
  simp only [forceVE_url, forceVE_stateOverride, forceVE_buffer, flagIf_forceVE,
    pathTerminator_ve]
  repeat' split
  all_goals rfl

theorem onCannotBeBaseUrl_ve (m : Machine) (b : Bool) (c : Option Char) (rem : List Char) :
    onCannotBeBaseUrl (forceVE m b) c rem = (onCannotBeBaseUrl m c rem).withVE b := by
  unfold onCannotBeBaseUrl forceVE flagIf
  dsimp only
  repeat' split
  all_goals rfl

theorem queryEncodingReset_ve (m : Machine) (b : Bool) :
    queryEncodingReset (forceVE m b) = forceVE (queryEncodingReset m) b := by
  unfold queryEncodingReset forceVE
  dsimp only
  repeat' split
  all_goals rfl

set_option maxHeartbeats 1000000 in
theorem onQuery_ve (m : Machine) (b : Bool) (c : Option Char) (rem : List Char) :
    onQuery (forceVE m b) c rem = (onQuery m c rem).withVE b := by
  unfold onQuery
  simp only [queryEncodingReset_ve, forceVE_url, forceVE_stateOverride, forceVE_encoding,
    flagIf_forceVE]
  repeat' split
  all_goals rfl

theorem onFragment_ve (m : Machine) (b : Bool) (c : Option Char) (rem : List Char) :
    onFragment (forceVE m b) c rem = (onFragment m c rem).withVE b := by
  unfold onFragment setVE forceVE flagIf
  dsimp only
  repeat' split
  all_goals rfl

/-- No handler reads the validation flag: running a handler on a machine with
the flag forced is the same as forcing the flag on its result. -/
theorem handle_ve (m : Machine) (b : Bool) (c : Option Char) (rem : List Char) :
    handle { m with validationError := m.validationError || b } c rem =
      (handle m c rem).withVE b := by
  show handle (forceVE m b) c rem = (handle m c rem).withVE b
  have hstate : (forceVE m b).state = m.state := rfl
  cases hs : m.state
  all_goals simp only [handle, hstate, hs]
  exacts [onSchemeStart_ve m b c rem, onScheme_ve m b c rem, onNoScheme_ve m b c rem,
    onSpecialRelativeOrAuthority_ve m b c rem, onPathOrAuthority_ve m b c rem,
    onRelative_ve m b c rem, onRelativeSlash_ve m b c rem,
    onSpecialAuthoritySlashes_ve m b c rem, onSpecialAuthorityIgnoreSlashes_ve m b c rem,
    onAuthority_ve m b c rem, onHostOrHostname_ve m b c rem, onHostOrHostname_ve m b c rem,
    onPort_ve m b c rem, onFile_ve m b c rem, onFileSlash_ve m b c rem,
    onFileHost_ve m b c rem, onPathStart_ve m b c rem, onPath_ve m b c rem,
    onCannotBeBaseUrl_ve m b c rem, onQuery_ve m b c rem, onFragment_ve m b c rem]

/-- runLoop with the validation flag forced in the initial machine. -/
theorem runLoop_ve (fuel : Nat) (data : List Char) (m : Machine) (b : Bool) :
    runLoop fuel data { m with validationError := m.validationError || b } =
      (runLoop fuel data m).withVE b := by
  induction fuel generalizing m with
  | zero => rfl
  | succ n ih =>
    simp only [runLoop]
    split
    · rw [handle_ve]
      cases handle m none [] with
      | next m1 =>
        simpa [StepResult.withVE] using ih { m1 with pointer := m1.pointer + 1 }
      | ret m1 => simp [StepResult.withVE, Outcome.withVE]
      | err => simp [StepResult.withVE, Outcome.withVE]
      | crash => simp [StepResult.withVE, Outcome.withVE]
    · split
      · cases pyIndex data m.pointer with
        | none => simp [Outcome.withVE]
        | some ch =>
          dsimp only
          rw [handle_ve]
          cases handle m (some ch) (pySliceFrom data (m.pointer + 1)) with
          | next m1 =>
            simpa [StepResult.withVE] using ih { m1 with pointer := m1.pointer + 1 }
          | ret m1 => simp [StepResult.withVE, Outcome.withVE]
          | err => simp [StepResult.withVE, Outcome.withVE]
          | crash => simp [StepResult.withVE, Outcome.withVE]
      · simp [Outcome.withVE]

/-- The insertion relation of claim C9: s2 is s1 with any number of tab, line
feed or carriage return code points inserted at any positions. -/
inductive InsertTNR : List Char → List Char → Prop where
  | nil : InsertTNR [] []
  | keep (c : Char) {s1 s2 : List Char} : InsertTNR s1 s2 → InsertTNR (c :: s1) (c :: s2)
  | ins (c : Char) {s1 s2 : List Char} : isTabOrNewline c = true → InsertTNR s1 s2 →
      InsertTNR s1 (c :: s2)

/-- Removing tabs and newlines cancels the insertions. -/
theorem insertTNR_filter {s1 s2 : List Char} (h : InsertTNR s1 s2) :
    removeTabsNewlines s2 = removeTabsNewlines s1 := by
  induction h with
  | nil => rfl
  | keep c _ ih => simp [removeTabsNewlines, List.filter] at ih ⊢; rw [ih]
  | ins c hc _ ih => simp [removeTabsNewlines, List.filter, hc] at ih ⊢; exact ih

/-- An insertion never shortens the input. -/
theorem insertTNR_length {s1 s2 : List Char} (h : InsertTNR s1 s2) :
    s1.length ≤ s2.length := by
  induction h with
  | nil => exact Nat.le_refl 0
  | keep c _ ih => simpa using Nat.succ_le_succ ih
  | ins c _ _ ih => simpa using Nat.le_succ_of_le ih

/-- A strict insertion leaves a tab or newline somewhere in the result. -/
theorem insertTNR_mem {s1 s2 : List Char} (h : InsertTNR s1 s2)
    (hlt : s1.length < s2.length) : ∃ ch ∈ s2, isTabOrNewline ch = true := by
  induction h with
  | nil => simp at hlt
  | keep c h ih =>
    obtain ⟨ch, hm, hch⟩ := ih (by simpa using hlt)
    exact ⟨ch, List.mem_cons_of_mem c hm, hch⟩
  | ins c hc h _ => exact ⟨c, List.mem_cons_self c _, hc⟩

/-- A tab or newline is a C0 control. -/
theorem tnr_c0 (c : Char) (h : isTabOrNewline c = true) : isC0ControlOrSpace c = true := by
  simp only [isTabOrNewline, decide_eq_true_eq] at h
  rcases h with h | h | h <;> subst h <;> decide

/-- The tab-and-newline filter commutes with the leading trim. -/
theorem filter_dropWhile_c0 (s : List Char) :
    removeTabsNewlines (s.dropWhile isC0ControlOrSpace) =
      (removeTabsNewlines s).dropWhile isC0ControlOrSpace := by
  induction s with
  | nil => rfl
  | cons c t ih =>
    simp only [removeTabsNewlines] at ih ⊢
    by_cases hc0 : isC0ControlOrSpace c = true
    · cases htnr : isTabOrNewline c with
      | true => simpa [List.dropWhile_cons, List.filter_cons, hc0, htnr] using ih
      | false => simpa [List.dropWhile_cons, List.filter_cons, hc0, htnr] using ih
    · have htnr : isTabOrNewline c = false := by
        cases h2 : isTabOrNewline c
        · rfl
        · exact absurd (tnr_c0 c h2) hc0
      simp only [Bool.not_eq_true] at hc0
      simp [List.dropWhile_cons, List.filter_cons, hc0, htnr]

/-- The tab-and-newline filter commutes with reversal. -/
theorem filter_reverse_tnr (s : List Char) :
    removeTabsNewlines s.reverse = (removeTabsNewlines s).reverse := by
  simp [removeTabsNewlines, List.filter_reverse]

/-- The preprocessed code point sequence of the driver. -/
def preprocessed (s : List Char) : List Char :=
  removeTabsNewlines (trimTrailingFlag (trimLeadingFlag s).1).1

/-- Trimming after filtering equals filtering after trimming, for the whole
leading-plus-trailing preprocessing. -/
theorem preprocessed_eq (s : List Char) :
    preprocessed s =
      (((removeTabsNewlines s).dropWhile isC0ControlOrSpace).reverse.dropWhile
        isC0ControlOrSpace).reverse := by
  simp only [preprocessed, trimTrailingFlag, trimLeadingFlag]
  rw [filter_reverse_tnr, filter_dropWhile_c0, filter_reverse_tnr, filter_dropWhile_c0]

/-- The validation flag raised by the preprocessing of the driver. -/
def flagsOf (s : List Char) : Bool :=
  (trimLeadingFlag s).2 || (trimTrailingFlag (trimLeadingFlag s).1).2 ||
    decide ((removeTabsNewlines (trimTrailingFlag (trimLeadingFlag s).1).1).length <
      (trimTrailingFlag (trimLeadingFlag s).1).1.length)

/-- The initial machine of a fresh parse, with a given validation flag. -/
def initMachine (base : Option Url) (fl : Bool) : Machine :=
  { base := base, validationError := fl }

/-- A fresh parse is the loop on the preprocessed input from the initial
machine carrying the preprocessing flag. -/
theorem parseUrl_runLoop (s : List Char) (base : Option Url) :
    parseUrl s base =
      runLoop (fuelBound (preprocessed s).length) (preprocessed s)
        (initMachine base (flagsOf s)) := rfl

/-- A leading trim that raises no flag removes nothing. -/
theorem trimLeading_id (s : List Char) (h : (trimLeadingFlag s).2 = false) :
    (trimLeadingFlag s).1 = s := by
  cases s with
  | nil => rfl
  | cons c t =>
    simp only [trimLeadingFlag] at h ⊢
    simp [List.dropWhile_cons, h]

/-- A trailing trim that raises no flag removes nothing. -/
theorem trimTrailing_id (s : List Char) (h : (trimTrailingFlag s).2 = false) :
    (trimTrailingFlag s).1 = s := by
  simp only [trimTrailingFlag] at h ⊢
  rw [trimLeading_id _ h, List.reverse_reverse]

/-- Filtering a list that contains an element failing the kept predicate
strictly shrinks it. -/
theorem filter_lt_of_mem {l : List Char} {ch : Char} (hm : ch ∈ l)
    (hch : isTabOrNewline ch = true) :
    (removeTabsNewlines l).length < l.length := by
  induction l with
  | nil => simp at hm
  | cons a t ih =>
    rcases List.mem_cons.mp hm with rfl | hmem
    · simp only [removeTabsNewlines, List.filter_cons, hch]
      simp only [Bool.not_true, Bool.false_eq_true, if_false, List.length_cons]
      exact Nat.lt_succ_of_le (List.length_filter_le _ _)
    · simp only [removeTabsNewlines, List.filter_cons] at ih ⊢
      split
      · simpa using Nat.succ_lt_succ (ih hmem)
      · exact Nat.lt_succ_of_lt (ih hmem)

/-- An input containing a tab or newline code point always raises the
preprocessing validation flag. -/
theorem flagsOf_true_of_tnr (s : List Char) (h : ∃ ch ∈ s, isTabOrNewline ch = true) :
    flagsOf s = true := by
  unfold flagsOf
  cases hl : (trimLeadingFlag s).2 with
  | true => simp
  | false =>
    cases ht : (trimTrailingFlag (trimLeadingFlag s).1).2 with
    | true => simp
    | false =>
      have h2 : (trimTrailingFlag (trimLeadingFlag s).1).1 = s := by
        rw [trimTrailing_id _ ht, trimLeading_id _ hl]
      obtain ⟨ch, hm, hch⟩ := h
      rw [h2]
      simp [filter_lt_of_mem hm hch]

/-- C9: for every input w that parses successfully and every w2 obtained from
w by inserting at least one tab, line feed or carriage return anywhere,
parsing w2 succeeds, produces the same URL record, and reports a validation
error. -/
theorem c9_whitespace_resilience (w w2 : List Char) (base : Option Url) (u : Url)
    (ve : Bool) (hins : InsertTNR w w2) (hone : w.length < w2.length)
    (hok : parseUrl w base = .ok u ve) :
    parseUrl w2 base = .ok u true := by
  have hdata : preprocessed w2 = preprocessed w := by
    rw [preprocessed_eq, preprocessed_eq, insertTNR_filter hins]
  have hM : ∀ fl, initMachine base fl =
      { initMachine base false with
        validationError := (initMachine base false).validationError || fl } := by
    intro fl; simp [initMachine]
  have hrun : ∀ fl, runLoop (fuelBound (preprocessed w).length) (preprocessed w)
      (initMachine base fl) =
      (runLoop (fuelBound (preprocessed w).length) (preprocessed w)
        (initMachine base false)).withVE fl := by
    intro fl
    rw [hM fl, runLoop_ve]
  have hflag : flagsOf w2 = true := flagsOf_true_of_tnr w2 (insertTNR_mem hins hone)
  rw [parseUrl_runLoop, hrun] at hok
  rw [parseUrl_runLoop, hdata, hrun, hflag]
  cases hbase : runLoop (fuelBound (preprocessed w).length) (preprocessed w)
      (initMachine base false) with
  | ok u0 ve0 =>
    rw [hbase] at hok
    simp only [Outcome.withVE] at hok ⊢
    injection hok with h1 h2
    subst h1
    simp
  | parserError => rw [hbase] at hok; simp [Outcome.withVE] at hok
  | crash => rw [hbase] at hok; simp [Outcome.withVE] at hok
  | fuelOut => rw [hbase] at hok; simp [Outcome.withVE] at hok

/-- Witness for C9: inserting one tab into "foo:bar". -/
theorem c9_whitespace_resilience_witness :
    parseUrl (str "foo:\tbar") none =
      .ok { scheme := some (str "foo"), path := [str "bar"], cannotBeBaseUrl := true }
        true :=
  c9_whitespace_resilience (str "foo:bar") (str "foo:\tbar") none
    { scheme := some (str "foo"), path := [str "bar"], cannotBeBaseUrl := true } false
    (.keep 'f' (.keep 'o' (.keep 'o' (.keep ':' (.ins '\t' (by decide)
      (.keep 'b' (.keep 'a' (.keep 'r' .nil))))))))
    (by decide) (by decide)

/-! ### Claim C10: termination of the parse driver -/

set_option linter.unusedTactic false
set_option linter.unreachableTactic false

/-- The parser states whose handlers are reached only with an empty buffer: no
transition into one of them keeps a nonempty buffer, and their handlers never
fill the buffer while staying in place. -/
def bufferClearStates : List ParserState :=
  [.SCHEME_START, .NO_SCHEME, .SPECIAL_RELATIVE_OR_AUTHORITY, .PATH_OR_AUTHORITY,
   .RELATIVE, .RELATIVE_SLASH, .SPECIAL_AUTHORITY_SLASHES,
   .SPECIAL_AUTHORITY_IGNORE_SLASHES]

/-- The global machine invariant of the driver: the pointer is nonnegative on
entry to a step, the buffer length bounds the pointer in the authority state
(so the authority rewind cannot push the pointer below -1), and the buffer is
empty in the early states. -/
def ginv (m : Machine) : Prop :=
  0 ≤ m.pointer ∧
  (m.state = .AUTHORITY → (m.buffer.length : Int) ≤ m.pointer) ∧
  (m.state ∈ bufferClearStates → m.buffer = [])

/-- The shape of an accepted handler step after the driver increments the
pointer: the invariant is re-established, and either the state rank strictly
increased with the pointer not below -1, or the state and the pointer are both
unchanged (the pointer then advances by the increment). -/
def stepShape (m m1 : Machine) : Prop :=
  ginv { m1 with pointer := m1.pointer + 1 } ∧
  (m.state.val < m1.state.val ∧ -1 ≤ m1.pointer ∨ m1.state = m.state ∧ m1.pointer = m.pointer)

/-- Step shape of the SCHEME_START handler. -/
theorem onSchemeStart_step (m : Machine) (c : Option Char) (rem : List Char) (m1 : Machine)
    (hs : m.state = .SCHEME_START) (hg : ginv m) (h : onSchemeStart m c rem = .next m1) :
    stepShape m m1 := by
  obtain ⟨hp, hab, hbc⟩ := hg
  unfold onSchemeStart at h
  repeat' (first | split at h | dsimp only at h)
  all_goals first
    | (injection h with h2
       subst h2
       refine ⟨⟨by dsimp only; omega, ?_, ?_⟩, ?_⟩
       · intro hA; simp_all [bufferClearStates]; try omega
       · intro hS; simp_all [bufferClearStates]; try omega
       · first
         | exact Or.inr ⟨rfl, rfl⟩
         | exact Or.inr ⟨hs.symm, rfl⟩
         | (refine Or.inl ⟨?_, ?_⟩ <;> (try simp only [hs]) <;> (try dsimp only) <;>
             first | decide | omega))
    | simp at h

/-- The scheme dispatch only reaches states of rank above 2, never the
authority state, keeps the buffer, and moves the pointer forward by at most
one. -/
theorem schemeDispatch_step (m1 : Machine) (rem : List Char) (m2 : Machine)
    (h : schemeDispatch m1 rem = .next m2) :
    2 < m2.state.val ∧ m2.state ≠ .AUTHORITY ∧ m2.buffer = m1.buffer ∧
    (m2.pointer = m1.pointer ∨ m2.pointer = m1.pointer + 1) := by
  unfold schemeDispatch at h
  try unfold flagIf at h
  repeat' (first | split at h | dsimp only at h)
  all_goals (injection h with h2; subst h2)
  all_goals refine ⟨by dsimp only; decide, by dsimp only; decide, rfl, ?_⟩
  all_goals first | exact Or.inl rfl | exact Or.inr rfl

/-- Step shape of the SCHEME handler. -/
theorem onScheme_step (m : Machine) (c : Option Char) (rem : List Char) (m1 : Machine)
    (hs : m.state = .SCHEME) (hg : ginv m) (h : onScheme m c rem = .next m1) :
    stepShape m m1 := by
  obtain ⟨hp, hab, hbc⟩ := hg
  unfold onScheme at h
  repeat' (first | split at h | dsimp only at h)
  repeat' (first | split at h | dsimp only at h)
  all_goals first
    | (injection h with h2
       subst h2
       refine ⟨⟨by dsimp only; omega, ?_, ?_⟩, ?_⟩
       · intro hA; simp_all [bufferClearStates]; try omega
       · intro hS; simp_all [bufferClearStates]; try omega
       · first
         | exact Or.inr ⟨rfl, rfl⟩
         | exact Or.inr ⟨hs.symm, rfl⟩
         | (refine Or.inl ⟨?_, ?_⟩ <;> (try simp only [hs]) <;> (try dsimp only) <;>
             first | decide | omega))
    | (obtain ⟨h3, hA, hbuf, hptr⟩ := schemeDispatch_step _ rem m1 h
       dsimp only at hbuf
       try dsimp only at hptr
       refine ⟨⟨by dsimp only; rcases hptr with h4 | h4 <;> omega, ?_, ?_⟩, ?_⟩
       · intro hA2; exact absurd hA2 hA
       · intro hS2; exact hbuf
       · refine Or.inl ⟨?_, by rcases hptr with h4 | h4 <;> omega⟩
         rw [hs]
         exact h3)
    | simp at h

/-- Step shape of the NO_SCHEME handler. -/
theorem onNoScheme_step (m : Machine) (c : Option Char) (rem : List Char) (m1 : Machine)
    (hs : m.state = .NO_SCHEME) (hg : ginv m) (h : onNoScheme m c rem = .next m1) :
    stepShape m m1 := by
  obtain ⟨hp, hab, hbc⟩ := hg
  unfold onNoScheme at h
  repeat' (first | split at h | dsimp only at h)
  all_goals first
    | (injection h with h2
       subst h2
       refine ⟨⟨by dsimp only; omega, ?_, ?_⟩, ?_⟩
       · intro hA; simp_all [bufferClearStates]; try omega
       · intro hS; simp_all [bufferClearStates]; try omega
       · first
         | exact Or.inr ⟨rfl, rfl⟩
         | exact Or.inr ⟨hs.symm, rfl⟩
         | (refine Or.inl ⟨?_, ?_⟩ <;> (try simp only [hs]) <;> (try dsimp only) <;>
             first | decide | omega))
    | simp at h

/-- Step shape of the SPECIAL_RELATIVE_OR_AUTHORITY handler. -/
theorem onSpecialRelativeOrAuthority_step (m : Machine) (c : Option Char) (rem : List Char) (m1 : Machine)
    (hs : m.state = .SPECIAL_RELATIVE_OR_AUTHORITY) (hg : ginv m) (h : onSpecialRelativeOrAuthority m c rem = .next m1) :
    stepShape m m1 := by
  obtain ⟨hp, hab, hbc⟩ := hg
  unfold onSpecialRelativeOrAuthority at h
  try unfold setVE at h
  repeat' (first | split at h | dsimp only at h)
  all_goals first
    | (injection h with h2
       subst h2
       refine ⟨⟨by dsimp only; omega, ?_, ?_⟩, ?_⟩
       · intro hA; simp_all [bufferClearStates]; try omega
       · intro hS; simp_all [bufferClearStates]; try omega
       · first
         | exact Or.inr ⟨rfl, rfl⟩
         | exact Or.inr ⟨hs.symm, rfl⟩
         | (refine Or.inl ⟨?_, ?_⟩ <;> (try simp only [hs]) <;> (try dsimp only) <;>
             first | decide | omega))
    | simp at h

/-- Step shape of the PATH_OR_AUTHORITY handler. -/
theorem onPathOrAuthority_step (m : Machine) (c : Option Char) (rem : List Char) (m1 : Machine)
    (hs : m.state = .PATH_OR_AUTHORITY) (hg : ginv m) (h : onPathOrAuthority m c rem = .next m1) :
    stepShape m m1 := by
  obtain ⟨hp, hab, hbc⟩ := hg
  unfold onPathOrAuthority at h
  repeat' (first | split at h | dsimp only at h)
  all_goals first
    | (injection h with h2
       subst h2
       refine ⟨⟨by dsimp only; omega, ?_, ?_⟩, ?_⟩
       · intro hA; simp_all [bufferClearStates]; try omega
       · intro hS; simp_all [bufferClearStates]; try omega
       · first
         | exact Or.inr ⟨rfl, rfl⟩
         | exact Or.inr ⟨hs.symm, rfl⟩
         | (refine Or.inl ⟨?_, ?_⟩ <;> (try simp only [hs]) <;> (try dsimp only) <;>
             first | decide | omega))
    | simp at h

/-- Step shape of the RELATIVE handler. -/
theorem onRelative_step (m : Machine) (c : Option Char) (rem : List Char) (m1 : Machine)
    (hs : m.state = .RELATIVE) (hg : ginv m) (h : onRelative m c rem = .next m1) :
    stepShape m m1 := by
  obtain ⟨hp, hab, hbc⟩ := hg
  unfold onRelative at h
  try unfold setVE at h
  repeat' (first | split at h | dsimp only at h)
  all_goals first
    | (injection h with h2
       subst h2
       refine ⟨⟨by dsimp only; omega, ?_, ?_⟩, ?_⟩
       · intro hA; simp_all [bufferClearStates]; try omega
       · intro hS; simp_all [bufferClearStates]; try omega
       · first
         | exact Or.inr ⟨rfl, rfl⟩
         | exact Or.inr ⟨hs.symm, rfl⟩
         | (refine Or.inl ⟨?_, ?_⟩ <;> (try simp only [hs]) <;> (try dsimp only) <;>
             first | decide | omega))
    | simp at h

/-- Step shape of the RELATIVE_SLASH handler. -/
theorem onRelativeSlash_step (m : Machine) (c : Option Char) (rem : List Char) (m1 : Machine)
    (hs : m.state = .RELATIVE_SLASH) (hg : ginv m) (h : onRelativeSlash m c rem = .next m1) :
    stepShape m m1 := by
  obtain ⟨hp, hab, hbc⟩ := hg
  unfold onRelativeSlash at h
  try unfold setVE at h
  try unfold flagIf at h
  repeat' (first | split at h | dsimp only at h)
  all_goals first
    | (injection h with h2
       subst h2
       refine ⟨⟨by dsimp only; omega, ?_, ?_⟩, ?_⟩
       · intro hA; simp_all [bufferClearStates]; try omega
       · intro hS; simp_all [bufferClearStates]; try omega
       · first
         | exact Or.inr ⟨rfl, rfl⟩
         | exact Or.inr ⟨hs.symm, rfl⟩
         | (refine Or.inl ⟨?_, ?_⟩ <;> (try simp only [hs]) <;> (try dsimp only) <;>
             first | decide | omega))
    | simp at h

/-- Step shape of the SPECIAL_AUTHORITY_SLASHES handler. -/
theorem onSpecialAuthoritySlashes_step (m : Machine) (c : Option Char) (rem : List Char) (m1 : Machine)
    (hs : m.state = .SPECIAL_AUTHORITY_SLASHES) (hg : ginv m) (h : onSpecialAuthoritySlashes m c rem = .next m1) :
    stepShape m m1 := by
  obtain ⟨hp, hab, hbc⟩ := hg
  unfold onSpecialAuthoritySlashes at h
  try unfold setVE at h
  repeat' (first | split at h | dsimp only at h)
  all_goals first
    | (injection h with h2
       subst h2
       refine ⟨⟨by dsimp only; omega, ?_, ?_⟩, ?_⟩
       · intro hA; simp_all [bufferClearStates]; try omega
       · intro hS; simp_all [bufferClearStates]; try omega
       · first
         | exact Or.inr ⟨rfl, rfl⟩
         | exact Or.inr ⟨hs.symm, rfl⟩
         | (refine Or.inl ⟨?_, ?_⟩ <;> (try simp only [hs]) <;> (try dsimp only) <;>
             first | decide | omega))
    | simp at h

/-- Step shape of the SPECIAL_AUTHORITY_IGNORE_SLASHES handler. -/
theorem onSpecialAuthorityIgnoreSlashes_step (m : Machine) (c : Option Char) (rem : List Char) (m1 : Machine)
    (hs : m.state = .SPECIAL_AUTHORITY_IGNORE_SLASHES) (hg : ginv m) (h : onSpecialAuthorityIgnoreSlashes m c rem = .next m1) :
    stepShape m m1 := by
  obtain ⟨hp, hab, hbc⟩ := hg
  unfold onSpecialAuthorityIgnoreSlashes at h
  try unfold setVE at h
  repeat' (first | split at h | dsimp only at h)
  all_goals first
    | (injection h with h2
       subst h2
       refine ⟨⟨by dsimp only; omega, ?_, ?_⟩, ?_⟩
       · intro hA; simp_all [bufferClearStates]; try omega
       · intro hS; simp_all [bufferClearStates]; try omega
       · first
         | exact Or.inr ⟨rfl, rfl⟩
         | exact Or.inr ⟨hs.symm, rfl⟩
         | (refine Or.inl ⟨?_, ?_⟩ <;> (try simp only [hs]) <;> (try dsimp only) <;>
             first | decide | omega))
    | simp at h

/-- Step shape of the AUTHORITY handler. -/
theorem onAuthority_step (m : Machine) (c : Option Char) (rem : List Char) (m1 : Machine)
    (hs : m.state = .AUTHORITY) (hg : ginv m) (h : onAuthority m c rem = .next m1) :
    stepShape m m1 := by
  obtain ⟨hp, hab0, hbc⟩ := hg
  rw [hs] at hab0
  have hab := hab0 rfl
  clear hab0
  unfold onAuthority at h
  try unfold setVE at h
  repeat' (first | split at h | dsimp only at h)
  all_goals first
    | (injection h with h2
       subst h2
       refine ⟨⟨by dsimp only; omega, ?_, ?_⟩, ?_⟩
       · intro hA; simp_all [bufferClearStates]; try omega
       · intro hS; simp_all [bufferClearStates]; try omega
       · first
         | exact Or.inr ⟨rfl, rfl⟩
         | exact Or.inr ⟨hs.symm, rfl⟩
         | (refine Or.inl ⟨?_, ?_⟩ <;> (try simp only [hs]) <;> (try dsimp only) <;>
             first | decide | omega))
    | simp at h

/-- Step shape of the HOST handler. -/
theorem onHost_step (m : Machine) (c : Option Char) (rem : List Char) (m1 : Machine)
    (hs : m.state = .HOST) (hg : ginv m) (h : onHostOrHostname m c rem = .next m1) :
    stepShape m m1 := by
  obtain ⟨hp, hab, hbc⟩ := hg
  unfold onHostOrHostname at h
  try unfold setVE at h
  repeat' (first | split at h | dsimp only at h)
  all_goals first
    | (injection h with h2
       subst h2
       refine ⟨⟨by dsimp only; omega, ?_, ?_⟩, ?_⟩
       · intro hA; simp_all [bufferClearStates]; try omega
       · intro hS; simp_all [bufferClearStates]; try omega
       · first
         | exact Or.inr ⟨rfl, rfl⟩
         | exact Or.inr ⟨hs.symm, rfl⟩
         | (refine Or.inl ⟨?_, ?_⟩ <;> (try simp only [hs]) <;> (try dsimp only) <;>
             first | decide | omega))
    | simp at h

/-- Step shape of the HOSTNAME handler. -/
theorem onHostname_step (m : Machine) (c : Option Char) (rem : List Char) (m1 : Machine)
    (hs : m.state = .HOSTNAME) (hg : ginv m) (h : onHostOrHostname m c rem = .next m1) :
    stepShape m m1 := by
  obtain ⟨hp, hab, hbc⟩ := hg
  unfold onHostOrHostname at h
  try unfold setVE at h
  repeat' (first | split at h | dsimp only at h)
  all_goals first
    | (injection h with h2
       subst h2
       refine ⟨⟨by dsimp only; omega, ?_, ?_⟩, ?_⟩
       · intro hA; simp_all [bufferClearStates]; try omega
       · intro hS; simp_all [bufferClearStates]; try omega
       · first
         | exact Or.inr ⟨rfl, rfl⟩
         | exact Or.inr ⟨hs.symm, rfl⟩
         | (refine Or.inl ⟨?_, ?_⟩ <;> (try simp only [hs]) <;> (try dsimp only) <;>
             first | decide | omega))
    | simp at h

/-- Step shape of the PORT handler. -/
theorem onPort_step (m : Machine) (c : Option Char) (rem : List Char) (m1 : Machine)
    (hs : m.state = .PORT) (hg : ginv m) (h : onPort m c rem = .next m1) :
    stepShape m m1 := by
  obtain ⟨hp, hab, hbc⟩ := hg
  unfold onPort at h
  repeat' (first | split at h | dsimp only at h)
  all_goals first
    | (injection h with h2
       subst h2
       refine ⟨⟨by dsimp only; omega, ?_, ?_⟩, ?_⟩
       · intro hA; simp_all [bufferClearStates]; try omega
       · intro hS; simp_all [bufferClearStates]; try omega
       · first
         | exact Or.inr ⟨rfl, rfl⟩
         | exact Or.inr ⟨hs.symm, rfl⟩
         | (refine Or.inl ⟨?_, ?_⟩ <;> (try simp only [hs]) <;> (try dsimp only) <;>
             first | decide | omega))
    | simp at h

/-- Step shape of the FILE handler. -/
theorem onFile_step (m : Machine) (c : Option Char) (rem : List Char) (m1 : Machine)
    (hs : m.state = .FILE) (hg : ginv m) (h : onFile m c rem = .next m1) :
    stepShape m m1 := by
  obtain ⟨hp, hab, hbc⟩ := hg
  unfold onFile at h
  try unfold setVE at h
  try unfold shortenUrlPath at h
  repeat' (first | split at h | dsimp only at h)
  all_goals first
    | (injection h with h2
       subst h2
       refine ⟨⟨by dsimp only; omega, ?_, ?_⟩, ?_⟩
       · intro hA; simp_all [bufferClearStates]; try omega
       · intro hS; simp_all [bufferClearStates]; try omega
       · first
         | exact Or.inr ⟨rfl, rfl⟩
         | exact Or.inr ⟨hs.symm, rfl⟩
         | (refine Or.inl ⟨?_, ?_⟩ <;> (try simp only [hs]) <;> (try dsimp only) <;>
             first | decide | omega))
    | simp at h

/-- Step shape of the FILE_SLASH handler. -/
theorem onFileSlash_step (m : Machine) (c : Option Char) (rem : List Char) (m1 : Machine)
    (hs : m.state = .FILE_SLASH) (hg : ginv m) (h : onFileSlash m c rem = .next m1) :
    stepShape m m1 := by
  obtain ⟨hp, hab, hbc⟩ := hg
  unfold onFileSlash at h
  try unfold flagIf at h
  repeat' (first | split at h | dsimp only at h)
  all_goals first
    | (injection h with h2
       subst h2
       refine ⟨⟨by dsimp only; omega, ?_, ?_⟩, ?_⟩
       · intro hA; simp_all [bufferClearStates]; try omega
       · intro hS; simp_all [bufferClearStates]; try omega
       · first
         | exact Or.inr ⟨rfl, rfl⟩
         | exact Or.inr ⟨hs.symm, rfl⟩
         | (refine Or.inl ⟨?_, ?_⟩ <;> (try simp only [hs]) <;> (try dsimp only) <;>
             first | decide | omega))
    | simp at h

/-- Step shape of the FILE_HOST handler. -/
theorem onFileHost_step (m : Machine) (c : Option Char) (rem : List Char) (m1 : Machine)
    (hs : m.state = .FILE_HOST) (hg : ginv m) (h : onFileHost m c rem = .next m1) :
    stepShape m m1 := by
  obtain ⟨hp, hab, hbc⟩ := hg
  unfold onFileHost at h
  try unfold setVE at h
  repeat' (first | split at h | dsimp only at h)
  all_goals first
    | (injection h with h2
       subst h2
       refine ⟨⟨by dsimp only; omega, ?_, ?_⟩, ?_⟩
       · intro hA; simp_all [bufferClearStates]; try omega
       · intro hS; simp_all [bufferClearStates]; try omega
       · first
         | exact Or.inr ⟨rfl, rfl⟩
         | exact Or.inr ⟨hs.symm, rfl⟩
         | (refine Or.inl ⟨?_, ?_⟩ <;> (try simp only [hs]) <;> (try dsimp only) <;>
             first | decide | omega))
    | simp at h

/-- Step shape of the PATH_START handler. -/
theorem onPathStart_step (m : Machine) (c : Option Char) (rem : List Char) (m1 : Machine)
    (hs : m.state = .PATH_START) (hg : ginv m) (h : onPathStart m c rem = .next m1) :
    stepShape m m1 := by
  obtain ⟨hp, hab, hbc⟩ := hg
  unfold onPathStart at h
  try unfold flagIf at h
  repeat' (first | split at h | dsimp only at h)
  all_goals first
    | (injection h with h2
       subst h2
       refine ⟨⟨by dsimp only; omega, ?_, ?_⟩, ?_⟩
       · intro hA; simp_all [bufferClearStates]; try omega
       · intro hS; simp_all [bufferClearStates]; try omega
       · first
         | exact Or.inr ⟨rfl, rfl⟩
         | exact Or.inr ⟨hs.symm, rfl⟩
         | (refine Or.inl ⟨?_, ?_⟩ <;> (try simp only [hs]) <;> (try dsimp only) <;>
             first | decide | omega))
    | simp at h

/-- The drive-letter host clearing keeps state, pointer and buffer. -/
theorem pathDriveClearHost_state (m1 : Machine) :
    (pathDriveClearHost m1).state = m1.state := by
  unfold pathDriveClearHost
  try unfold setVE
  repeat' split
  all_goals rfl

/-- Pointer projection of the host clearing. -/
theorem pathDriveClearHost_pointer (m1 : Machine) :
    (pathDriveClearHost m1).pointer = m1.pointer := by
  unfold pathDriveClearHost
  try unfold setVE
  repeat' split
  all_goals rfl

/-- The segment commit keeps the state. -/
theorem pathCommitSegment_state (m1 : Machine) (c : Option Char) :
    (pathCommitSegment m1 c).state = m1.state := by
  unfold pathCommitSegment
  dsimp only
  repeat' split
  all_goals simp [pathDriveClearHost_state]

/-- The segment commit keeps the pointer. -/
theorem pathCommitSegment_pointer (m1 : Machine) (c : Option Char) :
    (pathCommitSegment m1 c).pointer = m1.pointer := by
  unfold pathCommitSegment
  dsimp only
  repeat' split
  all_goals simp [pathDriveClearHost_pointer]

/-- The segment commit clears the buffer. -/
theorem pathCommitSegment_buffer (m1 : Machine) (c : Option Char) :
    (pathCommitSegment m1 c).buffer = [] := rfl

/-- The file cleanup keeps the state. -/
theorem pathFileCleanup_state (m3 : Machine) (c : Option Char) :
    (pathFileCleanup m3 c).state = m3.state := by
  unfold pathFileCleanup
  repeat' split
  all_goals rfl

/-- The file cleanup keeps the pointer. -/
theorem pathFileCleanup_pointer (m3 : Machine) (c : Option Char) :
    (pathFileCleanup m3 c).pointer = m3.pointer := by
  unfold pathFileCleanup
  repeat' split
  all_goals rfl

/-- The file cleanup keeps the buffer. -/
theorem pathFileCleanup_buffer (m3 : Machine) (c : Option Char) :
    (pathFileCleanup m3 c).buffer = m3.buffer := by
  unfold pathFileCleanup
  repeat' split
  all_goals rfl

/-- The terminator branch of the path handler keeps the pointer, clears the
buffer, and either keeps the state or moves to the query or fragment state. -/
theorem pathTerminator_step (mq : Machine) (c : Option Char) (m2 : Machine)
    (h : pathTerminator mq c = .next m2) :
    (m2.state = .QUERY ∨ m2.state = .FRAGMENT ∨ m2.state = mq.state) ∧
    m2.pointer = mq.pointer ∧ m2.buffer = [] := by
  unfold pathTerminator at h
  dsimp only at h
  repeat' split at h
  all_goals (injection h with h2; subst h2)
  all_goals refine ⟨?_, ?_, ?_⟩
  all_goals simp [pathFileCleanup_state, pathCommitSegment_state, pathFileCleanup_pointer,
    pathCommitSegment_pointer, pathFileCleanup_buffer, pathCommitSegment_buffer]

/-- Step shape of the PATH handler. -/
theorem onPath_step (m : Machine) (c : Option Char) (rem : List Char) (m1 : Machine)
    (hs : m.state = .PATH) (hg : ginv m) (h : onPath m c rem = .next m1) :
    stepShape m m1 := by
  obtain ⟨hp, hab, hbc⟩ := hg
  unfold onPath at h
  dsimp only at h
  split at h
  · obtain ⟨hst, hptr, hbuf⟩ := pathTerminator_step _ c m1 h
    have hst2 : m1.state = .QUERY ∨ m1.state = .FRAGMENT ∨ m1.state = m.state := by
      rcases hst with h4 | h4 | h4
      · exact Or.inl h4
      · exact Or.inr (Or.inl h4)
      · exact Or.inr (Or.inr (h4.trans rfl))
    have hptr2 : m1.pointer = m.pointer := hptr.trans rfl
    refine ⟨⟨?_, ?_, ?_⟩, ?_⟩
    · show (0 : Int) ≤ m1.pointer + 1
      omega
    · intro hA
      show ((m1.buffer.length : Int)) ≤ m1.pointer + 1
      rw [hbuf]
      simp only [List.length_nil]
      omega
    · intro hS
      exact hbuf
    · rcases hst2 with h4 | h4 | h4
      · exact Or.inl ⟨by rw [hs, h4]; decide, by omega⟩
      · exact Or.inl ⟨by rw [hs, h4]; decide, by omega⟩
      · exact Or.inr ⟨h4, hptr2⟩
  · rcases c with _ | ch
    · dsimp only at h
      injection h with h2
      subst h2
      refine ⟨⟨?_, ?_, ?_⟩, Or.inr ⟨rfl, rfl⟩⟩
      · show (0 : Int) ≤ m.pointer + 1
        omega
      · intro hA
        have hA2 : m.state = .AUTHORITY := hA
        rw [hs] at hA2
        exact absurd hA2 (by decide)
      · intro hS
        have hS2 : m.state ∈ bufferClearStates := hS
        rw [hs] at hS2
        exact absurd hS2 (by decide)
    · dsimp only at h
      injection h with h2
      subst h2
      refine ⟨⟨?_, ?_, ?_⟩, Or.inr ⟨rfl, rfl⟩⟩
      · show (0 : Int) ≤ m.pointer + 1
        omega
      · intro hA
        have hA2 : m.state = .AUTHORITY := hA
        rw [hs] at hA2
        exact absurd hA2 (by decide)
      · intro hS
        have hS2 : m.state ∈ bufferClearStates := hS
        rw [hs] at hS2
        exact absurd hS2 (by decide)


/-- Step shape of the CANNOT_BE_BASE_URL handler. -/
theorem onCannotBeBaseUrl_step (m : Machine) (c : Option Char) (rem : List Char) (m1 : Machine)
    (hs : m.state = .CANNOT_BE_BASE_URL) (hg : ginv m) (h : onCannotBeBaseUrl m c rem = .next m1) :
    stepShape m m1 := by
  obtain ⟨hp, hab, hbc⟩ := hg
  unfold onCannotBeBaseUrl at h
  try unfold flagIf at h
  repeat' (first | split at h | dsimp only at h)
  all_goals first
    | (injection h with h2
       subst h2
       refine ⟨⟨by dsimp only; omega, ?_, ?_⟩, ?_⟩
       · intro hA; simp_all [bufferClearStates]; try omega
       · intro hS; simp_all [bufferClearStates]; try omega
       · first
         | exact Or.inr ⟨rfl, rfl⟩
         | exact Or.inr ⟨hs.symm, rfl⟩
         | (refine Or.inl ⟨?_, ?_⟩ <;> (try simp only [hs]) <;> (try dsimp only) <;>
             first | decide | omega))
    | simp at h

/-- Step shape of the QUERY handler. -/
theorem onQuery_step (m : Machine) (c : Option Char) (rem : List Char) (m1 : Machine)
    (hs : m.state = .QUERY) (hg : ginv m) (h : onQuery m c rem = .next m1) :
    stepShape m m1 := by
  obtain ⟨hp, hab, hbc⟩ := hg
  unfold onQuery at h
  try unfold queryEncodingReset at h
  try unfold flagIf at h
  repeat' (first | split at h | dsimp only at h)
  all_goals first
    | (injection h with h2
       subst h2
       refine ⟨⟨by dsimp only; omega, ?_, ?_⟩, ?_⟩
       · intro hA; simp_all [bufferClearStates]; try omega
       · intro hS; simp_all [bufferClearStates]; try omega
       · first
         | exact Or.inr ⟨rfl, rfl⟩
         | exact Or.inr ⟨hs.symm, rfl⟩
         | (refine Or.inl ⟨?_, ?_⟩ <;> (try simp only [hs]) <;> (try dsimp only) <;>
             first | decide | omega))
    | simp at h

/-- Step shape of the FRAGMENT handler. -/
theorem onFragment_step (m : Machine) (c : Option Char) (rem : List Char) (m1 : Machine)
    (hs : m.state = .FRAGMENT) (hg : ginv m) (h : onFragment m c rem = .next m1) :
    stepShape m m1 := by
  obtain ⟨hp, hab, hbc⟩ := hg
  unfold onFragment at h
  try unfold setVE at h
  try unfold flagIf at h
  repeat' (first | split at h | dsimp only at h)
  all_goals first
    | (injection h with h2
       subst h2
       refine ⟨⟨by dsimp only; omega, ?_, ?_⟩, ?_⟩
       · intro hA; simp_all [bufferClearStates]; try omega
       · intro hS; simp_all [bufferClearStates]; try omega
       · first
         | exact Or.inr ⟨rfl, rfl⟩
         | exact Or.inr ⟨hs.symm, rfl⟩
         | (refine Or.inl ⟨?_, ?_⟩ <;> (try simp only [hs]) <;> (try dsimp only) <;>
             first | decide | omega))
    | simp at h

/-- Every accepted step of the handler table has the step shape. -/
theorem handle_step (m : Machine) (c : Option Char) (rem : List Char) (m1 : Machine)
    (hg : ginv m) (h : handle m c rem = .next m1) : stepShape m m1 := by
  cases hs : m.state
  all_goals simp only [handle, hs] at h
  exacts [onSchemeStart_step m c rem m1 hs hg h, onScheme_step m c rem m1 hs hg h,
    onNoScheme_step m c rem m1 hs hg h, onSpecialRelativeOrAuthority_step m c rem m1 hs hg h,
    onPathOrAuthority_step m c rem m1 hs hg h, onRelative_step m c rem m1 hs hg h,
    onRelativeSlash_step m c rem m1 hs hg h, onSpecialAuthoritySlashes_step m c rem m1 hs hg h,
    onSpecialAuthorityIgnoreSlashes_step m c rem m1 hs hg h, onAuthority_step m c rem m1 hs hg h,
    onHost_step m c rem m1 hs hg h, onHostname_step m c rem m1 hs hg h,
    onPort_step m c rem m1 hs hg h, onFile_step m c rem m1 hs hg h,
    onFileSlash_step m c rem m1 hs hg h, onFileHost_step m c rem m1 hs hg h,
    onPathStart_step m c rem m1 hs hg h, onPath_step m c rem m1 hs hg h,
    onCannotBeBaseUrl_step m c rem m1 hs hg h, onQuery_step m c rem m1 hs hg h,
    onFragment_step m c rem m1 hs hg h]

/-- Each of the 21 states has rank at most 21. -/
theorem val_le_21 (s : ParserState) : s.val ≤ 21 := by
  cases s <;> decide

/-- Each state has rank at least 1. -/
theorem one_le_val (s : ParserState) : 1 ≤ s.val := by
  cases s <;> decide

/-- The termination measure of the driver on an input of length E:
lexicographic in the state rank (which 20 transitions at most can increase)
and in the distance of the pointer from the end of the input. -/
def loopMeasure (E : Nat) (m : Machine) : Nat :=
  (21 - m.state.val) * (E + 4) + (((E : Int) + 2) - m.pointer).toNat

/-- A handler step followed by the driver increment strictly decreases the
measure whenever the pointer had not yet passed the EOF sentinel. -/
theorem loopMeasure_step (E : Nat) (m m1 : Machine) (hs : stepShape m m1)
    (hpe : m.pointer ≤ (E : Int)) (hp : 0 ≤ m.pointer) :
    loopMeasure E { m1 with pointer := m1.pointer + 1 } < loopMeasure E m := by
  obtain ⟨⟨hp1, _, _⟩, hdisj⟩ := hs
  unfold loopMeasure
  dsimp only
  rcases hdisj with ⟨hlt, hm1⟩ | ⟨hst, hpt⟩
  · have h21 : m1.state.val ≤ 21 := val_le_21 m1.state
    have h1 : (21 - m1.state.val + 1) * (E + 4) ≤ (21 - m.state.val) * (E + 4) :=
      Nat.mul_le_mul_right _ (by omega)
    rw [Nat.succ_mul] at h1
    omega
  · rw [hst, hpt]
    omega

/-- Hypothesis-free halting predicate on outcomes: everything except fuel
exhaustion. -/
def Outcome.halts : Outcome → Bool
  | .fuelOut => false
  | _ => true

/-- The fueled driver never exhausts fuel exceeding the measure of a machine
satisfying the invariant. -/
theorem runLoop_halts (fuel : Nat) : ∀ (data : List Char) (m : Machine),
    ginv m → loopMeasure data.length m < fuel →
    (runLoop fuel data m).halts = true := by
  induction fuel with
  | zero => intro data m _ hmu; exact absurd hmu (by omega)
  | succ fuel ih =>
    intro data m hg hmu
    have hp : 0 ≤ m.pointer := hg.1
    rw [runLoop]
    try dsimp only
    split
    · rename_i hpe
      cases hh : handle m none [] with
      | next m1 =>
        have hss := handle_step m none [] m1 hg hh
        refine ih data _ hss.1 ?_
        have hdec := loopMeasure_step data.length m m1 hss (le_of_eq hpe) hp
        omega
      | ret m1 => rfl
      | err => rfl
      | crash => rfl
    · rename_i hne
      split
      · rename_i hlt
        cases hidx : pyIndex data m.pointer with
        | none => rfl
        | some ch =>
          dsimp only
          cases hh : handle m (some ch) (pySliceFrom data (m.pointer + 1)) with
          | next m1 =>
            have hss := handle_step m (some ch) (pySliceFrom data (m.pointer + 1)) m1 hg hh
            refine ih data _ hss.1 ?_
            have hdec := loopMeasure_step data.length m m1 hss (le_of_lt hlt) hp
            omega
          | ret m1 => rfl
          | err => rfl
          | crash => rfl
      · rfl

/-- C10 (confirmed): the parse loop of the source terminates on every finite
input, base, encoding and state override.  In the fueled embedding the driver
runs with fuel 21*(n+4)+1 for a preprocessed input of length n, and it never
returns the fuel-exhaustion outcome: every handler step either strictly
increases the parser state rank (possible at most 20 times) or leaves the
state in place while advancing the pointer by exactly one, the pointer never
drops below -1 (the authority rewind by buffer length plus one is bounded
because the buffer was filled from the pointer positions just scanned), and
repeated EOF-sentinel steps advance the pointer past the end.  So the parse
always returns a URL, a parser error, or a modelled Python exception. -/
theorem c10_parse_loop_terminates (url0 : Url) (base : Option Url)
    (encoding : Option (List Char)) (stateOverride : Option ParserState)
    (data : List Char) :
    (parseWith url0 base encoding stateOverride data).halts = true := by
  unfold parseWith
  apply runLoop_halts
  · exact ⟨le_refl 0, fun _ => by simp, fun _ => rfl⟩
  · have h1 : 1 ≤ (stateOverride.getD .SCHEME_START).val :=
      one_le_val (stateOverride.getD .SCHEME_START)
    unfold loopMeasure fuelBound
    dsimp only
    have h2 : (21 - (stateOverride.getD .SCHEME_START).val) *
        ((removeTabsNewlines (trimTrailingFlag (trimLeadingFlag data).1).1).length + 4) ≤
        20 * ((removeTabsNewlines (trimTrailingFlag (trimLeadingFlag data).1).1).length + 4) :=
      Nat.mul_le_mul_right _ (by omega)
    omega

/-! ### Claim C7: port handling -/

/-- The port invariant of the source: a stored port never equals the default
port of the scheme (SPECIAL_SCHEMES lookup). -/
def portOkB (u : Url) : Bool :=
  match u.port, defaultPortPy u.scheme with
  | some p, some d => decide (p ≠ d)
  | _, _ => true

/-- The optional base respects the port invariant (vacuously when absent). -/
def baseOkB : Option Url → Bool
  | none => true
  | some b => portOkB b

/-- portOkB depends only on the port and the scheme. -/
theorem portOkB_eq (u v : Url) (h1 : u.port = v.port) (h2 : u.scheme = v.scheme) :
    portOkB u = portOkB v := by
  unfold portOkB
  rw [h1, h2]

/-- Transfer of portOkB along equal port and scheme. -/
theorem portOkB_true_of (u v : Url) (h1 : u.port = v.port) (h2 : u.scheme = v.scheme)
    (h : portOkB v = true) : portOkB u = true := by
  rw [portOkB_eq u v h1 h2]
  exact h

/-- A URL without a port satisfies the port invariant. -/
theorem portOkB_none (u : Url) (h : u.port = none) : portOkB u = true := by
  unfold portOkB
  rw [h]

/-- A file URL satisfies the port invariant whatever its port, because file
has no default port. -/
theorem portOkB_file (u : Url) (h : u.scheme = some (str "file")) :
    portOkB u = true := by
  unfold portOkB
  rw [h]
  cases u.port <;> rfl

/-- The drop-to-none assignment of the port handler establishes the port
invariant. -/
theorem portOkB_set (u : Url) (p : Nat) :
    portOkB { u with port := if defaultPortPy u.scheme = some p then none else some p } = true := by
  unfold portOkB
  dsimp only
  rcases hd : defaultPortPy u.scheme with _ | d
  · simp
  · by_cases hdp : d = p
    · simp [hdp]
    · simp [hdp]
      omega

/-- A port different from the scheme default satisfies the invariant. -/
theorem portOkB_some (u : Url) (p : Nat) (h : u.port = some p)
    (hd : defaultPortPy u.scheme ≠ some p) : portOkB u = true := by
  unfold portOkB
  rw [h]
  rcases hq : defaultPortPy u.scheme with _ | d
  · rfl
  · rw [hq] at hd
    simp only [decide_eq_true_eq]
    intro hpd
    exact hd (by rw [hpd])

/-- The C7 loop invariant: the current URL and the base respect the port
invariant, there is no state override, in states up to RELATIVE_SLASH the
port is still absent unless the pointer has passed the EOF sentinel, and in
the relative-slash state the scheme has already been copied from the base. -/
def pinv (e : Int) (m : Machine) : Prop :=
  portOkB m.url = true ∧
  baseOkB m.base = true ∧
  m.stateOverride = none ∧
  (m.state.val ≤ 7 → m.url.port = none ∨ e < m.pointer) ∧
  (m.state = .RELATIVE_SLASH → ∀ b, m.base = some b → m.url.scheme = b.scheme)

/-- The C7 invariant transported over one handler result: re-established
after the pointer increment on a continue, impossible on an early return
(those all need a state override), and trivial on error or crash. -/
def pinvStep (e : Int) (r : StepResult) : Prop :=
  match r with
  | .next m1 => pinv e { m1 with pointer := m1.pointer + 1 }
  | .ret _ => False
  | .err => True
  | .crash => True

/-- Port-invariant preservation by the SCHEME_START handler. -/
theorem onSchemeStart_pinv (e : Int) (m : Machine) (c : Option Char) (rem : List Char)
    (hs : m.state = .SCHEME_START) (hI : pinv e m) (hpe : m.pointer ≤ e)
    (hce : c = none → m.pointer = e) :
    pinvStep e (onSchemeStart m c rem) := by
  obtain ⟨hpo, hbo, hso, h47, hrs⟩ := hI
  have hpn : m.url.port = none :=
    (h47 (by rw [hs]; decide)).resolve_right (by omega)
  unfold onSchemeStart
  repeat' (first | split | dsimp only)
  all_goals first
    | exact trivial
    | (refine ⟨?_, ?_, ?_, ?_, ?_⟩
       · first
         | exact hpo
         | exact portOkB_true_of _ m.url rfl rfl hpo
         | exact portOkB_none _ hpn
       · exact hbo
       · exact hso
       · intro hv
         try dsimp only at hv
         try rw [hs] at hv
         first
           | exact absurd hv (by decide)
           | exact Or.inl hpn
           | exact Or.inl rfl
       · intro hv
         try dsimp only at hv
         try rw [hs] at hv
         exact absurd hv (by decide))
    | simp_all


/-- The scheme dispatch preserves the C7 invariant when the port is still
absent. -/
theorem schemeDispatch_pinv (e : Int) (m1 : Machine) (rem : List Char)
    (hpn : m1.url.port = none) (hbo : baseOkB m1.base = true)
    (hso : m1.stateOverride = none) :
    pinvStep e (schemeDispatch m1 rem) := by
  unfold schemeDispatch
  try unfold flagIf
  repeat' (first | split | dsimp only)
  all_goals refine ⟨portOkB_none _ hpn, hbo, hso, ?_, ?_⟩
  all_goals intro hv
  all_goals try dsimp only at hv
  all_goals first
    | exact absurd hv (by decide)
    | exact Or.inl hpn

/-- Port-invariant preservation by the SCHEME handler. -/
theorem onScheme_pinv (e : Int) (m : Machine) (c : Option Char) (rem : List Char)
    (hs : m.state = .SCHEME) (hI : pinv e m) (hpe : m.pointer ≤ e)
    (hce : c = none → m.pointer = e) :
    pinvStep e (onScheme m c rem) := by
  obtain ⟨hpo, hbo, hso, h47, hrs⟩ := hI
  have hpn : m.url.port = none :=
    (h47 (by rw [hs]; decide)).resolve_right (by omega)
  unfold onScheme
  repeat' (first | split | dsimp only)
  all_goals first
    | exact trivial
    | (refine ⟨?_, ?_, ?_, ?_, ?_⟩
       · first
         | exact hpo
         | exact portOkB_true_of _ m.url rfl rfl hpo
         | exact portOkB_none _ hpn
       · exact hbo
       · exact hso
       · intro hv
         try dsimp only at hv
         try rw [hs] at hv
         first
           | exact absurd hv (by decide)
           | exact Or.inl hpn
           | exact Or.inl rfl
       · intro hv
         try dsimp only at hv
         try rw [hs] at hv
         exact absurd hv (by decide))
    | exact schemeDispatch_pinv e _ rem hpn hbo hso
    | simp_all


/-- Port-invariant preservation by the NO_SCHEME handler. -/
theorem onNoScheme_pinv (e : Int) (m : Machine) (c : Option Char) (rem : List Char)
    (hs : m.state = .NO_SCHEME) (hI : pinv e m) (hpe : m.pointer ≤ e)
    (hce : c = none → m.pointer = e) :
    pinvStep e (onNoScheme m c rem) := by
  obtain ⟨hpo, hbo, hso, h47, hrs⟩ := hI
  have hpn : m.url.port = none :=
    (h47 (by rw [hs]; decide)).resolve_right (by omega)
  unfold onNoScheme
  repeat' (first | split | dsimp only)
  all_goals first
    | exact trivial
    | (refine ⟨?_, ?_, ?_, ?_, ?_⟩
       · first
         | exact hpo
         | exact portOkB_true_of _ m.url rfl rfl hpo
         | exact portOkB_none _ hpn
       · exact hbo
       · exact hso
       · intro hv
         try dsimp only at hv
         try rw [hs] at hv
         first
           | exact absurd hv (by decide)
           | exact Or.inl hpn
           | exact Or.inl rfl
       · intro hv
         try dsimp only at hv
         try rw [hs] at hv
         exact absurd hv (by decide))
    | simp_all


/-- Port-invariant preservation by the SPECIAL_RELATIVE_OR_AUTHORITY handler. -/
theorem onSpecialRelativeOrAuthority_pinv (e : Int) (m : Machine) (c : Option Char) (rem : List Char)
    (hs : m.state = .SPECIAL_RELATIVE_OR_AUTHORITY) (hI : pinv e m) (hpe : m.pointer ≤ e)
    (hce : c = none → m.pointer = e) :
    pinvStep e (onSpecialRelativeOrAuthority m c rem) := by
  obtain ⟨hpo, hbo, hso, h47, hrs⟩ := hI
  have hpn : m.url.port = none :=
    (h47 (by rw [hs]; decide)).resolve_right (by omega)
  unfold onSpecialRelativeOrAuthority
  try unfold setVE
  repeat' (first | split | dsimp only)
  all_goals first
    | exact trivial
    | (refine ⟨?_, ?_, ?_, ?_, ?_⟩
       · first
         | exact hpo
         | exact portOkB_true_of _ m.url rfl rfl hpo
         | exact portOkB_none _ hpn
       · exact hbo
       · exact hso
       · intro hv
         try dsimp only at hv
         try rw [hs] at hv
         first
           | exact absurd hv (by decide)
           | exact Or.inl hpn
           | exact Or.inl rfl
       · intro hv
         try dsimp only at hv
         try rw [hs] at hv
         exact absurd hv (by decide))
    | simp_all


/-- Port-invariant preservation by the PATH_OR_AUTHORITY handler. -/
theorem onPathOrAuthority_pinv (e : Int) (m : Machine) (c : Option Char) (rem : List Char)
    (hs : m.state = .PATH_OR_AUTHORITY) (hI : pinv e m) (hpe : m.pointer ≤ e)
    (hce : c = none → m.pointer = e) :
    pinvStep e (onPathOrAuthority m c rem) := by
  obtain ⟨hpo, hbo, hso, h47, hrs⟩ := hI
  have hpn : m.url.port = none :=
    (h47 (by rw [hs]; decide)).resolve_right (by omega)
  unfold onPathOrAuthority
  repeat' (first | split | dsimp only)
  all_goals first
    | exact trivial
    | (refine ⟨?_, ?_, ?_, ?_, ?_⟩
       · first
         | exact hpo
         | exact portOkB_true_of _ m.url rfl rfl hpo
         | exact portOkB_none _ hpn
       · exact hbo
       · exact hso
       · intro hv
         try dsimp only at hv
         try rw [hs] at hv
         first
           | exact absurd hv (by decide)
           | exact Or.inl hpn
           | exact Or.inl rfl
       · intro hv
         try dsimp only at hv
         try rw [hs] at hv
         exact absurd hv (by decide))
    | simp_all


/-- Port-invariant preservation by the RELATIVE handler. -/
theorem onRelative_pinv (e : Int) (m : Machine) (c : Option Char) (rem : List Char)
    (hs : m.state = .RELATIVE) (hI : pinv e m) (hpe : m.pointer ≤ e)
    (hce : c = none → m.pointer = e) :
    pinvStep e (onRelative m c rem) := by
  obtain ⟨hpo, hbo, hso, h47, hrs⟩ := hI
  have hpn : m.url.port = none :=
    (h47 (by rw [hs]; decide)).resolve_right (by omega)
  unfold onRelative
  try unfold setVE
  rcases hbq : m.base with _ | b
  · dsimp only
    exact trivial
  · have hb : portOkB b = true := by
      rw [hbq] at hbo
      exact hbo
    dsimp only
    rcases c with _ | ch
    · have hpt : m.pointer = e := hce rfl
      dsimp only
      refine ⟨portOkB_true_of _ b rfl rfl hb, hb, hso, ?_, ?_⟩
      · intro hv
        exact Or.inr (by dsimp only; omega)
      · intro hv
        try dsimp only at hv
        try rw [hs] at hv
        exact absurd hv (by decide)
    · dsimp only
      repeat' (first | split | dsimp only)
      all_goals refine ⟨?_, hb, hso, ?_, ?_⟩
      all_goals first
        | exact portOkB_none _ hpn
        | exact portOkB_true_of _ b rfl rfl hb
        | (intro hv
           try dsimp only at hv
           first
             | exact absurd hv (by decide)
             | exact Or.inl hpn
             | (intro b2 hb2
                have hb4 : some b = some b2 := hb2
                injection hb4 with hb3
                subst hb3
                rfl))

/-- Port-invariant preservation by the RELATIVE_SLASH handler. -/
theorem onRelativeSlash_pinv (e : Int) (m : Machine) (c : Option Char) (rem : List Char)
    (hs : m.state = .RELATIVE_SLASH) (hI : pinv e m) (hpe : m.pointer ≤ e)
    (hce : c = none → m.pointer = e) :
    pinvStep e (onRelativeSlash m c rem) := by
  obtain ⟨hpo, hbo, hso, h47, hrs⟩ := hI
  have hpn : m.url.port = none :=
    (h47 (by rw [hs]; decide)).resolve_right (by omega)
  unfold onRelativeSlash
  try unfold setVE
  try unfold flagIf
  repeat' (first | split | dsimp only)
  all_goals try (
    refine ⟨portOkB_none _ hpn, hbo, hso, ?_, ?_⟩
    · intro hv
      exact absurd hv (by dsimp only; decide)
    · intro hv
      exact absurd hv (by dsimp only; decide))
  all_goals try exact trivial
  rename_i b heq
  have hb : portOkB b = true := by
    rw [heq] at hbo
    exact hbo
  have hsch : m.url.scheme = b.scheme := hrs hs b heq
  refine ⟨portOkB_true_of _ b rfl hsch hb, hbo, hso, ?_, ?_⟩
  · intro hv
    exact absurd hv (by dsimp only; decide)
  · intro hv
    exact absurd hv (by dsimp only; decide)


/-- Port-invariant preservation by the SPECIAL_AUTHORITY_SLASHES handler. -/
theorem onSpecialAuthoritySlashes_pinv (e : Int) (m : Machine) (c : Option Char) (rem : List Char)
    (hs : m.state = .SPECIAL_AUTHORITY_SLASHES) (hI : pinv e m) (hpe : m.pointer ≤ e)
    (hce : c = none → m.pointer = e) :
    pinvStep e (onSpecialAuthoritySlashes m c rem) := by
  obtain ⟨hpo, hbo, hso, h47, hrs⟩ := hI
  unfold onSpecialAuthoritySlashes
  try unfold setVE
  repeat' (first | split | dsimp only)
  all_goals first
    | exact trivial
    | (refine ⟨?_, ?_, ?_, ?_, ?_⟩
       · first
         | exact hpo
         | exact portOkB_true_of _ m.url rfl rfl hpo
       · exact hbo
       · exact hso
       · intro hv
         try dsimp only at hv
         try rw [hs] at hv
         first
           | exact absurd hv (by decide)
           | exact Or.inl rfl
       · intro hv
         try dsimp only at hv
         try rw [hs] at hv
         exact absurd hv (by decide))
    | simp_all


/-- Port-invariant preservation by the SPECIAL_AUTHORITY_IGNORE_SLASHES handler. -/
theorem onSpecialAuthorityIgnoreSlashes_pinv (e : Int) (m : Machine) (c : Option Char) (rem : List Char)
    (hs : m.state = .SPECIAL_AUTHORITY_IGNORE_SLASHES) (hI : pinv e m) (hpe : m.pointer ≤ e)
    (hce : c = none → m.pointer = e) :
    pinvStep e (onSpecialAuthorityIgnoreSlashes m c rem) := by
  obtain ⟨hpo, hbo, hso, h47, hrs⟩ := hI
  unfold onSpecialAuthorityIgnoreSlashes
  try unfold setVE
  repeat' (first | split | dsimp only)
  all_goals first
    | exact trivial
    | (refine ⟨?_, ?_, ?_, ?_, ?_⟩
       · first
         | exact hpo
         | exact portOkB_true_of _ m.url rfl rfl hpo
       · exact hbo
       · exact hso
       · intro hv
         try dsimp only at hv
         try rw [hs] at hv
         first
           | exact absurd hv (by decide)
           | exact Or.inl rfl
       · intro hv
         try dsimp only at hv
         try rw [hs] at hv
         exact absurd hv (by decide))
    | simp_all


/-- Port-invariant preservation by the AUTHORITY handler. -/
theorem onAuthority_pinv (e : Int) (m : Machine) (c : Option Char) (rem : List Char)
    (hs : m.state = .AUTHORITY) (hI : pinv e m) (hpe : m.pointer ≤ e)
    (hce : c = none → m.pointer = e) :
    pinvStep e (onAuthority m c rem) := by
  obtain ⟨hpo, hbo, hso, h47, hrs⟩ := hI
  unfold onAuthority
  try unfold setVE
  repeat' (first | split | dsimp only)
  all_goals first
    | exact trivial
    | (refine ⟨?_, ?_, ?_, ?_, ?_⟩
       · first
         | exact hpo
         | exact portOkB_true_of _ m.url rfl rfl hpo
       · exact hbo
       · exact hso
       · intro hv
         try dsimp only at hv
         try rw [hs] at hv
         first
           | exact absurd hv (by decide)
           | exact Or.inl rfl
       · intro hv
         try dsimp only at hv
         try rw [hs] at hv
         exact absurd hv (by decide))
    | simp_all


/-- Port-invariant preservation by the HOST handler. -/
theorem onHost_pinv (e : Int) (m : Machine) (c : Option Char) (rem : List Char)
    (hs : m.state = .HOST) (hI : pinv e m) (hpe : m.pointer ≤ e)
    (hce : c = none → m.pointer = e) :
    pinvStep e (onHostOrHostname m c rem) := by
  obtain ⟨hpo, hbo, hso, h47, hrs⟩ := hI
  unfold onHostOrHostname
  try unfold setVE
  repeat' (first | split | dsimp only)
  all_goals first
    | exact trivial
    | (refine ⟨?_, ?_, ?_, ?_, ?_⟩
       · first
         | exact hpo
         | exact portOkB_true_of _ m.url rfl rfl hpo
       · exact hbo
       · exact hso
       · intro hv
         try dsimp only at hv
         try rw [hs] at hv
         first
           | exact absurd hv (by decide)
           | exact Or.inl rfl
       · intro hv
         try dsimp only at hv
         try rw [hs] at hv
         exact absurd hv (by decide))
    | simp_all


/-- Port-invariant preservation by the HOSTNAME handler. -/
theorem onHostname_pinv (e : Int) (m : Machine) (c : Option Char) (rem : List Char)
    (hs : m.state = .HOSTNAME) (hI : pinv e m) (hpe : m.pointer ≤ e)
    (hce : c = none → m.pointer = e) :
    pinvStep e (onHostOrHostname m c rem) := by
  obtain ⟨hpo, hbo, hso, h47, hrs⟩ := hI
  unfold onHostOrHostname
  try unfold setVE
  repeat' (first | split | dsimp only)
  all_goals first
    | exact trivial
    | (refine ⟨?_, ?_, ?_, ?_, ?_⟩
       · first
         | exact hpo
         | exact portOkB_true_of _ m.url rfl rfl hpo
       · exact hbo
       · exact hso
       · intro hv
         try dsimp only at hv
         try rw [hs] at hv
         first
           | exact absurd hv (by decide)
           | exact Or.inl rfl
       · intro hv
         try dsimp only at hv
         try rw [hs] at hv
         exact absurd hv (by decide))
    | simp_all


/-- Port-invariant preservation by the PORT handler. -/
theorem onPort_pinv (e : Int) (m : Machine) (c : Option Char) (rem : List Char)
    (hs : m.state = .PORT) (hI : pinv e m) (hpe : m.pointer ≤ e)
    (hce : c = none → m.pointer = e) :
    pinvStep e (onPort m c rem) := by
  obtain ⟨hpo, hbo, hso, h47, hrs⟩ := hI
  unfold onPort
  repeat' (first | split | dsimp only)
  all_goals first
    | exact trivial
    | (refine ⟨?_, ?_, ?_, ?_, ?_⟩
       · first
         | exact hpo
         | exact portOkB_true_of _ m.url rfl rfl hpo
         | exact portOkB_none _ rfl
         | exact portOkB_some _ (digitsToNat m.buffer) rfl (by assumption)
       · exact hbo
       · exact hso
       · intro hv
         try dsimp only at hv
         try rw [hs] at hv
         first
           | exact absurd hv (by decide)
           | exact Or.inl rfl
       · intro hv
         try dsimp only at hv
         try rw [hs] at hv
         exact absurd hv (by decide))
    | simp_all


/-- Port-invariant preservation by the FILE handler. -/
theorem onFile_pinv (e : Int) (m : Machine) (c : Option Char) (rem : List Char)
    (hs : m.state = .FILE) (hI : pinv e m) (hpe : m.pointer ≤ e)
    (hce : c = none → m.pointer = e) :
    pinvStep e (onFile m c rem) := by
  obtain ⟨hpo, hbo, hso, h47, hrs⟩ := hI
  unfold onFile
  try unfold setVE
  repeat' (first | split | dsimp only)
  all_goals first
    | exact trivial
    | (refine ⟨?_, ?_, ?_, ?_, ?_⟩
       · first
         | exact hpo
         | exact portOkB_true_of _ m.url rfl rfl hpo
         | exact portOkB_file _ (by first | rfl | (rw [shortenUrlPath_scheme]; try rfl))
       · exact hbo
       · exact hso
       · intro hv
         try dsimp only at hv
         try rw [hs] at hv
         first
           | exact absurd hv (by decide)
           | exact Or.inl rfl
       · intro hv
         try dsimp only at hv
         try rw [hs] at hv
         exact absurd hv (by decide))
    | simp_all


/-- Port-invariant preservation by the FILE_SLASH handler. -/
theorem onFileSlash_pinv (e : Int) (m : Machine) (c : Option Char) (rem : List Char)
    (hs : m.state = .FILE_SLASH) (hI : pinv e m) (hpe : m.pointer ≤ e)
    (hce : c = none → m.pointer = e) :
    pinvStep e (onFileSlash m c rem) := by
  obtain ⟨hpo, hbo, hso, h47, hrs⟩ := hI
  unfold onFileSlash
  try unfold flagIf
  repeat' (first | split | dsimp only)
  all_goals first
    | exact trivial
    | (refine ⟨?_, ?_, ?_, ?_, ?_⟩
       · first
         | exact hpo
         | exact portOkB_true_of _ m.url rfl rfl hpo
       · exact hbo
       · exact hso
       · intro hv
         try dsimp only at hv
         try rw [hs] at hv
         first
           | exact absurd hv (by decide)
           | exact Or.inl rfl
       · intro hv
         try dsimp only at hv
         try rw [hs] at hv
         exact absurd hv (by decide))
    | simp_all


/-- Port-invariant preservation by the FILE_HOST handler. -/
theorem onFileHost_pinv (e : Int) (m : Machine) (c : Option Char) (rem : List Char)
    (hs : m.state = .FILE_HOST) (hI : pinv e m) (hpe : m.pointer ≤ e)
    (hce : c = none → m.pointer = e) :
    pinvStep e (onFileHost m c rem) := by
  obtain ⟨hpo, hbo, hso, h47, hrs⟩ := hI
  unfold onFileHost
  try unfold setVE
  repeat' (first | split | dsimp only)
  all_goals first
    | exact trivial
    | (refine ⟨?_, ?_, ?_, ?_, ?_⟩
       · first
         | exact hpo
         | exact portOkB_true_of _ m.url rfl rfl hpo
       · exact hbo
       · exact hso
       · intro hv
         try dsimp only at hv
         try rw [hs] at hv
         first
           | exact absurd hv (by decide)
           | exact Or.inl rfl
       · intro hv
         try dsimp only at hv
         try rw [hs] at hv
         exact absurd hv (by decide))
    | simp_all


/-- Port-invariant preservation by the PATH_START handler. -/
theorem onPathStart_pinv (e : Int) (m : Machine) (c : Option Char) (rem : List Char)
    (hs : m.state = .PATH_START) (hI : pinv e m) (hpe : m.pointer ≤ e)
    (hce : c = none → m.pointer = e) :
    pinvStep e (onPathStart m c rem) := by
  obtain ⟨hpo, hbo, hso, h47, hrs⟩ := hI
  unfold onPathStart
  try unfold flagIf
  repeat' (first | split | dsimp only)
  all_goals first
    | exact trivial
    | (refine ⟨?_, ?_, ?_, ?_, ?_⟩
       · first
         | exact hpo
         | exact portOkB_true_of _ m.url rfl rfl hpo
       · exact hbo
       · exact hso
       · intro hv
         try dsimp only at hv
         try rw [hs] at hv
         first
           | exact absurd hv (by decide)
           | exact Or.inl rfl
       · intro hv
         try dsimp only at hv
         try rw [hs] at hv
         exact absurd hv (by decide))
    | simp_all


/-- shorten_url_path keeps the port. -/
theorem shortenUrlPath_port (u : Url) : (shortenUrlPath u).port = u.port := by
  unfold shortenUrlPath
  repeat' split
  all_goals rfl

/-- The drive-letter host clearing keeps the port. -/
theorem pathDriveClearHost_urlPort (m1 : Machine) :
    (pathDriveClearHost m1).url.port = m1.url.port := by
  unfold pathDriveClearHost
  try unfold setVE
  repeat' split
  all_goals rfl

/-- The drive-letter host clearing keeps the scheme. -/
theorem pathDriveClearHost_urlScheme (m1 : Machine) :
    (pathDriveClearHost m1).url.scheme = m1.url.scheme := by
  unfold pathDriveClearHost
  try unfold setVE
  repeat' split
  all_goals rfl

/-- The drive-letter host clearing keeps the base. -/
theorem pathDriveClearHost_base (m1 : Machine) :
    (pathDriveClearHost m1).base = m1.base := by
  unfold pathDriveClearHost
  try unfold setVE
  repeat' split
  all_goals rfl

/-- The drive-letter host clearing keeps the state override. -/
theorem pathDriveClearHost_stateOverride (m1 : Machine) :
    (pathDriveClearHost m1).stateOverride = m1.stateOverride := by
  unfold pathDriveClearHost
  try unfold setVE
  repeat' split
  all_goals rfl

/-- The segment commit keeps the port. -/
theorem pathCommitSegment_urlPort (m1 : Machine) (c : Option Char) :
    (pathCommitSegment m1 c).url.port = m1.url.port := by
  unfold pathCommitSegment
  dsimp only
  repeat' split
  all_goals simp [shortenUrlPath_port, pathDriveClearHost_urlPort]

/-- The segment commit keeps the scheme. -/
theorem pathCommitSegment_urlScheme (m1 : Machine) (c : Option Char) :
    (pathCommitSegment m1 c).url.scheme = m1.url.scheme := by
  unfold pathCommitSegment
  dsimp only
  repeat' split
  all_goals simp [shortenUrlPath_scheme, pathDriveClearHost_urlScheme]

/-- The segment commit keeps the base. -/
theorem pathCommitSegment_base (m1 : Machine) (c : Option Char) :
    (pathCommitSegment m1 c).base = m1.base := by
  unfold pathCommitSegment
  dsimp only
  repeat' split
  all_goals simp [pathDriveClearHost_base]

/-- The segment commit keeps the state override. -/
theorem pathCommitSegment_stateOverride (m1 : Machine) (c : Option Char) :
    (pathCommitSegment m1 c).stateOverride = m1.stateOverride := by
  unfold pathCommitSegment
  dsimp only
  repeat' split
  all_goals simp [pathDriveClearHost_stateOverride]

/-- The file cleanup keeps the port. -/
theorem pathFileCleanup_urlPort (m3 : Machine) (c : Option Char) :
    (pathFileCleanup m3 c).url.port = m3.url.port := by
  unfold pathFileCleanup
  repeat' split
  all_goals rfl

/-- The file cleanup keeps the scheme. -/
theorem pathFileCleanup_urlScheme (m3 : Machine) (c : Option Char) :
    (pathFileCleanup m3 c).url.scheme = m3.url.scheme := by
  unfold pathFileCleanup
  repeat' split
  all_goals rfl

/-- The file cleanup keeps the base. -/
theorem pathFileCleanup_base (m3 : Machine) (c : Option Char) :
    (pathFileCleanup m3 c).base = m3.base := by
  unfold pathFileCleanup
  repeat' split
  all_goals rfl

/-- The file cleanup keeps the state override. -/
theorem pathFileCleanup_stateOverride (m3 : Machine) (c : Option Char) :
    (pathFileCleanup m3 c).stateOverride = m3.stateOverride := by
  unfold pathFileCleanup
  repeat' split
  all_goals rfl

/-- The path terminator branch preserves the C7 invariant. -/
theorem pathTerminator_pinv (e : Int) (mq : Machine) (c : Option Char)
    (hpo : portOkB mq.url = true) (hbo : baseOkB mq.base = true)
    (hso : mq.stateOverride = none) (hst : mq.state = .PATH) :
    pinvStep e (pathTerminator mq c) := by
  have hport : (pathFileCleanup (pathCommitSegment mq c) c).url.port = mq.url.port := by
    rw [pathFileCleanup_urlPort, pathCommitSegment_urlPort]
  have hsch : (pathFileCleanup (pathCommitSegment mq c) c).url.scheme = mq.url.scheme := by
    rw [pathFileCleanup_urlScheme, pathCommitSegment_urlScheme]
  have hbase : (pathFileCleanup (pathCommitSegment mq c) c).base = mq.base := by
    rw [pathFileCleanup_base, pathCommitSegment_base]
  have hov : (pathFileCleanup (pathCommitSegment mq c) c).stateOverride = none := by
    rw [pathFileCleanup_stateOverride, pathCommitSegment_stateOverride]
    exact hso
  have hstt : (pathFileCleanup (pathCommitSegment mq c) c).state = .PATH := by
    rw [pathFileCleanup_state, pathCommitSegment_state]
    exact hst
  unfold pathTerminator
  dsimp only
  repeat' split
  all_goals refine ⟨portOkB_true_of _ mq.url hport hsch hpo, hbase ▸ hbo, hov, ?_, ?_⟩
  all_goals intro hv
  all_goals try dsimp only at hv
  all_goals try rw [hstt] at hv
  all_goals exact absurd hv (by decide)

/-- Port-invariant preservation by the PATH handler. -/
theorem onPath_pinv (e : Int) (m : Machine) (c : Option Char) (rem : List Char)
    (hs : m.state = .PATH) (hI : pinv e m) (hpe : m.pointer ≤ e)
    (hce : c = none → m.pointer = e) :
    pinvStep e (onPath m c rem) := by
  obtain ⟨hpo, hbo, hso, h47, hrs⟩ := hI
  unfold onPath
  try dsimp only
  split
  · exact pathTerminator_pinv e _ c hpo hbo hso hs
  · rcases c with _ | ch
    · dsimp only
      refine ⟨hpo, hbo, hso, ?_, ?_⟩
      · intro hv
        have hv2 : ParserState.val m.state ≤ 7 := hv
        rw [hs] at hv2
        exact absurd hv2 (by decide)
      · intro hv
        have hv2 : m.state = .RELATIVE_SLASH := hv
        rw [hs] at hv2
        exact absurd hv2 (by decide)
    · dsimp only
      refine ⟨portOkB_true_of _ m.url rfl rfl hpo, hbo, hso, ?_, ?_⟩
      · intro hv
        have hv2 : ParserState.val m.state ≤ 7 := hv
        rw [hs] at hv2
        exact absurd hv2 (by decide)
      · intro hv
        have hv2 : m.state = .RELATIVE_SLASH := hv
        rw [hs] at hv2
        exact absurd hv2 (by decide)

/-- Port-invariant preservation by the CANNOT_BE_BASE_URL handler. -/
theorem onCannotBeBaseUrl_pinv (e : Int) (m : Machine) (c : Option Char) (rem : List Char)
    (hs : m.state = .CANNOT_BE_BASE_URL) (hI : pinv e m) (hpe : m.pointer ≤ e)
    (hce : c = none → m.pointer = e) :
    pinvStep e (onCannotBeBaseUrl m c rem) := by
  obtain ⟨hpo, hbo, hso, h47, hrs⟩ := hI
  unfold onCannotBeBaseUrl
  try unfold flagIf
  repeat' (first | split | dsimp only)
  all_goals first
    | exact trivial
    | (refine ⟨?_, ?_, ?_, ?_, ?_⟩
       · first
         | exact hpo
         | exact portOkB_true_of _ m.url rfl rfl hpo
       · exact hbo
       · exact hso
       · intro hv
         try dsimp only at hv
         try rw [hs] at hv
         first
           | exact absurd hv (by decide)
           | exact Or.inl rfl
       · intro hv
         try dsimp only at hv
         try rw [hs] at hv
         exact absurd hv (by decide))
    | simp_all


/-- Port-invariant preservation by the QUERY handler. -/
theorem onQuery_pinv (e : Int) (m : Machine) (c : Option Char) (rem : List Char)
    (hs : m.state = .QUERY) (hI : pinv e m) (hpe : m.pointer ≤ e)
    (hce : c = none → m.pointer = e) :
    pinvStep e (onQuery m c rem) := by
  obtain ⟨hpo, hbo, hso, h47, hrs⟩ := hI
  unfold onQuery
  try unfold queryEncodingReset
  try unfold flagIf
  repeat' (first | split | dsimp only)
  all_goals first
    | exact trivial
    | (refine ⟨?_, ?_, ?_, ?_, ?_⟩
       · first
         | exact hpo
         | exact portOkB_true_of _ m.url rfl rfl hpo
       · exact hbo
       · exact hso
       · intro hv
         try dsimp only at hv
         try rw [hs] at hv
         first
           | exact absurd hv (by decide)
           | exact Or.inl rfl
       · intro hv
         try dsimp only at hv
         try rw [hs] at hv
         exact absurd hv (by decide))
    | simp_all

/-- Port-invariant preservation by the FRAGMENT handler. -/
theorem onFragment_pinv (e : Int) (m : Machine) (c : Option Char) (rem : List Char)
    (hs : m.state = .FRAGMENT) (hI : pinv e m) (hpe : m.pointer ≤ e)
    (hce : c = none → m.pointer = e) :
    pinvStep e (onFragment m c rem) := by
  obtain ⟨hpo, hbo, hso, h47, hrs⟩ := hI
  unfold onFragment
  try unfold setVE
  try unfold flagIf
  repeat' (first | split | dsimp only)
  all_goals first
    | exact trivial
    | (refine ⟨?_, ?_, ?_, ?_, ?_⟩
       · first
         | exact hpo
         | exact portOkB_true_of _ m.url rfl rfl hpo
       · exact hbo
       · exact hso
       · intro hv
         try dsimp only at hv
         try rw [hs] at hv
         first
           | exact absurd hv (by decide)
           | exact Or.inl rfl
       · intro hv
         try dsimp only at hv
         try rw [hs] at hv
         exact absurd hv (by decide))
    | simp_all


/-- Every handler-table step preserves the C7 invariant. -/
theorem handle_pinv (e : Int) (m : Machine) (c : Option Char) (rem : List Char)
    (hI : pinv e m) (hpe : m.pointer ≤ e) (hce : c = none → m.pointer = e) :
    pinvStep e (handle m c rem) := by
  cases hs : m.state
  all_goals simp only [handle, hs]
  exacts [onSchemeStart_pinv e m c rem hs hI hpe hce, onScheme_pinv e m c rem hs hI hpe hce,
    onNoScheme_pinv e m c rem hs hI hpe hce,
    onSpecialRelativeOrAuthority_pinv e m c rem hs hI hpe hce,
    onPathOrAuthority_pinv e m c rem hs hI hpe hce, onRelative_pinv e m c rem hs hI hpe hce,
    onRelativeSlash_pinv e m c rem hs hI hpe hce,
    onSpecialAuthoritySlashes_pinv e m c rem hs hI hpe hce,
    onSpecialAuthorityIgnoreSlashes_pinv e m c rem hs hI hpe hce,
    onAuthority_pinv e m c rem hs hI hpe hce, onHost_pinv e m c rem hs hI hpe hce,
    onHostname_pinv e m c rem hs hI hpe hce, onPort_pinv e m c rem hs hI hpe hce,
    onFile_pinv e m c rem hs hI hpe hce, onFileSlash_pinv e m c rem hs hI hpe hce,
    onFileHost_pinv e m c rem hs hI hpe hce, onPathStart_pinv e m c rem hs hI hpe hce,
    onPath_pinv e m c rem hs hI hpe hce, onCannotBeBaseUrl_pinv e m c rem hs hI hpe hce,
    onQuery_pinv e m c rem hs hI hpe hce, onFragment_pinv e m c rem hs hI hpe hce]

/-- A successful run of the driver from a machine satisfying the C7 invariant
returns a URL respecting the port invariant. -/
theorem runLoop_pinv (fuel : Nat) : ∀ (data : List Char) (m : Machine) (u : Url) (ve : Bool),
    pinv (data.length : Int) m → runLoop fuel data m = .ok u ve → portOkB u = true := by
  induction fuel with
  | zero =>
    intro data m u ve _ h
    rw [runLoop] at h
    exact Outcome.noConfusion h
  | succ fuel ih =>
    intro data m u ve hI hrun
    rw [runLoop] at hrun
    try dsimp only at hrun
    split at hrun
    · rename_i hpe
      have hps := handle_pinv (data.length : Int) m none [] hI (le_of_eq hpe) (fun _ => hpe)
      cases hh : handle m none [] with
      | next m1 =>
        rw [hh] at hrun hps
        exact ih data _ u ve hps hrun
      | ret m1 =>
        rw [hh] at hps
        exact hps.elim
      | err =>
        rw [hh] at hrun
        exact Outcome.noConfusion hrun
      | crash =>
        rw [hh] at hrun
        exact Outcome.noConfusion hrun
    · split at hrun
      · rename_i hne hlt
        cases hidx : pyIndex data m.pointer with
        | none =>
          rw [hidx] at hrun
          exact Outcome.noConfusion hrun
        | some ch =>
          rw [hidx] at hrun
          dsimp only at hrun
          have hps := handle_pinv (data.length : Int) m (some ch)
            (pySliceFrom data (m.pointer + 1)) hI (le_of_lt hlt)
            (fun hq => Option.noConfusion hq)
          cases hh : handle m (some ch) (pySliceFrom data (m.pointer + 1)) with
          | next m1 =>
            rw [hh] at hrun hps
            exact ih data _ u ve hps hrun
          | ret m1 =>
            rw [hh] at hps
            exact hps.elim
          | err =>
            rw [hh] at hrun
            exact Outcome.noConfusion hrun
          | crash =>
            rw [hh] at hrun
            exact Outcome.noConfusion hrun
      · injection hrun with h1 h2
        exact h1 ▸ hI.1

/-- C7 (confirmed): in the port state digits are accumulated into the buffer;
at a terminator the buffer is parsed as a base-10 integer and a value greater
than 65535 aborts the parse with a hard parser error; and the port stored in
a successfully parsed URL is never the default port of its scheme (a port
equal to the scheme default is dropped to absent), provided the base, when
present, itself respects that invariant. -/
theorem c7_port_handling :
    (∀ (m : Machine) (c : Option Char) (rem : List Char), opt1 asciiDigit c = true →
      onPort m c rem = .next { m with buffer := m.buffer ++ [c.getD ' '] }) ∧
    (∀ (m : Machine) (c : Option Char) (rem : List Char),
      opt1 asciiDigit c = false →
      (isDelim c ∨ (c = some (Char.ofNat 92) ∧ isSpecialO m.url.scheme = true) ∨
        m.stateOverride ≠ none) →
      m.buffer ≠ [] → digitsToNat m.buffer > 65535 →
      onPort m c rem = .err) ∧
    (∀ (data : List Char) (base : Option Url) (u : Url) (ve : Bool),
      baseOkB base = true → parseUrl data base = .ok u ve → portOkB u = true) := by
  refine ⟨?_, ?_, ?_⟩
  · intro m c rem h1
    unfold onPort
    rw [if_pos h1]
  · intro m c rem h1 h2 h3 h4
    unfold onPort
    rw [if_neg (by simp [h1]), if_pos h2, if_pos h3, if_pos (by omega)]
  · intro data base u ve hb hok
    unfold parseUrl parseWith at hok
    try dsimp only at hok
    refine runLoop_pinv _ _ _ u ve ?_ hok
    refine ⟨rfl, hb, rfl, fun _ => Or.inl rfl, fun hv => ?_⟩
    dsimp only at hv
    exact absurd hv (by decide)

/-- C7 witness: the three parts applied at concrete inputs.  Parsing
"foo://h:99/x" succeeds with port 99, which differs from the (absent) default
port of the scheme foo; a digit is accumulated; an overflowing port buffer is
rejected at a terminator. -/
theorem c7_port_handling_witness :
    portOkB { scheme := some (str "foo"), hostname := some (str "h"), port := some 99, path := [str "x"] } = true ∧
    onPort { state := .PORT } (some '7') [] = .next { state := .PORT, buffer := ['7'] } ∧
    onPort { state := .PORT, buffer := str "99999" } (some '/') [] = .err :=
  ⟨c7_port_handling.2.2 (str "foo://h:99/x") none { scheme := some (str "foo"), hostname := some (str "h"), port := some 99, path := [str "x"] } false rfl (by decide),
   c7_port_handling.1 { state := .PORT } (some '7') [] (by decide),
   c7_port_handling.2.1 { state := .PORT, buffer := str "99999" } (some '/') [] (by decide) (Or.inl (by decide)) (by decide) (by decide)⟩

end WhatwgUrl
